import Mathlib

/-!
# Modal menu and dynamic form of the `micro` fork (cmd/micro)

Shallow embedding of `hel_submenu_demo.go`, `helform_dynamic.go` and the input part of
`DoEvent` in `micro.go`.

* Go strings are byte sequences (`GoString`); `string(r)` is the UTF-8 encoding of a rune.
* Go `int` is 64 bit; it is embedded as `Int`, with `wrap64` wherever an operation can overflow.
* `*helMenu` pointers are addresses into a store of menu nodes (`State.heap`); the menu stack
  is a list of such addresses, so aliasing between an item's `sub` and the stack is kept.
* Package-level variables are the fields of `State`; a function that mutates them takes and
  returns a `State`.  A Go run-time panic (index out of range) is the result `none`.
* A menu action `func() (string, error)` is a closure that may touch any package variable; items
  carry an action identifier and the handlers take the interpretation of identifiers as an
  argument, so that a statement can quantify over every possible action.
* The clock is an input: a `time.Time` is a number of nanoseconds after the zero time, and a
  cycle of `DoEvent` takes the values that `time.Now` and `time.Since` read in its form section
  and in its menu section.  What the editor does with a routed event is outside the model; the
  result of a cycle says where the event went.
-/

namespace Micro

/-! ## Go strings -/

/-- A Go string: its bytes. -/
abbrev GoString := List Nat

/-- Go conversion `string(r)` of a rune to its UTF-8 bytes; surrogates and values above
U+10FFFF encode as U+FFFD. -/
def runeBytes (r : Nat) : GoString :=
  if r < 0x80 then [r]
  else if r < 0x800 then [0xC0 + r / 64, 0x80 + r % 64]
  else if (0xD800 ≤ r ∧ r < 0xE000) ∨ 0x10FFFF < r then [0xEF, 0xBF, 0xBD]
  else if r < 0x10000 then [0xE0 + r / 4096, 0x80 + r / 64 % 64, 0x80 + r % 64]
  else [0xF0 + r / 262144, 0x80 + r / 4096 % 64, 0x80 + r / 64 % 64, 0x80 + r % 64]

/-- A source string literal as a Go string. -/
def goStr (s : String) : GoString :=
  (s.data.map (fun c => runeBytes c.toNat)).flatten

/-! ## Key events (tcell) -/

/-- The key codes of `tcell` that the handlers distinguish; every other code is `other`. -/
inductive Key where
  | KeyRune
  | KeyEsc
  | KeyEnter
  | KeyTab
  | KeyBackspace
  | KeyBackspace2
  | KeyUp
  | KeyDown
  | KeyLeft
  | KeyRight
  | other (code : Nat)
  deriving DecidableEq, Repr

/-- A `*tcell.EventKey`: `Key()`, `Rune()` and the two bits of `Modifiers()` that are tested. -/
structure EventKey where
  key : Key
  rune : Nat
  modCtrl : Bool
  modAlt : Bool
  deriving DecidableEq, Repr

/-! ## Menu data (hel_submenu_demo.go) -/

/-- Address of a `helMenu` node. -/
abbrev Ptr := Nat

/-- The struct `helMenuItem`; `action` and `sub` are `none` when nil. -/
structure helMenuItem where
  key : Nat
  title : GoString
  action : Option Nat
  sub : Option Ptr
  deriving DecidableEq, Repr

/-- The struct `helMenu`. -/
structure helMenu where
  title : GoString
  items : List helMenuItem
  idx : Int
  deriving DecidableEq, Repr

/-! ## Form data (helform_dynamic.go) -/

/-- The enumeration `helFieldKind`. -/
inductive helFieldKind where
  | FText
  | FNumber
  | FCheckbox
  | FList
  deriving DecidableEq, Repr

/-- The struct `helField`. -/
structure helField where
  Label : GoString
  Kind : helFieldKind
  Value : GoString
  Min : Int
  Max : Int
  Bool : Bool
  Options : List GoString
  Index : Int
  deriving DecidableEq, Repr

/-! ## Package state -/

/-- The package-level variables of `cmd/micro` that the overlays use, the store of menu nodes,
and the messages handed to `action.InfoBar.Message` (oldest first). -/
structure State where
  helMenuActive : Bool
  helMenuStack : List Ptr
  heap : Ptr → helMenu
  next : Ptr
  formActive : Bool
  formIdx : Int
  form : List helField
  helLastEsc : Int
  helLastEscForm : Int
  infoBar : List GoString

/-- What a menu action returns: the message and the error text (`none` for a nil error). -/
abbrev ActResult := GoString × Option GoString

/-- Interpretation of action identifiers: running the closure on the package state. -/
abbrev Actions := Nat → State → ActResult × State

/-- The call `action.InfoBar.Message(msg)`. -/
def infoBarMessage (msg : GoString) (st : State) : State :=
  { st with infoBar := st.infoBar ++ [msg] }

/-! ## Open / close -/

/-- The function `helMenuCloseAll`. -/
def helMenuCloseAll (st : State) : State :=
  { st with helMenuStack := [], helMenuActive := false }

/-- The function `helCur`: the tail of the stack, `none` for nil. -/
def helCur (st : State) : Option Ptr :=
  st.helMenuStack.getLast?

/-- The function `helPush`. -/
def helPush (m : Ptr) (st : State) : State :=
  { st with helMenuStack := st.helMenuStack ++ [m] }

/-- The function `helPop`. -/
def helPop (st : State) : State :=
  if st.helMenuStack.length > 1 then
    { st with helMenuStack := st.helMenuStack.dropLast }
  else
    helMenuCloseAll st

/-- The assignment `m.idx = v` through a pointer. -/
def setIdx (m : Ptr) (v : Int) (st : State) : State :=
  { st with heap := Function.update st.heap m { st.heap m with idx := v } }

/-! ## Key handling -/

/-- The function `helSelect` (its first argument `cur` is not used by the body). -/
def helSelect (run : Actions) (it : helMenuItem) (st : State) : State × Bool :=
  match it.sub with
  | some sub => (helPush sub (setIdx sub 0 st), true)
  | none =>
    match it.action with
    | some a =>
      let r := run a st
      let st1 := helMenuCloseAll r.2
      match r.1.2 with
      | some err => (infoBarMessage (goStr "helmenu: erro: " ++ err) st1, true)
      | none =>
        if r.1.1 ≠ [] then (infoBarMessage r.1.1 st1, true) else (st1, true)
    | none => (helMenuCloseAll st, true)

/-- Go indexing `xs[i]` with an `int` index: `none` is the index-out-of-range panic. -/
def goIndex {α : Type} (xs : List α) (i : Int) : Option α :=
  if 0 ≤ i then xs[i.toNat]? else none

/-- The function `helMenuHandleKey`; `none` is a panic. -/
def helMenuHandleKey (run : Actions) (ev : EventKey) (st : State) : Option (State × Bool) :=
  if !st.helMenuActive then some (st, false)
  else
    match helCur st with
    | none => some (helMenuCloseAll st, true)
    | some cur =>
      let m := st.heap cur
      match ev.key with
      | .KeyEsc | .KeyBackspace | .KeyBackspace2 => some (helPop st, true)
      | .KeyUp =>
        if m.idx > 0 then some (setIdx cur (m.idx - 1) st, true)
        else some (setIdx cur ((m.items.length : Int) - 1) st, true)
      | .KeyDown =>
        if m.idx < (m.items.length : Int) - 1 then some (setIdx cur (m.idx + 1) st, true)
        else some (setIdx cur 0 st, true)
      | .KeyEnter =>
        match goIndex m.items m.idx with
        | none => none
        | some it => some (helSelect run it st)
      | _ =>
        match (if ev.rune ≠ 0 then m.items.find? (fun it => ev.rune == it.key) else none) with
        | some it => some (helSelect run it st)
        | none => some (helPop st, true)

/-- Handling a sequence of key events one after the other, stopping at a panic. -/
def helMenuHandleKeys (run : Actions) : List EventKey → State → Option State
  | [], st => some st
  | ev :: evs, st =>
    match helMenuHandleKey run ev st with
    | none => none
    | some r => helMenuHandleKeys run evs r.1

/-! ## Library string functions used by the form -/

/-- Byte sequences of the runes for which `unicode.IsSpace` holds: the six ASCII spaces,
U+0085, U+00A0, U+1680, U+2000..U+200A, U+2028, U+2029, U+202F, U+205F, U+3000. -/
def spaceSeqs : List GoString :=
  [[9], [10], [11], [12], [13], [32], [0xC2, 0x85], [0xC2, 0xA0], [0xE1, 0x9A, 0x80],
   [0xE2, 0x80, 0x80], [0xE2, 0x80, 0x81], [0xE2, 0x80, 0x82], [0xE2, 0x80, 0x83],
   [0xE2, 0x80, 0x84], [0xE2, 0x80, 0x85], [0xE2, 0x80, 0x86], [0xE2, 0x80, 0x87],
   [0xE2, 0x80, 0x88], [0xE2, 0x80, 0x89], [0xE2, 0x80, 0x8A], [0xE2, 0x80, 0xA8],
   [0xE2, 0x80, 0xA9], [0xE2, 0x80, 0xAF], [0xE2, 0x81, 0x9F], [0xE3, 0x80, 0x80]]

/-- Removing leading runes while they are in `seqs` (at most `fuel` of them). -/
def trimLeftAux (seqs : List GoString) : Nat → GoString → GoString
  | 0, s => s
  | fuel + 1, s =>
    match seqs.find? (fun p => p.isPrefixOf s) with
    | some p => trimLeftAux seqs fuel (s.drop p.length)
    | none => s

/-- The library function `strings.TrimSpace`: leading, then trailing white space removed. -/
def TrimSpace (s : GoString) : GoString :=
  let l := trimLeftAux spaceSeqs s.length s
  (trimLeftAux (spaceSeqs.map List.reverse) l.length l.reverse).reverse

/-- Value of a non-empty sequence of ASCII decimal digits read after the accumulator `acc`;
`none` when a byte is not a digit. -/
def digitsValue : GoString → Nat → Option Nat
  | [], acc => some acc
  | c :: cs, acc => if 48 ≤ c ∧ c ≤ 57 then digitsValue cs (acc * 10 + (c - 48)) else none

/-- The smallest 64-bit `int`. -/
def minInt : Int := -9223372036854775808

/-- The largest 64-bit `int`. -/
def maxInt : Int := 9223372036854775807

/-- Two's complement wrap-around of a 64-bit `int` operation. -/
def wrap64 (z : Int) : Int :=
  (z + 9223372036854775808) % 18446744073709551616 - 9223372036854775808

/-- The integer that a text writes in decimal: an optional sign `+` or `-`, then one or more
ASCII digits; `none` when the text has another form (the syntax error of `strconv`). -/
def decimalInt (s : GoString) : Option Int :=
  let neg := s.head? = some 45
  let body := if s.head? = some 45 ∨ s.head? = some 43 then s.tail else s
  if body = [] then none
  else
    match digitsValue body 0 with
    | none => none
    | some n => some (if neg then -(n : Int) else (n : Int))

/-- The library function `strconv.Atoi` for 64-bit `int`: the integer written by the text when
it fits; `none` is a non-nil error (syntax or range). -/
def Atoi (s : GoString) : Option Int :=
  match decimalInt s with
  | none => none
  | some v => if minInt ≤ v ∧ v ≤ maxInt then some v else none

/-- Decimal digits of `n`, most significant first, in front of `acc`. -/
def natDigits : Nat → Nat → GoString → GoString
  | 0, _, acc => acc
  | fuel + 1, n, acc =>
    if n < 10 then (48 + n) :: acc else natDigits fuel (n / 10) ((48 + n % 10) :: acc)

/-- The library function `strconv.Itoa`. -/
def Itoa (n : Int) : GoString :=
  if n < 0 then 45 :: natDigits (n.natAbs + 1) n.natAbs [] else natDigits (n.natAbs + 1) n.natAbs []

/-- The function `parseIntDefault`. -/
def parseIntDefault (s : GoString) (d : Int) : Int :=
  match Atoi (TrimSpace s) with
  | none => d
  | some n => n

/-! ## The dynamic form -/

/-- A `helField` literal with the fields that the literal leaves out at their zero value. -/
def zeroField : helField :=
  { Label := [], Kind := .FText, Value := [], Min := 0, Max := 0, Bool := false,
    Options := [], Index := 0 }

/-- The function `helFormOpen`. -/
def helFormOpen (st : State) : State :=
  { st with
    form :=
      [ { zeroField with Label := goStr "Nome", Kind := .FText, Value := goStr "" },
        { zeroField with Label := goStr "Idade", Kind := .FNumber, Value := goStr "18",
                         Min := 0, Max := 120 },
        { zeroField with Label := goStr "Aceita termos?", Kind := .FCheckbox, Bool := false },
        { zeroField with Label := goStr "Linguagem", Kind := .FList,
                         Options := [goStr "Go", goStr "JavaScript", goStr "Rust", goStr "C++"],
                         Index := 0 } ],
    formIdx := 0,
    formActive := true }

/-- The function `helFormClose`. -/
def helFormClose (st : State) : State :=
  { st with formActive := false }

/-- The assignment of a new content to the field `form[formIdx]` through its pointer. -/
def setCur (f : helField) (st : State) : State :=
  { st with form := st.form.set st.formIdx.toNat f }

/-- The verb `%v` of a bool. -/
def fmtBool (b : Bool) : GoString :=
  if b then goStr "true" else goStr "false"

/-- The part of `helFormHandleKey` after the `switch` on the key: editing by rune, then the
backspace keys. -/
def helFormEdit (ev : EventKey) (cur : helField) (st : State) : State × Bool :=
  let r := ev.rune
  let bs : State × Bool :=
    if ev.key = .KeyBackspace ∨ ev.key = .KeyBackspace2 then
      match cur.Kind with
      | .FText | .FNumber =>
        if cur.Value.length > 0 then (setCur { cur with Value := cur.Value.dropLast } st, true)
        else (st, true)
      | _ => (st, true)
    else (st, true)
  if r ≠ 0 ∧ ev.modCtrl = false then
    match cur.Kind with
    | .FText => (setCur { cur with Value := cur.Value ++ runeBytes r } st, true)
    | .FNumber =>
      if 48 ≤ r ∧ r ≤ 57 then
        let tmp := cur.Value ++ runeBytes r
        let n := parseIntDefault tmp 0
        if n ≥ cur.Min ∧ n ≤ cur.Max then (setCur { cur with Value := tmp } st, true)
        else (st, true)
      else (st, true)
    | .FCheckbox =>
      if r = 32 ∨ r = 120 ∨ r = 88 then (setCur { cur with Bool := !cur.Bool } st, true)
      else (st, true)
    | .FList => (st, true)
  else bs

/-- The commit branch of `helFormHandleKey`: close, read the four fields, report. -/
def helFormCommit (st : State) : Option (State × Bool) :=
  let st1 := helFormClose st
  match st1.form[0]?, st1.form[1]?, st1.form[2]?, st1.form[3]? with
  | some f0, some f1, some f2, some f3 =>
    let name := TrimSpace f0.Value
    let age := parseIntDefault f1.Value 18
    let terms := f2.Bool
    match goIndex f3.Options f3.Index with
    | none => none
    | some lang =>
      some (infoBarMessage
        (goStr "OK: Nome=" ++ name ++ goStr "  Idade=" ++ Itoa age ++ goStr "  Termos="
          ++ fmtBool terms ++ goStr "  Linguagem=" ++ lang) st1, true)
  | _, _, _, _ => none

/-- The function `helFormHandleKey`; `none` is a panic. -/
def helFormHandleKey (ev : EventKey) (st : State) : Option (State × Bool) :=
  if !st.formActive then some (st, false)
  else
    match goIndex st.form st.formIdx with
    | none => none
    | some cur =>
      match ev.key with
      | .KeyEsc => some (infoBarMessage (goStr "form: cancelado") (helFormClose st), true)
      | .KeyUp =>
        if st.formIdx > 0 then some ({ st with formIdx := st.formIdx - 1 }, true)
        else some (st, true)
      | .KeyDown =>
        if st.formIdx < (st.form.length : Int) - 1 then
          some ({ st with formIdx := st.formIdx + 1 }, true)
        else some (st, true)
      | .KeyLeft =>
        match cur.Kind with
        | .FList =>
          if cur.Options.length > 0 then
            some (setCur { cur with
              Index := Int.tmod (wrap64 (wrap64 (cur.Index - 1) + cur.Options.length))
                         cur.Options.length } st, true)
          else some (st, true)
        | .FNumber =>
          let n := parseIntDefault cur.Value 0
          let n1 := if n > cur.Min then n - 1 else n
          some (setCur { cur with Value := Itoa n1 } st, true)
        | _ => some (helFormEdit ev cur st)
      | .KeyRight =>
        match cur.Kind with
        | .FList =>
          if cur.Options.length > 0 then
            some (setCur { cur with
              Index := Int.tmod (wrap64 (cur.Index + 1)) cur.Options.length } st, true)
          else some (st, true)
        | .FNumber =>
          let n := parseIntDefault cur.Value 0
          let n1 := if n < cur.Max then n + 1 else n
          some (setCur { cur with Value := Itoa n1 } st, true)
        | _ => some (helFormEdit ev cur st)
      | .KeyEnter | .KeyTab =>
        if st.formIdx < (st.form.length : Int) - 1 then
          some ({ st with formIdx := st.formIdx + 1 }, true)
        else helFormCommit st
      | _ => some (helFormEdit ev cur st)

/-- Handling a sequence of key events in the form, stopping at a panic. -/
def helFormHandleKeys : List EventKey → State → Option State
  | [], st => some st
  | ev :: evs, st =>
    match helFormHandleKey ev st with
    | none => none
    | some r => helFormHandleKeys evs r.1

/-! ## The root menu -/

/-- The closures of `newRootMenu`, numbered in source order (0 `hsplit`, 1 `vsplit`, 2 `tab`,
3 `tab README.md`, 4 insert text, 5 insert timestamp, 6 and 7 the two tools, 8 open the form,
9 close the menu).  `helRunCmd name args` is the error text of `action.HelRunCmd`, `none` for
nil; the two insertions only start a goroutine that queues work on `timerChan`. -/
def rootActions (helRunCmd : GoString → List GoString → Option GoString) : Actions :=
  fun a st =>
    match a with
    | 0 =>
      match helRunCmd (goStr "hsplit") [] with
      | some err => ((goStr "", some err), st)
      | none => ((goStr "Split horizontal criado", none), st)
    | 1 =>
      match helRunCmd (goStr "vsplit") [] with
      | some err => ((goStr "", some err), st)
      | none => ((goStr "Split vertical criado", none), st)
    | 2 =>
      match helRunCmd (goStr "tab") [] with
      | some err => ((goStr "", some err), st)
      | none => ((goStr "Aba criada", none), st)
    | 3 =>
      match helRunCmd (goStr "tab") [goStr "README.md"] with
      | some err => ((goStr "", some err), st)
      | none => ((goStr "Aba criada com README.md", none), st)
    | 4 => ((goStr "Inserido: \"estou vivo!\"", none), st)
    | 5 => ((goStr "Timestamp inserido", none), st)
    | 6 => ((goStr "HEL-1: estou vivo! ✔", none), st)
    | 7 => ((goStr "HEL-2: tarefa custom concluída.", none), st)
    | 8 => ((goStr "form: aberto", none), helFormOpen st)
    | 9 => ((goStr "helmenu: fechado", none), helMenuCloseAll st)
    | _ => ((goStr "", none), st)

/-- The submenu `insertSub` of `newRootMenu`. -/
def insertSub : helMenu :=
  { title := goStr " Inserções ",
    items :=
      [ { key := 72, title := goStr "Hsplit (acima/abaixo)", action := some 0, sub := none },
        { key := 86, title := goStr "Vsplit (lado a lado)", action := some 1, sub := none },
        { key := 84, title := goStr "Nova aba (tab)", action := some 2, sub := none },
        { key := 89, title := goStr "Aba com README.md", action := some 3, sub := none },
        { key := 97, title := goStr "Inserir \"estou vivo!\"", action := some 4, sub := none },
        { key := 116, title := goStr "Inserir timestamp (RFC3339)", action := some 5,
          sub := none } ],
    idx := 0 }

/-- The submenu `toolsSub` of `newRootMenu`. -/
def toolsSub : helMenu :=
  { title := goStr " Ferramentas ",
    items :=
      [ { key := 49, title := goStr "Echo status: estou vivo!", action := some 6, sub := none },
        { key := 50, title := goStr "Tarefa custom", action := some 7, sub := none } ],
    idx := 0 }

/-- The submenu `formsSub` of `newRootMenu`. -/
def formsSub : helMenu :=
  { title := goStr " Formulários ",
    items := [ { key := 102, title := goStr "Abrir formulário…", action := some 8, sub := none } ],
    idx := 0 }

/-- The root node returned by `newRootMenu`, its three submenus being at `a`, `b` and `c`. -/
def rootMenu (a b c : Ptr) : helMenu :=
  { title := goStr " Hel Menu ",
    items :=
      [ { key := 105, title := goStr "Inserções →", action := none, sub := some a },
        { key := 102, title := goStr "Ferramentas →", action := none, sub := some b },
        { key := 111, title := goStr "Formulários →", action := none, sub := some c },
        { key := 113, title := goStr "Fechar", action := some 9, sub := none } ],
    idx := 0 }

/-- The function `newRootMenu`: four fresh nodes are allocated at `next`, .., `next + 3`; the
result is the address of the root and the new state. -/
def newRootMenu (st : State) : Ptr × State :=
  let a := st.next
  let h1 := Function.update st.heap a insertSub
  let h2 := Function.update h1 (a + 1) toolsSub
  let h3 := Function.update h2 (a + 2) formsSub
  let h4 := Function.update h3 (a + 3) (rootMenu a (a + 1) (a + 2))
  (a + 3, { st with heap := h4, next := a + 4 })

/-- The function `helMenuOpen`. -/
def helMenuOpen (st : State) : State :=
  let r := newRootMenu st
  { r.2 with helMenuStack := [r.1], helMenuActive := true }

/-- The package state at program start: every variable at its zero value, no node allocated. -/
def initState : State :=
  { helMenuActive := false, helMenuStack := [], heap := fun _ => { title := [], items := [], idx := 0 },
    next := 0, formActive := false, formIdx := 0, form := [], helLastEsc := 0,
    helLastEscForm := 0, infoBar := [] }

/-- A form whose only field is a Number field with text `v` and bounds `lo`, `hi`, the cursor on
it; every other variable is as in `initState`. -/
def numberForm (v : GoString) (lo hi : Int) : State :=
  { initState with
    formActive := true,
    formIdx := 0,
    form := [ { zeroField with Label := goStr "Idade", Kind := .FNumber, Value := v,
                               Min := lo, Max := hi } ] }

/-- A form whose only field is `f`, the cursor on it; every other variable is as in
`initState`. -/
def oneFieldForm (f : helField) : State :=
  { initState with formActive := true, formIdx := 0, form := [f] }

/-- The states after each key of a sequence handled by `helFormHandleKey`, in order; the list
stops at a panic. -/
def formStates : List EventKey → State → List State
  | [], _ => []
  | ev :: evs, st =>
    match helFormHandleKey ev st with
    | none => []
    | some r => r.1 :: formStates evs r.1

/-- The invariant of the form variables: the cursor is a valid index, and the four fields that
the commit reads exist, the option selected in the fourth being within its list (a list of
strings has at most 2^59 elements in a 64-bit address space). -/
def formInv (st : State) : Prop :=
  0 ≤ st.formIdx ∧ st.formIdx < (st.form.length : Int) ∧
  ∃ f0 f1 f2 f3 rest, st.form = f0 :: f1 :: f2 :: f3 :: rest ∧
    0 ≤ f3.Index ∧ f3.Index < (f3.Options.length : Int) ∧
    (f3.Options.length : Int) ≤ 2 ^ 59

/-! ## The input part of DoEvent (micro.go) -/

/-- The library call `strings.ReplaceAll(s, "\r", "")`. -/
def removeCR (s : GoString) : GoString :=
  s.filter (fun b => b ≠ 13)

/-- The library call `strings.Split(s, "\n")`. -/
def Split : GoString → List GoString
  | [] => [[]]
  | c :: cs =>
    if c = 10 then [] :: Split cs
    else
      match Split cs with
      | l :: ls => (c :: l) :: ls
      | [] => [[c]]

/-- The library call `strings.Join(lines, "\n")`. -/
def Join : List GoString → GoString
  | [] => []
  | [l] => l
  | l :: l2 :: ls => l ++ 10 :: Join (l2 :: ls)

/-- The body of the paste loop for one line: one tab at the start is removed. -/
def stripTab (l : GoString) : GoString :=
  match l with
  | 9 :: t => t
  | _ => l

/-- The paste normalisation of `DoEvent`: the text of the new paste event. -/
def normalizePaste (text : GoString) : GoString :=
  match Split (removeCR text) with
  | [] => Join []
  | l0 :: ls => Join (l0 :: ls.map stripTab)

/-- An event read from `screen.Events` that is neither nil nor an `EventError`. -/
inductive Event where
  | key (ev : EventKey)
  | paste (text : GoString)
  | resize
  | other
  deriving DecidableEq, Repr

/-- The collaborators of the normal routing. -/
inductive Target where
  | infoBarAndTabs
  | infoBar
  | tabs
  deriving DecidableEq, Repr

/-- How a cycle of `DoEvent` ends for its event: an early `return`, or the normal routing of
the (possibly rewritten) event to `action.InfoBar.HandleEvent`, `action.Tabs.HandleEvent` or
both, followed by the plugin hook. -/
inductive Routing where
  | returned
  | routed (target : Target) (event : Event)
  deriving DecidableEq, Repr

/-- The duration `200*time.Millisecond` in nanoseconds. -/
def ms200 : Int := 200000000

/-- The two `if formActive` blocks of `DoEvent`. -/
def formDispatch (ev : EventKey) (st : State) : Option (State × Bool) :=
  if st.formActive then helFormHandleKey ev st else some (st, false)

/-- The form section of `DoEvent` from the test of the rune U+0192 on; `true` is `return`. -/
def doEventFormTail (ev : EventKey) (st : State) : Option (State × Bool) :=
  if ev.rune = 402 then some (helFormOpen st, true)
  else
    match formDispatch ev st with
    | none => none
    | some (s1, true) => some (s1, true)
    | some (s1, false) =>
      match formDispatch ev s1 with
      | none => none
      | some (s2, true) => some (s2, true)
      | some (s2, false) =>
        if ev.modAlt = true ∧ (ev.rune = 102 ∨ ev.rune = 70) then some (helFormOpen s2, true)
        else some (s2, false)

/-- The form section of `DoEvent` for a key event; `tF` is the clock read by `time.Now` or
`time.Since` in this section, in nanoseconds after the zero time; `true` is `return`. -/
def doEventForm (ev : EventKey) (tF : Int) (st : State) : Option (State × Bool) :=
  if ev.modAlt = true ∧ (ev.rune = 102 ∨ ev.rune = 70) then some (helFormOpen st, true)
  else if ev.key = .KeyEsc then doEventFormTail ev { st with helLastEscForm := tF }
  else if (ev.rune = 102 ∨ ev.rune = 70) ∧ tF - st.helLastEscForm < ms200 then
    some ({ helFormOpen st with helLastEscForm := 0 }, true)
  else doEventFormTail ev st

/-- The menu section of `DoEvent` from the test of the rune U+00B5 on. -/
def doEventMenuTail (ev : EventKey) (st : State) : Option (State × Bool) :=
  if ev.rune = 181 then some (helMenuOpen st, true) else some (st, false)

/-- The menu section of `DoEvent` for a key event; `tM` is the clock read in this section;
`true` is `return`. -/
def doEventMenu (run : Actions) (ev : EventKey) (tM : Int) (st : State) :
    Option (State × Bool) :=
  match (if st.helMenuActive then helMenuHandleKey run ev st else some (st, false)) with
  | none => none
  | some (s1, true) => some (s1, true)
  | some (s1, false) =>
    if ev.modAlt = true ∧ (ev.rune = 109 ∨ ev.rune = 77) then some (helMenuOpen s1, true)
    else if ev.key = .KeyEsc then doEventMenuTail ev { s1 with helLastEsc := tM }
    else if (ev.rune = 109 ∨ ev.rune = 77) ∧ tM - s1.helLastEsc < ms200 then
      some ({ helMenuOpen s1 with helLastEsc := 0 }, true)
    else doEventMenuTail ev s1

/-- The normal routing of `DoEvent`; `hasPrompt` is `action.InfoBar.HasPrompt`. -/
def normalRouting (hasPrompt : Bool) (event : Event) : Routing :=
  match event with
  | .resize => .routed .infoBarAndTabs event
  | _ => if hasPrompt then .routed .infoBar event else .routed .tabs event

/-- The function `DoEvent` from the point where an event was read from `screen.Events`: the
form section, the menu section, the paste normalisation and the normal routing.  The clock
values `tF` and `tM` are those read in the form and in the menu section; `none` is a panic. -/
def DoEvent (run : Actions) (hasPrompt : Bool) (tF tM : Int) (event : Event) (st : State) :
    Option (State × Routing) :=
  match event with
  | .key ev =>
    match doEventForm ev tF st with
    | none => none
    | some (s1, true) => some (s1, .returned)
    | some (s1, false) =>
      match doEventMenu run ev tM s1 with
      | none => none
      | some (s2, true) => some (s2, .returned)
      | some (s2, false) => some (s2, normalRouting hasPrompt (.key ev))
  | .paste text => some (st, normalRouting hasPrompt (.paste (normalizePaste text)))
  | e => some (st, normalRouting hasPrompt e)

/-- What no part of the form touches: the menu variables and the two recorded clocks. -/
def sameMenu (s t : State) : Prop :=
  s.helMenuActive = t.helMenuActive ∧ s.helMenuStack = t.helMenuStack ∧ s.heap = t.heap ∧
    s.next = t.next ∧ s.helLastEsc = t.helLastEsc ∧ s.helLastEscForm = t.helLastEscForm

/-- The form-open chord as `DoEvent` tests it: Alt with f or F, or f or F less than 200 ms
after the recorded Escape (on a key other than Escape), or the rune U+0192. -/
def formChord (ev : EventKey) (tF : Int) (st : State) : Prop :=
  (ev.modAlt = true ∧ (ev.rune = 102 ∨ ev.rune = 70)) ∨
  (ev.key ≠ .KeyEsc ∧ (ev.rune = 102 ∨ ev.rune = 70) ∧ tF - st.helLastEscForm < ms200) ∨
  ev.rune = 402

/-- The menu-open chord as `DoEvent` tests it: Alt with m or M, or m or M less than 200 ms
after the recorded Escape (on a key other than Escape), or the rune U+00B5. -/
def menuChord (ev : EventKey) (tM : Int) (st : State) : Prop :=
  (ev.modAlt = true ∧ (ev.rune = 109 ∨ ev.rune = 77)) ∨
  (ev.key ≠ .KeyEsc ∧ (ev.rune = 109 ∨ ev.rune = 77) ∧ tM - st.helLastEsc < ms200) ∨
  ev.rune = 181

/-- The state after the Escape test of the form section: an Escape key records the clock. -/
def afterFormEsc (ev : EventKey) (tF : Int) (st : State) : State :=
  if ev.key = .KeyEsc then { st with helLastEscForm := tF } else st

/-! ## The command bridge (internal/action/helbridge.go) -/

/-- The library call `strings.Fields` on the rest `s` of a text, `cur` being the bytes of the
field under construction: a white-space rune ends the field, any other byte extends it. -/
def fieldsAux : Nat → GoString → GoString → List GoString
  | 0, _, cur => if cur = [] then [] else [cur]
  | fuel + 1, s, cur =>
    match s with
    | [] => if cur = [] then [] else [cur]
    | b :: rest =>
      match spaceSeqs.find? (fun p => p.isPrefixOf (b :: rest)) with
      | some p =>
        (if cur = [] then [] else [cur]) ++ fieldsAux fuel ((b :: rest).drop p.length) []
      | none => fieldsAux fuel rest (cur ++ [b])

/-- The library call `strings.Fields(s)`: the maximal runs of bytes between white-space runes. -/
def Fields (s : GoString) : List GoString :=
  fieldsAux (s.length + 1) s []

/-- A pane of the main tab, as `helActiveBufPane` looks at it: `bufPane` is `none` when the
pane is not a `*BufPane`, `some none` for a nil `*BufPane`, `some (some b)` for the pane `b`;
`hasFocus` and `isActive` are `none` when the pane has no such method, else what it returns. -/
structure Pane where
  bufPane : Option (Option Nat)
  hasFocus : Option Bool
  isActive : Option Bool
  deriving DecidableEq, Repr

/-- The part of the editor that the bridge reads: `MainTab()`, `none` for nil, else its
`Panes`. -/
structure Editor where
  mainTab : Option (List Pane)
  deriving DecidableEq, Repr

/-- The two errors of `helActiveBufPane`. -/
inductive PaneError where
  | mainTabNil
  | noBufPane
  deriving DecidableEq, Repr

/-- The errors of `HelRunCmd`, one constructor for each place that builds one. -/
inductive HelError where
  | commandsNil
  | notFound (name : GoString)
  | noFunction (name : GoString)
  | openFailed (err2 : HelError) (orig : PaneError)
  | stillNoPane (err : PaneError)
  | noPaneFor (name : GoString) (err : PaneError)
  deriving DecidableEq, Repr

/-- A registered command: its `action` field, `none` for nil; the function receives the pane
and the arguments and acts on the editor. -/
structure Command where
  action : Option (Nat → List GoString → Editor → Editor)

/-- The map `commands`: `none` for a nil map, else the lookup by name. -/
abbrev Registry := Option (GoString → Option Command)

/-- What a call of `HelRunCmd` leaves: the error (`none` for nil), the editor, and the command
actions that were run, in order, each with its name, pane and arguments. -/
structure CmdResult where
  err : Option HelError
  editor : Editor
  ran : List (GoString × Nat × List GoString)

/-- The pane that the first loop of `helActiveBufPane` accepts. -/
def focusedBufPane (p : Pane) : Option Nat :=
  match p.bufPane with
  | some (some b) => if p.hasFocus = some true ∨ p.isActive = some true then some b else none
  | _ => none

/-- The pane that the second loop of `helActiveBufPane` accepts. -/
def anyBufPane (p : Pane) : Option Nat :=
  match p.bufPane with
  | some (some b) => some b
  | _ => none

/-- The function `helActiveBufPane`. -/
def helActiveBufPane (ed : Editor) : Except PaneError Nat :=
  match ed.mainTab with
  | none => .error .mainTabNil
  | some panes =>
    match panes.findSome? focusedBufPane with
    | some b => .ok b
    | none =>
      match panes.findSome? anyBufPane with
      | some b => .ok b
      | none => .error .noBufPane

/-- The function `HelRunCmd`, with the depth of calls that it may use: `none` means that the
depth was not enough. -/
def HelRunCmd : Nat → Registry → GoString → List GoString → Editor → Option CmdResult
  | 0, _, _, _, _ => none
  | fuel + 1, commands, name, args, ed =>
    match commands with
    | none => some { err := some .commandsNil, editor := ed, ran := [] }
    | some reg =>
      match reg name with
      | none => some { err := some (.notFound name), editor := ed, ran := [] }
      | some cmd =>
        match cmd.action with
        | none => some { err := some (.noFunction name), editor := ed, ran := [] }
        | some act =>
          match helActiveBufPane ed with
          | .ok bp => some { err := none, editor := act bp args ed, ran := [(name, bp, args)] }
          | .error e =>
            if name ≠ goStr "open" then
              match HelRunCmd fuel commands (goStr "open") [goStr ""] ed with
              | none => none
              | some r2 =>
                match r2.err with
                | some err2 =>
                  some { err := some (.openFailed err2 e), editor := r2.editor, ran := r2.ran }
                | none =>
                  match helActiveBufPane r2.editor with
                  | .error e3 =>
                    some { err := some (.stillNoPane e3), editor := r2.editor, ran := r2.ran }
                  | .ok bp =>
                    some { err := none, editor := act bp args r2.editor,
                           ran := r2.ran ++ [(name, bp, args)] }
            else some { err := some (.noPaneFor name e), editor := ed, ran := [] }

/-- The function `HelRunCmdLine`, with the depth of calls that `HelRunCmd` may use: `none` also
stands for the panic of `parts[0]` on an empty list of fields. -/
def HelRunCmdLine (fuel : Nat) (commands : Registry) (line : GoString) (ed : Editor) :
    Option CmdResult :=
  if TrimSpace line = [] then some { err := none, editor := ed, ran := [] }
  else
    match Fields (TrimSpace line) with
    | [] => none
    | name :: args => HelRunCmd fuel commands name args ed

/-- A map of commands with `tab` and `open`, whose actions add a pane, and `nofn`, which has
no action. -/
def sampleCommands : GoString → Option Command :=
  fun name =>
    if name = goStr "tab" ∨ name = goStr "open" then
      some { action := some (fun _ _ ed =>
        { mainTab := ed.mainTab.map
            (fun ps => ps ++ [{ bufPane := some (some ps.length), hasFocus := none,
                                isActive := none }]) }) }
    else if name = goStr "nofn" then some { action := none }
    else none

/-- The registry that holds `sampleCommands`. -/
def sampleRegistry : Registry :=
  some sampleCommands

/-- An editor whose main tab has one buffer pane. -/
def sampleEditor : Editor :=
  { mainTab := some [{ bufPane := some (some 0), hasFocus := none, isActive := none }] }

/-- The states that cycles of `DoEvent` reach from `st0` when no cycle brings a form-open chord
while the menu is active. -/
inductive reachNoChord (run : Actions) (st0 : State) : State → Prop where
  | start : reachNoChord run st0 st0
  | cycle (st s : State) (hasPrompt : Bool) (tF tM : Int) (event : Event) (r : Routing) :
      reachNoChord run st0 st →
      (∀ ev, event = .key ev → st.helMenuActive = true → ¬ formChord ev tF st) →
      DoEvent run hasPrompt tF tM event st = some (s, r) →
      reachNoChord run st0 s

/-- The key event of Alt with the rune `r`. -/
def altEvent (r : Nat) : EventKey :=
  { key := .KeyRune, rune := r, modCtrl := false, modAlt := true }

/-- A key event that carries only a key code. -/
def keyEvent (k : Key) : EventKey :=
  { key := k, rune := 0, modCtrl := false, modAlt := false }

/-- A key event that carries the rune `r` with no modifier. -/
def runeEvent (r : Nat) : EventKey :=
  { key := .KeyRune, rune := r, modCtrl := false, modAlt := false }

/-- The menu invariant of the data model: the menu is active exactly when the stack is not
empty. -/
def menuInv (st : State) : Prop :=
  st.helMenuActive = true ↔ st.helMenuStack ≠ []

/-- The index invariant of the data model for the current node, if there is one:
`0 <= idx < len(items)`. -/
def curIdxValid (st : State) : Prop :=
  ∀ cur, helCur st = some cur →
    0 ≤ (st.heap cur).idx ∧ (st.heap cur).idx < ((st.heap cur).items.length : Int)

/-! ## Theorems -/

/-- One Up or Down key on a current node with a valid index: the exact next state. -/
theorem updown_step (run : Actions) (st : State) (cur : Ptr) (ev : EventKey)
    (hact : st.helMenuActive = true) (hcur : helCur st = some cur)
    (hlo : 0 ≤ (st.heap cur).idx)
    (hhi : (st.heap cur).idx < ((st.heap cur).items.length : Int))
    (hev : ev.key = .KeyUp ∨ ev.key = .KeyDown) :
    helMenuHandleKey run ev st =
      some (setIdx cur
        (if ev.key = .KeyDown then
          (if (st.heap cur).idx = ((st.heap cur).items.length : Int) - 1 then 0
           else (st.heap cur).idx + 1)
         else
          (if (st.heap cur).idx = 0 then ((st.heap cur).items.length : Int) - 1
           else (st.heap cur).idx - 1)) st, true) := by
  rcases hev with h | h
  · simp only [helMenuHandleKey, hact, hcur, h]
    by_cases h0 : (st.heap cur).idx = 0
    · simp [h0]
    · have : (st.heap cur).idx > 0 := by omega
      simp [h0, this]
  · simp only [helMenuHandleKey, hact, hcur, h]
    by_cases h0 : (st.heap cur).idx = ((st.heap cur).items.length : Int) - 1
    · simp [h0]
    · have : (st.heap cur).idx < ((st.heap cur).items.length : Int) - 1 := by omega
      simp [h0, this]

/-- C1: on a current node with N >= 1 items and idx in [0,N), a single Up or Down key is
consumed, changes nothing but idx, and moves idx with wrap-around (Down from N-1 gives 0, Up
from 0 gives N-1, otherwise Down adds 1 and Up subtracts 1); after every prefix of every finite
sequence of Up/Down keys the node is still the current node and idx is still in [0,N). -/
theorem helMenuHandleKey_updown_wraps (run : Actions) (st : State) (cur : Ptr)
    (hact : st.helMenuActive = true) (hcur : helCur st = some cur)
    (hN : 1 ≤ (st.heap cur).items.length)
    (hlo : 0 ≤ (st.heap cur).idx)
    (hhi : (st.heap cur).idx < ((st.heap cur).items.length : Int)) :
    (∀ ev : EventKey, ev.key = .KeyUp ∨ ev.key = .KeyDown →
      ∃ st', helMenuHandleKey run ev st = some (st', true) ∧
        st'.helMenuActive = true ∧ st'.helMenuStack = st.helMenuStack ∧
        (st'.heap cur).items = (st.heap cur).items ∧
        (∀ q, q ≠ cur → st'.heap q = st.heap q) ∧
        (ev.key = .KeyDown →
          (st'.heap cur).idx =
            if (st.heap cur).idx = ((st.heap cur).items.length : Int) - 1 then 0
            else (st.heap cur).idx + 1) ∧
        (ev.key = .KeyUp →
          (st'.heap cur).idx =
            if (st.heap cur).idx = 0 then ((st.heap cur).items.length : Int) - 1
            else (st.heap cur).idx - 1)) ∧
    (∀ (evs : List EventKey) (k : Nat), (∀ ev ∈ evs, ev.key = .KeyUp ∨ ev.key = .KeyDown) →
      ∃ st', helMenuHandleKeys run (evs.take k) st = some st' ∧
        st'.helMenuActive = true ∧ helCur st' = some cur ∧
        (st'.heap cur).items = (st.heap cur).items ∧
        0 ≤ (st'.heap cur).idx ∧ (st'.heap cur).idx < ((st.heap cur).items.length : Int)) := by
  constructor
  · intro ev hev
    refine ⟨_, updown_step run st cur ev hact hcur hlo hhi hev, ?_, ?_, ?_, ?_, ?_, ?_⟩
    · simp [setIdx, hact]
    · simp [setIdx]
    · simp [setIdx]
    · intro q hq
      simp [setIdx, Function.update_noteq hq]
    · intro h
      simp [setIdx, h]
    · intro h
      simp [setIdx, h]
  · intro evs k hall
    have key : ∀ (l : List EventKey) (s : State), (∀ ev ∈ l, ev.key = .KeyUp ∨ ev.key = .KeyDown) →
        s.helMenuActive = true → helCur s = some cur →
        (s.heap cur).items = (st.heap cur).items →
        0 ≤ (s.heap cur).idx → (s.heap cur).idx < ((st.heap cur).items.length : Int) →
        ∃ st', helMenuHandleKeys run l s = some st' ∧
          st'.helMenuActive = true ∧ helCur st' = some cur ∧
          (st'.heap cur).items = (st.heap cur).items ∧
          0 ≤ (st'.heap cur).idx ∧ (st'.heap cur).idx < ((st.heap cur).items.length : Int) := by
      intro l
      induction l with
      | nil =>
        intro s _ ha hc hi h0 h1
        exact ⟨s, rfl, ha, hc, hi, h0, h1⟩
      | cons e l ih =>
        intro s hl ha hc hi h0 h1
        have he := hl e (List.mem_cons_self e l)
        have h1' : (s.heap cur).idx < ((s.heap cur).items.length : Int) := by rw [hi]; exact h1
        have hstep := updown_step run s cur e ha hc h0 h1' he
        simp only [helMenuHandleKeys, hstep]
        apply ih
        · intro ev hm
          exact hl ev (List.mem_cons_of_mem e hm)
        · simp [setIdx, ha]
        · simpa [setIdx, helCur] using hc
        · simp [setIdx, hi]
        · simp only [setIdx, Function.update_same]
          split_ifs <;> omega
        · simp only [setIdx, Function.update_same]
          rw [hi] at h1' ⊢
          split_ifs <;> omega
    exact key (evs.take k) st (fun ev hm => hall ev (List.mem_of_mem_take hm)) hact hcur rfl hlo hhi

/-- C1 at a concrete menu: three items, idx 2, current node at address 0. -/
theorem helMenuHandleKey_updown_wraps_witness :
    (∀ ev : EventKey, ev.key = .KeyUp ∨ ev.key = .KeyDown →
      ∃ st', helMenuHandleKey (rootActions (fun _ _ => none)) ev
          (setIdx 3 2 (helMenuOpen initState)) = some (st', true) ∧
        st'.helMenuActive = true ∧
        st'.helMenuStack = (setIdx 3 2 (helMenuOpen initState)).helMenuStack ∧
        (st'.heap 3).items = ((setIdx 3 2 (helMenuOpen initState)).heap 3).items ∧
        (∀ q, q ≠ 3 → st'.heap q = (setIdx 3 2 (helMenuOpen initState)).heap q) ∧
        (ev.key = .KeyDown →
          (st'.heap 3).idx =
            if ((setIdx 3 2 (helMenuOpen initState)).heap 3).idx =
                (((setIdx 3 2 (helMenuOpen initState)).heap 3).items.length : Int) - 1 then 0
            else ((setIdx 3 2 (helMenuOpen initState)).heap 3).idx + 1) ∧
        (ev.key = .KeyUp →
          (st'.heap 3).idx =
            if ((setIdx 3 2 (helMenuOpen initState)).heap 3).idx = 0 then
              (((setIdx 3 2 (helMenuOpen initState)).heap 3).items.length : Int) - 1
            else ((setIdx 3 2 (helMenuOpen initState)).heap 3).idx - 1)) ∧
    (∀ (evs : List EventKey) (k : Nat), (∀ ev ∈ evs, ev.key = .KeyUp ∨ ev.key = .KeyDown) →
      ∃ st', helMenuHandleKeys (rootActions (fun _ _ => none)) (evs.take k)
          (setIdx 3 2 (helMenuOpen initState)) = some st' ∧
        st'.helMenuActive = true ∧ helCur st' = some 3 ∧
        (st'.heap 3).items = ((setIdx 3 2 (helMenuOpen initState)).heap 3).items ∧
        0 ≤ (st'.heap 3).idx ∧
        (st'.heap 3).idx < (((setIdx 3 2 (helMenuOpen initState)).heap 3).items.length : Int)) :=
  helMenuHandleKey_updown_wraps (rootActions (fun _ _ => none))
    (setIdx 3 2 (helMenuOpen initState)) 3 (by decide) (by decide) (by decide) (by decide)
    (by decide)

/-- Selecting an item whose payload is an action: the menu is closed whatever the action did
and returned. -/
theorem helSelect_action_closes (run : Actions) (it : helMenuItem) (st : State) (a : Nat)
    (hsub : it.sub = none) (hact : it.action = some a) :
    (helSelect run it st).2 = true ∧ (helSelect run it st).1.helMenuStack = [] ∧
      (helSelect run it st).1.helMenuActive = false := by
  unfold helSelect
  simp only [hsub, hact]
  split
  · simp [infoBarMessage, helMenuCloseAll]
  · split <;> simp [infoBarMessage, helMenuCloseAll]

/-- C2: in an active menu with a current node (stack depth >= 1), selecting an item whose
payload is an action, by Enter on the selected row or by a rune for which the quick-key search
finds the item, is consumed and leaves the stack empty and the menu inactive; this holds for
every interpretation of the action (whatever it returns and whatever it does to the state). -/
theorem helMenuHandleKey_action_closes_all (run : Actions) (ev : EventKey) (st : State)
    (cur : Ptr) (it : helMenuItem) (a : Nat)
    (hactive : st.helMenuActive = true) (hcur : helCur st = some cur)
    (hsub : it.sub = none) (hact : it.action = some a)
    (hsel : (ev.key = .KeyEnter ∧ goIndex (st.heap cur).items (st.heap cur).idx = some it) ∨
      (ev.key ≠ .KeyEsc ∧ ev.key ≠ .KeyBackspace ∧ ev.key ≠ .KeyBackspace2 ∧ ev.key ≠ .KeyUp ∧
        ev.key ≠ .KeyDown ∧ ev.key ≠ .KeyEnter ∧ ev.rune ≠ 0 ∧
        (st.heap cur).items.find? (fun i => ev.rune == i.key) = some it)) :
    ∃ st', helMenuHandleKey run ev st = some (st', true) ∧
      st'.helMenuStack = [] ∧ st'.helMenuActive = false := by
  obtain ⟨h1, h2, h3⟩ := helSelect_action_closes run it st a hsub hact
  have hres : helMenuHandleKey run ev st = some (helSelect run it st) := by
    rcases hsel with ⟨hk, hidx⟩ | ⟨k1, k2, k3, k4, k5, k6, hr, hfind⟩
    · simp [helMenuHandleKey, hactive, hcur, hk, hidx]
    · unfold helMenuHandleKey
      simp only [hactive, hcur]
      split <;> simp_all
  refine ⟨(helSelect run it st).1, ?_, h2, h3⟩
  rw [hres, ← h1]

/-- C2 at the root menu: the rune q selects the item that closes the menu. -/
theorem helMenuHandleKey_action_closes_all_witness :
    (helMenuOpen initState).helMenuActive = true ∧ helCur (helMenuOpen initState) = some 3 ∧
    ∃ st', helMenuHandleKey (rootActions (fun _ _ => none)) (runeEvent 113)
        (helMenuOpen initState) = some (st', true) ∧
      st'.helMenuStack = [] ∧ st'.helMenuActive = false :=
  ⟨by decide, by decide,
    helMenuHandleKey_action_closes_all (rootActions (fun _ _ => none)) (runeEvent 113)
      (helMenuOpen initState) 3
      { key := 113, title := goStr "Fechar", action := some 9, sub := none } 9
      (by decide) (by decide) rfl rfl (Or.inr (by decide))⟩

/-- C3: selecting an item whose payload is the child node at address p is consumed, sets the
idx of that node to 0 whatever it was, and appends p to the stack: the depth grows by exactly
one, the entries below are the same addresses in the same order, p is the current node, and no
node other than p is modified (of p only idx is). -/
theorem helSelect_sub_pushes_reset (run : Actions) (it : helMenuItem) (st : State) (p : Ptr)
    (hsub : it.sub = some p) :
    (helSelect run it st).2 = true ∧
    (helSelect run it st).1.helMenuStack = st.helMenuStack ++ [p] ∧
    (helSelect run it st).1.helMenuStack.length = st.helMenuStack.length + 1 ∧
    (helSelect run it st).1.helMenuStack.take st.helMenuStack.length = st.helMenuStack ∧
    helCur (helSelect run it st).1 = some p ∧
    ((helSelect run it st).1.heap p).idx = 0 ∧
    ((helSelect run it st).1.heap p).items = (st.heap p).items ∧
    ((helSelect run it st).1.heap p).title = (st.heap p).title ∧
    (∀ q, q ≠ p → (helSelect run it st).1.heap q = st.heap q) ∧
    (helSelect run it st).1.helMenuActive = st.helMenuActive := by
  simp only [helSelect, hsub, helPush, setIdx, helCur]
  refine ⟨by simp, by simp, by simp, by simp, by simp, by simp, by simp, by simp, ?_, by simp⟩
  intro q hq
  simp [Function.update_noteq hq]

/-- C3 at the root menu, after the Insertions node (address 0) was left with idx 4. -/
theorem helSelect_sub_pushes_reset_witness :
    ((setIdx 0 4 (helMenuOpen initState)).heap 0).idx = 4 ∧
    (setIdx 0 4 (helMenuOpen initState)).helMenuStack = [3] ∧
    (helSelect (rootActions (fun _ _ => none))
        { key := 105, title := goStr "Inserções →", action := none, sub := some 0 }
        (setIdx 0 4 (helMenuOpen initState))).1.helMenuStack = [3, 0] ∧
    ((helSelect (rootActions (fun _ _ => none))
        { key := 105, title := goStr "Inserções →", action := none, sub := some 0 }
        (setIdx 0 4 (helMenuOpen initState))).1.heap 0).idx = 0 :=
  ⟨by decide, by decide,
    (helSelect_sub_pushes_reset (rootActions (fun _ _ => none))
      { key := 105, title := goStr "Inserções →", action := none, sub := some 0 }
      (setIdx 0 4 (helMenuOpen initState)) 0 rfl).2.1,
    (helSelect_sub_pushes_reset (rootActions (fun _ _ => none))
      { key := 105, title := goStr "Inserções →", action := none, sub := some 0 }
      (setIdx 0 4 (helMenuOpen initState)) 0 rfl).2.2.2.2.2.1⟩

/-- C4: on a stack of depth 1 `helPop` yields exactly the state that `helMenuCloseAll` yields,
with an empty stack and the menu inactive; on a stack of depth d > 1 it removes the tail
element only: the depth is d-1, the remaining entries are the old ones in order, and
`helMenuActive` and every other variable are unchanged. -/
theorem helPop_depth_cases (st : State) :
    (st.helMenuStack.length = 1 →
      helPop st = helMenuCloseAll st ∧ (helPop st).helMenuStack = [] ∧
        (helPop st).helMenuActive = false) ∧
    (st.helMenuStack.length > 1 →
      helPop st = { st with helMenuStack := st.helMenuStack.dropLast } ∧
      (helPop st).helMenuStack.length = st.helMenuStack.length - 1 ∧
      (helPop st).helMenuStack = st.helMenuStack.take (st.helMenuStack.length - 1) ∧
      (∃ x, st.helMenuStack = (helPop st).helMenuStack ++ [x]) ∧
      (helPop st).helMenuActive = st.helMenuActive ∧ (helPop st).heap = st.heap) := by
  constructor
  · intro h
    simp [helPop, h, helMenuCloseAll]
  · intro h
    have hne : st.helMenuStack ≠ [] := by
      intro h0
      simp [h0] at h
    simp only [helPop, h, if_true]
    refine ⟨by simp, by simp, ?_, ?_, by simp, by simp⟩
    · exact List.dropLast_eq_take _
    · exact ⟨st.helMenuStack.getLast hne, (List.dropLast_append_getLast hne).symm⟩

/-- C4 at the root menu: depth 1, and depth 2 after the Insertions item was selected. -/
theorem helPop_depth_cases_witness :
    (helMenuOpen initState).helMenuStack.length = 1 ∧
    helPop (helMenuOpen initState) = helMenuCloseAll (helMenuOpen initState) ∧
    (helPush 0 (helMenuOpen initState)).helMenuStack.length = 2 ∧
    (helPop (helPush 0 (helMenuOpen initState))).helMenuStack = [3] ∧
    (helPop (helPush 0 (helMenuOpen initState))).helMenuActive = true :=
  ⟨by decide, ((helPop_depth_cases (helMenuOpen initState)).1 (by decide)).1, by decide,
    by
      have h := ((helPop_depth_cases (helPush 0 (helMenuOpen initState))).2 (by decide)).2.2.1
      rw [h]
      decide,
    by
      have h := ((helPop_depth_cases (helPush 0 (helMenuOpen initState))).2 (by decide)).2.2.2.2.1
      rw [h]
      decide⟩

/-- The operation `helMenuCloseAll` establishes the menu invariant. -/
theorem menuInv_closeAll (st : State) : menuInv (helMenuCloseAll st) := by
  simp [menuInv, helMenuCloseAll]

/-- The operation `helPop` preserves the menu invariant. -/
theorem menuInv_helPop (st : State) (h : menuInv st) : menuInv (helPop st) := by
  unfold helPop
  split
  · rename_i hlen
    have hne : st.helMenuStack ≠ [] := by
      intro h0
      simp [h0] at hlen
    have hd : st.helMenuStack.dropLast ≠ [] := by
      intro h0
      have := congrArg List.length h0
      simp at this
      omega
    simp only [menuInv] at h ⊢
    simp [hd, h.2 hne]
  · exact menuInv_closeAll st

/-- Changing the idx of a node does not touch the menu invariant. -/
theorem menuInv_setIdx (st : State) (p : Ptr) (v : Int) (h : menuInv st) :
    menuInv (setIdx p v st) := by
  simpa [menuInv, setIdx] using h

/-- In an active menu `helSelect` re-establishes the menu invariant, whatever the action does. -/
theorem menuInv_helSelect (run : Actions) (it : helMenuItem) (st : State)
    (hact : st.helMenuActive = true) : menuInv (helSelect run it st).1 := by
  cases hs : it.sub with
  | some p => simp [helSelect, hs, menuInv, helPush, setIdx, hact]
  | none =>
    cases ha : it.action with
    | none => simpa [helSelect, hs, ha] using menuInv_closeAll st
    | some a =>
      have h := helSelect_action_closes run it st a hs ha
      simp [menuInv, h.2.1, h.2.2]

/-- The shapes of the result of `helMenuHandleKey`: unchanged and not consumed when inactive;
otherwise close, pop, an idx assignment on the current node, a selection, or the panic of
Enter on a current node whose idx is out of range. -/
theorem helMenuHandleKey_cases (run : Actions) (ev : EventKey) (st : State) :
    (st.helMenuActive = false ∧ helMenuHandleKey run ev st = some (st, false)) ∨
    (st.helMenuActive = true ∧
      (helMenuHandleKey run ev st = some (helMenuCloseAll st, true) ∨
       helMenuHandleKey run ev st = some (helPop st, true) ∨
       (∃ cur v, helMenuHandleKey run ev st = some (setIdx cur v st, true)) ∨
       (∃ it, helMenuHandleKey run ev st = some (helSelect run it st)) ∨
       (helMenuHandleKey run ev st = none ∧ ev.key = .KeyEnter ∧
         ∃ cur, helCur st = some cur ∧
           goIndex (st.heap cur).items (st.heap cur).idx = none))) := by
  cases hact : st.helMenuActive with
  | false => exact Or.inl ⟨rfl, by simp [helMenuHandleKey, hact]⟩
  | true =>
    refine Or.inr ⟨rfl, ?_⟩
    cases hcur : helCur st with
    | none => exact Or.inl (by simp [helMenuHandleKey, hact, hcur])
    | some cur =>
      cases hk : ev.key with
      | KeyEsc => exact Or.inr (Or.inl (by simp [helMenuHandleKey, hact, hcur, hk]))
      | KeyBackspace => exact Or.inr (Or.inl (by simp [helMenuHandleKey, hact, hcur, hk]))
      | KeyBackspace2 => exact Or.inr (Or.inl (by simp [helMenuHandleKey, hact, hcur, hk]))
      | KeyUp =>
        refine Or.inr (Or.inr (Or.inl ?_))
        by_cases h0 : (st.heap cur).idx > 0
        · exact ⟨cur, (st.heap cur).idx - 1, by simp [helMenuHandleKey, hact, hcur, hk, h0]⟩
        · exact ⟨cur, ((st.heap cur).items.length : Int) - 1,
            by simp [helMenuHandleKey, hact, hcur, hk, h0]⟩
      | KeyDown =>
        refine Or.inr (Or.inr (Or.inl ?_))
        by_cases h0 : (st.heap cur).idx < ((st.heap cur).items.length : Int) - 1
        · exact ⟨cur, (st.heap cur).idx + 1, by simp [helMenuHandleKey, hact, hcur, hk, h0]⟩
        · exact ⟨cur, 0, by simp [helMenuHandleKey, hact, hcur, hk, h0]⟩
      | KeyEnter =>
        refine Or.inr (Or.inr (Or.inr ?_))
        cases hidx : goIndex (st.heap cur).items (st.heap cur).idx with
        | none =>
          exact Or.inr ⟨by simp [helMenuHandleKey, hact, hcur, hk, hidx], rfl, cur, rfl, hidx⟩
        | some it => exact Or.inl ⟨it, by simp [helMenuHandleKey, hact, hcur, hk, hidx]⟩
      | KeyRune | KeyTab | KeyLeft | KeyRight | other c =>
        by_cases hr : ev.rune = 0
        · exact Or.inr (Or.inl (by simp [helMenuHandleKey, hact, hcur, hk, hr]))
        · cases hf : (st.heap cur).items.find? (fun i => ev.rune == i.key) with
          | none => exact Or.inr (Or.inl (by simp [helMenuHandleKey, hact, hcur, hk, hr, hf]))
          | some it =>
            exact Or.inr (Or.inr (Or.inr (Or.inl
              ⟨it, by simp [helMenuHandleKey, hact, hcur, hk, hr, hf]⟩)))

/-- C5: the predicate (helMenuActive = true iff helMenuStack is non-empty) holds in the initial
state, is established by `helMenuOpen` and `helMenuCloseAll`, and is preserved by `helPop` and by
`helMenuHandleKey` for every key event and every interpretation of the actions (the handler
returns a state, except for Enter on a node whose idx is out of range, where it panics); under
the predicate the menu is never active with an empty stack and `helCur` is nil exactly when the
menu is inactive. -/
theorem menuInv_initial_and_preserved :
    menuInv initState ∧
    (∀ st, menuInv (helMenuOpen st)) ∧
    (∀ st, menuInv (helMenuCloseAll st)) ∧
    (∀ st, menuInv st → menuInv (helPop st)) ∧
    (∀ (run : Actions) (ev : EventKey) (st : State), menuInv st →
      (∃ r, helMenuHandleKey run ev st = some r ∧ menuInv r.1) ∨
      (helMenuHandleKey run ev st = none ∧ ev.key = .KeyEnter ∧
        ∃ cur, helCur st = some cur ∧
          goIndex (st.heap cur).items (st.heap cur).idx = none)) ∧
    (∀ st, menuInv st → ¬ (st.helMenuActive = true ∧ st.helMenuStack = [])) ∧
    (∀ st, menuInv st → (helCur st = none ↔ st.helMenuActive = false)) := by
  refine ⟨by simp [menuInv, initState], ?_, menuInv_closeAll, menuInv_helPop, ?_, ?_, ?_⟩
  · intro st
    simp [menuInv, helMenuOpen]
  · intro run ev st hinv
    rcases helMenuHandleKey_cases run ev st with ⟨_, h⟩ | ⟨ha, h | h | ⟨c, v, h⟩ | ⟨it, h⟩ | h⟩
    · exact Or.inl ⟨_, h, hinv⟩
    · exact Or.inl ⟨_, h, menuInv_closeAll st⟩
    · exact Or.inl ⟨_, h, menuInv_helPop st hinv⟩
    · exact Or.inl ⟨_, h, menuInv_setIdx st c v hinv⟩
    · exact Or.inl ⟨_, h, menuInv_helSelect run it st ha⟩
    · exact Or.inr h
  · intro st hinv ⟨ha, hs⟩
    exact (hinv.1 ha) hs
  · intro st hinv
    simp only [helCur, List.getLast?_eq_none_iff]
    constructor
    · intro hs
      cases hb : st.helMenuActive with
      | false => rfl
      | true => exact absurd hs (hinv.1 hb)
    · intro hb
      by_contra hs
      have := hinv.2 hs
      rw [hb] at this
      exact Bool.noConfusion this

/-- C5 at the freshly opened root menu: Escape returns a state with the invariant. -/
theorem menuInv_initial_and_preserved_witness :
    menuInv (helMenuOpen initState) ∧
    ((∃ r, helMenuHandleKey (rootActions (fun _ _ => none)) (keyEvent .KeyEsc)
        (helMenuOpen initState) = some r ∧ menuInv r.1) ∨
      (helMenuHandleKey (rootActions (fun _ _ => none)) (keyEvent .KeyEsc)
        (helMenuOpen initState) = none ∧ (keyEvent .KeyEsc).key = .KeyEnter ∧
        ∃ cur, helCur (helMenuOpen initState) = some cur ∧
          goIndex ((helMenuOpen initState).heap cur).items
            ((helMenuOpen initState).heap cur).idx = none)) :=
  ⟨menuInv_initial_and_preserved.2.1 initState,
    menuInv_initial_and_preserved.2.2.2.2.1 (rootActions (fun _ _ => none)) (keyEvent .KeyEsc)
      (helMenuOpen initState) (menuInv_initial_and_preserved.2.1 initState)⟩

/-- C6: on the root menu built by `newRootMenu`, from any state: after `helMenuOpen` the rune i
is consumed and gives depth 2 with the Insertions submenu as current node; Escape is then
consumed and gives depth 1 with the root node as current node; the rune q is then consumed and
gives an empty stack with the menu inactive. -/
theorem root_menu_scenario (helRunCmd : GoString → List GoString → Option GoString)
    (st : State) :
    ∃ s1 s2 s3,
      helMenuHandleKey (rootActions helRunCmd) (runeEvent 105) (helMenuOpen st) = some (s1, true) ∧
      s1.helMenuStack.length = 2 ∧ helCur s1 = some st.next ∧
      s1.heap st.next = insertSub ∧ (s1.heap st.next).title = goStr " Inserções " ∧
      helMenuHandleKey (rootActions helRunCmd) (keyEvent .KeyEsc) s1 = some (s2, true) ∧
      s2.helMenuStack.length = 1 ∧ helCur s2 = some (st.next + 3) ∧
      s2.helMenuStack = (helMenuOpen st).helMenuStack ∧
      s2.heap (st.next + 3) = rootMenu st.next (st.next + 1) (st.next + 2) ∧
      (s2.heap (st.next + 3)).title = goStr " Hel Menu " ∧ s2.helMenuActive = true ∧
      helMenuHandleKey (rootActions helRunCmd) (runeEvent 113) s2 = some (s3, true) ∧
      s3.helMenuStack = [] ∧ s3.helMenuActive = false := by
  have e1 : helMenuHandleKey (rootActions helRunCmd) (runeEvent 105) (helMenuOpen st) =
      some (helPush st.next (setIdx st.next 0 (helMenuOpen st)), true) := by
    simp [helMenuHandleKey, helMenuOpen, newRootMenu, helCur, runeEvent, rootMenu, helSelect]
  have e2 : helMenuHandleKey (rootActions helRunCmd) (keyEvent .KeyEsc)
      (helPush st.next (setIdx st.next 0 (helMenuOpen st))) =
      some (setIdx st.next 0 (helMenuOpen st), true) := by
    simp [helMenuHandleKey, helMenuOpen, newRootMenu, helCur, keyEvent, helPush, setIdx, helPop]
  have e3 : ∃ s3, helMenuHandleKey (rootActions helRunCmd) (runeEvent 113)
      (setIdx st.next 0 (helMenuOpen st)) = some (s3, true) ∧
      s3.helMenuStack = [] ∧ s3.helMenuActive = false := by
    have hq : helMenuHandleKey (rootActions helRunCmd) (runeEvent 113)
        (setIdx st.next 0 (helMenuOpen st)) =
        some (helSelect (rootActions helRunCmd)
          { key := 113, title := goStr "Fechar", action := some 9, sub := none }
          (setIdx st.next 0 (helMenuOpen st))) := by
      simp [helMenuHandleKey, runeEvent, setIdx, helMenuOpen, newRootMenu, rootMenu, helCur,
        Function.update]
    obtain ⟨c1, c2, c3⟩ := helSelect_action_closes (rootActions helRunCmd)
      { key := 113, title := goStr "Fechar", action := some 9, sub := none }
      (setIdx st.next 0 (helMenuOpen st)) 9 rfl rfl
    refine ⟨_, ?_, c2, c3⟩
    rw [hq, ← c1]
  obtain ⟨s3, h3, h3a, h3b⟩ := e3
  refine ⟨_, _, s3, e1, ?_, ?_, ?_, ?_, e2, ?_, ?_, ?_, ?_, ?_, ?_, h3, h3a, h3b⟩
  · simp [helPush, setIdx, helMenuOpen]
  · simp [helPush, setIdx, helMenuOpen, helCur]
  · simp [helPush, setIdx, helMenuOpen, newRootMenu, Function.update, insertSub]
  · simp [helPush, setIdx, helMenuOpen, newRootMenu, Function.update, insertSub]
  · simp [setIdx, helMenuOpen]
  · simp [setIdx, helMenuOpen, helCur, newRootMenu]
  · simp [setIdx, helMenuOpen]
  · simp [setIdx, helMenuOpen, newRootMenu, Function.update]
  · simp [setIdx, helMenuOpen, newRootMenu, Function.update, rootMenu]
  · simp [setIdx, helMenuOpen]

/-- The function `helSelect` always reports the key as consumed. -/
theorem helSelect_consumed (run : Actions) (it : helMenuItem) (st : State) :
    (helSelect run it st).2 = true := by
  unfold helSelect
  split
  · rfl
  · split
    · dsimp only
      split
      · rfl
      · split <;> rfl
    · rfl

/-- An index within bounds is not a panic. -/
theorem goIndex_ne_none {α : Type} (xs : List α) (i : Int) (h0 : 0 ≤ i)
    (h1 : i < (xs.length : Int)) : goIndex xs i ≠ none := by
  have h2 : i.toNat < xs.length := by omega
  simp [goIndex, h0, h2]

/-- C7: for every key event and every interpretation of the actions, `helMenuHandleKey` returns
and the value returned is the value of helMenuActive on entry (true iff the menu was active);
when the menu is inactive on entry the whole state, with the stack, the flag and every node, is
returned unchanged.  The one proviso is the index invariant of the data model: for an Enter key
the idx of the current node, if there is one, is within bounds (`cur.items[cur.idx]` panics
otherwise). -/
theorem helMenuHandleKey_consumed_iff_active (run : Actions) (ev : EventKey) (st : State)
    (hvalid : ev.key = .KeyEnter → curIdxValid st) :
    ∃ st', helMenuHandleKey run ev st = some (st', st.helMenuActive) ∧
      (st.helMenuActive = false → st' = st) := by
  rcases helMenuHandleKey_cases run ev st with
    ⟨ha, h⟩ | ⟨ha, h | h | ⟨c, v, h⟩ | ⟨it, h⟩ | ⟨_, hk, c, hc, hidx⟩⟩
  · exact ⟨st, by rw [h, ha], fun _ => rfl⟩
  · exact ⟨_, by rw [h, ha], fun hf => by rw [ha] at hf; exact Bool.noConfusion hf⟩
  · exact ⟨_, by rw [h, ha], fun hf => by rw [ha] at hf; exact Bool.noConfusion hf⟩
  · exact ⟨_, by rw [h, ha], fun hf => by rw [ha] at hf; exact Bool.noConfusion hf⟩
  · refine ⟨(helSelect run it st).1, ?_, fun hf => by rw [ha] at hf; exact Bool.noConfusion hf⟩
    rw [h, ha, ← helSelect_consumed run it st]
  · exact absurd hidx (goIndex_ne_none _ _ (hvalid hk c hc).1 (hvalid hk c hc).2)

/-- C7 at the freshly opened root menu (Enter, consumed) and at the initial state (not
consumed, state unchanged). -/
theorem helMenuHandleKey_consumed_iff_active_witness :
    (∃ st', helMenuHandleKey (rootActions (fun _ _ => none)) (keyEvent .KeyEnter)
        (helMenuOpen initState) = some (st', true) ∧
      ((helMenuOpen initState).helMenuActive = false → st' = helMenuOpen initState)) ∧
    (∃ st', helMenuHandleKey (rootActions (fun _ _ => none)) (keyEvent .KeyEnter)
        initState = some (st', false) ∧ (initState.helMenuActive = false → st' = initState)) :=
  ⟨helMenuHandleKey_consumed_iff_active (rootActions (fun _ _ => none)) (keyEvent .KeyEnter)
      (helMenuOpen initState) (by
        intro _ cur hcur
        have h3 : cur = 3 := by
          have : helCur (helMenuOpen initState) = some 3 := by decide
          rw [this] at hcur
          exact (Option.some.inj hcur).symm
        subst h3
        decide),
    helMenuHandleKey_consumed_iff_active (rootActions (fun _ _ => none)) (keyEvent .KeyEnter)
      initState (by
        intro _ cur hcur
        have : helCur initState = none := by decide
        rw [this] at hcur
        exact Option.noConfusion hcur)⟩

/-- C8: in an active menu, a key event whose key is none of Escape, Backspace, Up, Down, Enter
and whose rune equals the quick key of no item of the current node is consumed and yields
exactly the result of handling an Escape event in the same state: `helPop` (one level popped, or
the menu closed at depth 1). -/
theorem helMenuHandleKey_other_key_pops (run : Actions) (ev esc : EventKey) (st : State)
    (hact : st.helMenuActive = true) (hesc : esc.key = .KeyEsc)
    (h1 : ev.key ≠ .KeyEsc) (h2 : ev.key ≠ .KeyBackspace) (h3 : ev.key ≠ .KeyBackspace2)
    (h4 : ev.key ≠ .KeyUp) (h5 : ev.key ≠ .KeyDown) (h6 : ev.key ≠ .KeyEnter)
    (hno : ∀ cur, helCur st = some cur → ∀ it ∈ (st.heap cur).items, it.key ≠ ev.rune) :
    helMenuHandleKey run ev st = helMenuHandleKey run esc st ∧
      helMenuHandleKey run ev st = some (helPop st, true) := by
  have hE : helMenuHandleKey run esc st = some (helPop st, true) := by
    cases hcur : helCur st with
    | none =>
      have : st.helMenuStack = [] := by simpa [helCur] using hcur
      simp [helMenuHandleKey, hact, hcur, helPop, this]
    | some cur => simp [helMenuHandleKey, hact, hcur, hesc]
  have hK : helMenuHandleKey run ev st = some (helPop st, true) := by
    cases hcur : helCur st with
    | none =>
      have : st.helMenuStack = [] := by simpa [helCur] using hcur
      simp [helMenuHandleKey, hact, hcur, helPop, this]
    | some cur =>
      have hf : (st.heap cur).items.find? (fun i => ev.rune == i.key) = none := by
        rw [List.find?_eq_none]
        intro it hit hcontra
        have hk : ev.rune = it.key := by simpa using hcontra
        exact hno cur hcur it hit hk.symm
      have hq : (if ev.rune ≠ 0 then (st.heap cur).items.find? (fun i => ev.rune == i.key)
          else none) = none := by
        split
        · exact hf
        · rfl
      unfold helMenuHandleKey
      simp only [hact, hcur]
      split <;> first | contradiction | (rw [hq])
  exact ⟨hK.trans hE.symm, hK⟩

/-- C8 at the freshly opened root menu: the rune z is no quick key of the root node. -/
theorem helMenuHandleKey_other_key_pops_witness :
    (helMenuOpen initState).helMenuActive = true ∧
    helMenuHandleKey (rootActions (fun _ _ => none)) (runeEvent 122) (helMenuOpen initState) =
      helMenuHandleKey (rootActions (fun _ _ => none)) (keyEvent .KeyEsc)
        (helMenuOpen initState) ∧
    helMenuHandleKey (rootActions (fun _ _ => none)) (runeEvent 122) (helMenuOpen initState) =
      some (helPop (helMenuOpen initState), true) :=
  ⟨by decide,
    helMenuHandleKey_other_key_pops (rootActions (fun _ _ => none)) (runeEvent 122)
      (keyEvent .KeyEsc) (helMenuOpen initState) (by decide) rfl (by decide) (by decide)
      (by decide) (by decide) (by decide) (by decide) (by
        intro cur hcur
        have h3 : cur = 3 := by
          have : helCur (helMenuOpen initState) = some 3 := by decide
          rw [this] at hcur
          exact (Option.some.inj hcur).symm
        subst h3
        decide)⟩

/-! ### Strings and numbers -/

/-- No white-space rune starts with a sign or a digit. -/
theorem find_space_none (c : Nat) (t : GoString) (h : 43 ≤ c ∧ c ≤ 57) :
    spaceSeqs.find? (fun p => p.isPrefixOf (c :: t)) = none := by
  rw [List.find?_eq_none]
  intro p hp
  simp only [spaceSeqs, List.mem_cons, List.mem_singleton, List.not_mem_nil, or_false] at hp
  rcases hp with h | h | h | h | h | h | h | h | h | h | h | h | h | h | h | h | h | h | h | h |
      h | h | h | h | h <;>
    subst h <;> simp [List.isPrefixOf] <;> omega

/-- No white-space rune ends with a sign or a digit. -/
theorem find_space_rev_none (c : Nat) (t : GoString) (h : 43 ≤ c ∧ c ≤ 57) :
    (spaceSeqs.map List.reverse).find? (fun p => p.isPrefixOf (c :: t)) = none := by
  rw [List.find?_eq_none]
  intro p hp
  simp only [spaceSeqs, List.map, List.reverse_cons, List.reverse_nil, List.nil_append,
    List.cons_append, List.mem_cons, List.mem_singleton, List.not_mem_nil, or_false] at hp
  rcases hp with h | h | h | h | h | h | h | h | h | h | h | h | h | h | h | h | h | h | h | h |
      h | h | h | h | h <;>
    subst h <;> simp [List.isPrefixOf] <;> omega

/-- Nothing is trimmed when no listed sequence starts the text. -/
theorem trimLeftAux_none (seqs : List GoString) (n : Nat) (s : GoString)
    (h : seqs.find? (fun p => p.isPrefixOf s) = none) : trimLeftAux seqs n s = s := by
  cases n with
  | zero => rfl
  | succ k => simp [trimLeftAux, h]

/-- A text that starts and ends with a sign or a digit is left as it is by `TrimSpace`. -/
theorem TrimSpace_plain (s : GoString) (c d : Nat) (t u : GoString)
    (hs : s = c :: t) (hr : s.reverse = d :: u)
    (hc : 43 ≤ c ∧ c ≤ 57) (hd : 43 ≤ d ∧ d ≤ 57) : TrimSpace s = s := by
  unfold TrimSpace
  have h1 : trimLeftAux spaceSeqs s.length s = s :=
    trimLeftAux_none _ _ _ (by rw [hs]; exact find_space_none c t hc)
  simp only [h1]
  have h2 : trimLeftAux (spaceSeqs.map List.reverse) s.length s.reverse = s.reverse :=
    trimLeftAux_none _ _ _ (by rw [hr]; exact find_space_rev_none d u hd)
  rw [h2, List.reverse_reverse]

/-- Reading digits over a concatenation. -/
theorem digitsValue_append (l1 l2 : GoString) (a : Nat) :
    digitsValue (l1 ++ l2) a = (digitsValue l1 a).bind (fun v => digitsValue l2 v) := by
  induction l1 generalizing a with
  | nil => simp [digitsValue]
  | cons c cs ih =>
    simp only [List.cons_append, digitsValue]
    split
    · exact ih _
    · rfl

/-- A text made of digits only always has a value. -/
theorem digitsValue_of_digits (l : GoString) (a : Nat) (h : ∀ b ∈ l, 48 ≤ b ∧ b ≤ 57) :
    ∃ m, digitsValue l a = some m := by
  induction l generalizing a with
  | nil => exact ⟨a, rfl⟩
  | cons c cs ih =>
    have hc := h c (List.mem_cons_self c cs)
    simp only [digitsValue, hc, and_self, if_true]
    exact ih _ (fun b hb => h b (List.mem_cons_of_mem c hb))

/-- C9 (as amended): on a Number field under the cursor of an active form, a rune event without
the Ctrl modifier is consumed, moves nothing but the text of that field, and the text becomes v
followed by r exactly when r is one of 0..9 and `parseIntDefault` of the resulting text with
default 0 lies in [Min,Max]; otherwise it stays v.  That number is the integer written by the
trimmed resulting text when it is a decimal integer that fits in an int, and 0 otherwise; for a
text of digits only it is the number they write whenever that fits. -/
theorem helFormHandleKey_number_rune (ev : EventKey) (st : State) (cur : helField)
    (hact : st.formActive = true) (hcur : goIndex st.form st.formIdx = some cur)
    (hkind : cur.Kind = .FNumber) (hkey : ev.key = .KeyRune) (hctrl : ev.modCtrl = false) :
    (∃ st', helFormHandleKey ev st = some (st', true) ∧
      st'.formActive = true ∧ st'.formIdx = st.formIdx ∧
      st'.form.length = st.form.length ∧
      (∀ j : Nat, j ≠ st.formIdx.toNat → st'.form[j]? = st.form[j]?) ∧
      goIndex st'.form st'.formIdx =
        some { cur with
          Value :=
            if (48 ≤ ev.rune ∧ ev.rune ≤ 57) ∧
                cur.Min ≤ parseIntDefault (cur.Value ++ [ev.rune]) 0 ∧
                parseIntDefault (cur.Value ++ [ev.rune]) 0 ≤ cur.Max
            then cur.Value ++ [ev.rune] else cur.Value }) ∧
    (∀ z, decimalInt (TrimSpace (cur.Value ++ [ev.rune])) = some z → minInt ≤ z → z ≤ maxInt →
      parseIntDefault (cur.Value ++ [ev.rune]) 0 = z) ∧
    ((decimalInt (TrimSpace (cur.Value ++ [ev.rune])) = none ∨
      ∃ z, decimalInt (TrimSpace (cur.Value ++ [ev.rune])) = some z ∧ ¬ (minInt ≤ z ∧ z ≤ maxInt)) →
      parseIntDefault (cur.Value ++ [ev.rune]) 0 = 0) ∧
    ((∀ b ∈ cur.Value, 48 ≤ b ∧ b ≤ 57) → 48 ≤ ev.rune ∧ ev.rune ≤ 57 →
      ∃ m : Nat, digitsValue (cur.Value ++ [ev.rune]) 0 = some m ∧
        ((m : Int) ≤ maxInt → parseIntDefault (cur.Value ++ [ev.rune]) 0 = m)) := by
  have hidx : 0 ≤ st.formIdx ∧ st.form[st.formIdx.toNat]? = some cur := by
    unfold goIndex at hcur
    split at hcur
    · rename_i h0
      exact ⟨h0, hcur⟩
    · exact Option.noConfusion hcur
  have hlt : st.formIdx.toNat < st.form.length := by
    by_contra hge
    have := List.getElem?_eq_none (Nat.le_of_not_lt hge)
    rw [this] at hidx
    exact Option.noConfusion hidx.2
  have hset : ∀ f : helField, goIndex (st.form.set st.formIdx.toNat f) st.formIdx = some f := by
    intro f
    simp [goIndex, hidx.1, List.getElem?_set, hlt]
  refine ⟨?_, ?_, ?_, ?_⟩
  · by_cases hd : 48 ≤ ev.rune ∧ ev.rune ≤ 57
    · have hr0 : ev.rune ≠ 0 := by omega
      have hrb : runeBytes ev.rune = [ev.rune] := by
        have : ev.rune < 128 := by omega
        simp [runeBytes, this]
      by_cases hin : cur.Min ≤ parseIntDefault (cur.Value ++ [ev.rune]) 0 ∧
          parseIntDefault (cur.Value ++ [ev.rune]) 0 ≤ cur.Max
      · refine ⟨setCur { cur with Value := cur.Value ++ [ev.rune] } st, ?_, ?_, ?_, ?_, ?_, ?_⟩
        · simp [helFormHandleKey, hact, hcur, hkey, helFormEdit, hr0, hctrl, hkind, hd, hrb, hin]
        · simp [setCur, hact]
        · simp [setCur]
        · simp [setCur]
        · intro j hj
          simp [setCur, List.getElem?_set, Ne.symm hj]
        · simp only [setCur, hset, hd, hin, and_self, if_true]
      · refine ⟨st, ?_, hact, rfl, rfl, fun _ _ => rfl, ?_⟩
        · simp only [helFormHandleKey, hact, hcur, hkey, helFormEdit, hr0, hctrl, hkind, hd, hrb]
          simp [hin]
        · simp only [hcur, hd, hin, and_false, if_false]
    · refine ⟨st, ?_, hact, rfl, rfl, fun _ _ => rfl, ?_⟩
      · by_cases hr0 : ev.rune = 0
        · simp [helFormHandleKey, hact, hcur, hkey, helFormEdit, hr0]
        · simp only [helFormHandleKey, hact, hcur, hkey, helFormEdit, hctrl, hkind]
          simp [hr0, hd]
      · simp only [hcur, hd, false_and, if_false]
  · intro z hz h1 h2
    simp [parseIntDefault, Atoi, hz, h1, h2]
  · rintro (hn | ⟨z, hz, hout⟩)
    · simp [parseIntDefault, Atoi, hn]
    · simp only [parseIntDefault, Atoi, hz, hout, if_false]
  · intro hv hr
    have hall : ∀ b ∈ cur.Value ++ [ev.rune], 48 ≤ b ∧ b ≤ 57 := by
      intro b hb
      rcases List.mem_append.1 hb with h | h
      · exact hv b h
      · rw [List.mem_singleton.1 h]
        exact hr
    obtain ⟨m, hm⟩ := digitsValue_of_digits (cur.Value ++ [ev.rune]) 0 hall
    refine ⟨m, hm, ?_⟩
    intro hfit
    have hne : cur.Value ++ [ev.rune] ≠ [] := by simp
    obtain ⟨c, t, hct⟩ := List.exists_cons_of_ne_nil hne
    have hrev : (cur.Value ++ [ev.rune]).reverse = ev.rune :: cur.Value.reverse := by simp
    have hc : 48 ≤ c ∧ c ≤ 57 := hall c (by rw [hct]; exact List.mem_cons_self c t)
    have htrim := TrimSpace_plain (cur.Value ++ [ev.rune]) c ev.rune t cur.Value.reverse hct hrev
      ⟨by omega, hc.2⟩ ⟨by omega, hr.2⟩
    have hdec : decimalInt (cur.Value ++ [ev.rune]) = some (m : Int) := by
      have h45 : c ≠ 45 := by omega
      have h43 : c ≠ 43 := by omega
      rw [hct] at hm ⊢
      simp [decimalInt, h45, h43, hm]
    have hlo : minInt ≤ (m : Int) := by
      have : (0 : Int) ≤ (m : Int) := Int.ofNat_nonneg m
      unfold minInt
      omega
    simp [parseIntDefault, Atoi, htrim, hdec, hlo, hfit]

/-- C9, the claim as stated fails: on a Number field with bounds [0, maxInt] and a text of
eighteen nines, the rune 9 is accepted although the nineteen nines of the resulting text write
an integer above the upper bound (the text does not fit in an int, so the check reads 0). -/
theorem number_rune_overflow_counterexample :
    ∃ st', helFormHandleKey (runeEvent 57) (numberForm (goStr "999999999999999999") 0 maxInt) =
        some (st', true) ∧
      st'.form.map (fun f => f.Value) = [goStr "9999999999999999999"] ∧
      decimalInt (goStr "9999999999999999999") = some 9999999999999999999 ∧
      ¬ ((0 : Int) ≤ 9999999999999999999 ∧ (9999999999999999999 : Int) ≤ maxInt) :=
  ⟨_, rfl, by decide, by decide, by decide⟩

/-- C9 (as amended) on a Number field with bounds [0,120]: after the text 99 the rune 9 is
dropped, and typing 9, 9, 9 on the empty text leaves 99. -/
theorem helFormHandleKey_number_rune_witness :
    (numberForm (goStr "99") 0 120).formActive = true ∧
    (∃ st', helFormHandleKey (runeEvent 57) (numberForm (goStr "99") 0 120) = some (st', true) ∧
      (goIndex st'.form st'.formIdx).map (fun f => f.Value) = some (goStr "99")) ∧
    (helFormHandleKeys [runeEvent 57, runeEvent 57, runeEvent 57] (numberForm (goStr "") 0 120)).map
      (fun s => s.form.map (fun f => f.Value)) = some [goStr "99"] := by
  refine ⟨by decide, ?_, by decide⟩
  obtain ⟨st', h1, _, _, _, _, h2⟩ :=
    (helFormHandleKey_number_rune (runeEvent 57) (numberForm (goStr "99") 0 120)
      { zeroField with Label := goStr "Idade", Kind := .FNumber, Value := goStr "99",
                       Min := 0, Max := 120 }
      (by decide) (by decide) rfl rfl rfl).1
  refine ⟨st', h1, ?_⟩
  rw [h2]
  decide

/-- The digits produced in front of an accumulator do not depend on it. -/
theorem natDigits_acc (f n : Nat) (acc : GoString) :
    natDigits f n acc = natDigits f n [] ++ acc := by
  induction f generalizing n acc with
  | zero => simp [natDigits]
  | succ k ih =>
    simp only [natDigits]
    split
    · simp
    · rw [ih (n / 10) ((48 + n % 10) :: acc), ih (n / 10) [48 + n % 10]]
      simp

/-- Reading back the digits of `n` gives `n`. -/
theorem digitsValue_natDigits (f n : Nat) (h : n < f) :
    digitsValue (natDigits f n []) 0 = some n := by
  induction f generalizing n with
  | zero => omega
  | succ k ih =>
    simp only [natDigits]
    split
    · simp [digitsValue]
      omega
    · rw [natDigits_acc, digitsValue_append, ih (n / 10) (by omega)]
      simp [digitsValue]
      omega

/-- Every byte produced by `natDigits` is a digit. -/
theorem natDigits_digits (f n : Nat) (acc : GoString) (hacc : ∀ b ∈ acc, 48 ≤ b ∧ b ≤ 57) :
    ∀ b ∈ natDigits f n acc, 48 ≤ b ∧ b ≤ 57 := by
  induction f generalizing n acc with
  | zero => simpa [natDigits] using hacc
  | succ k ih =>
    simp only [natDigits]
    split
    · intro b hb
      rcases List.mem_cons.1 hb with h | h
      · omega
      · exact hacc b h
    · apply ih
      intro b hb
      rcases List.mem_cons.1 hb with h | h
      · omega
      · exact hacc b h

/-- With fuel, `natDigits` produces at least one byte. -/
theorem natDigits_ne_nil (f n : Nat) : natDigits (f + 1) n [] ≠ [] := by
  simp only [natDigits]
  split
  · simp
  · rw [natDigits_acc]
    simp

/-- Round trip: `Atoi` of the trimmed `Itoa n` is `n` for every 64-bit `n`. -/
theorem Atoi_TrimSpace_Itoa (n : Int) (h0 : minInt ≤ n) (h1 : n ≤ maxInt) :
    Atoi (TrimSpace (Itoa n)) = some n := by
  have hne := natDigits_ne_nil n.natAbs n.natAbs
  have hdig := natDigits_digits (n.natAbs + 1) n.natAbs [] (by simp)
  have hval := digitsValue_natDigits (n.natAbs + 1) n.natAbs (by omega)
  obtain ⟨c, t, hct⟩ := List.exists_cons_of_ne_nil hne
  have hrne : (natDigits (n.natAbs + 1) n.natAbs []).reverse ≠ [] := by simpa using hne
  obtain ⟨d, u, hdu⟩ := List.exists_cons_of_ne_nil hrne
  have hc : 48 ≤ c ∧ c ≤ 57 := hdig c (by rw [hct]; exact List.mem_cons_self c t)
  have hd : 48 ≤ d ∧ d ≤ 57 := by
    apply hdig d
    rw [← List.mem_reverse, hdu]
    exact List.mem_cons_self d u
  by_cases hneg : n < 0
  · have hI : Itoa n = 45 :: natDigits (n.natAbs + 1) n.natAbs [] := by simp [Itoa, hneg]
    have hrev : (Itoa n).reverse = d :: (u ++ [45]) := by
      rw [hI, List.reverse_cons, hdu]
      rfl
    rw [TrimSpace_plain (Itoa n) 45 d _ _ hI hrev (by omega) ⟨by omega, hd.2⟩]
    have hdec : decimalInt (Itoa n) = some n := by
      rw [hI]
      simp only [decimalInt, List.head?_cons, List.tail_cons, true_or, if_true, hne, if_false,
        hval]
      congr 1
      omega
    simp [Atoi, hdec, h0, h1]
  · have hI : Itoa n = natDigits (n.natAbs + 1) n.natAbs [] := by simp [Itoa, hneg]
    rw [TrimSpace_plain (Itoa n) c d t u (hI.trans hct) (by rw [hI]; exact hdu)
      ⟨by omega, hc.2⟩ ⟨by omega, hd.2⟩]
    have hdec : decimalInt (Itoa n) = some n := by
      have h45 : c ≠ 45 := by omega
      have h43 : c ≠ 43 := by omega
      rw [hI]
      rw [hct] at hval ⊢
      simp only [decimalInt, List.head?_cons, Option.some.injEq, h45, h43, or_self, if_false,
        hval]
      simp
      omega
    simp [Atoi, hdec, h0, h1]

/-- The function `parseIntDefault` reads back what `Itoa` writes. -/
theorem parseIntDefault_Itoa (n d : Int) (h0 : minInt ≤ n) (h1 : n ≤ maxInt) :
    parseIntDefault (Itoa n) d = n := by
  simp [parseIntDefault, Atoi_TrimSpace_Itoa n h0 h1]

/-- The result of `parseIntDefault` is a 64-bit `int` when the default is. -/
theorem parseIntDefault_range (s : GoString) (d : Int) (h0 : minInt ≤ d) (h1 : d ≤ maxInt) :
    minInt ≤ parseIntDefault s d ∧ parseIntDefault s d ≤ maxInt := by
  unfold parseIntDefault Atoi
  split
  · exact ⟨h0, h1⟩
  · rename_i n hn
    split at hn
    · exact Option.noConfusion hn
    · split at hn
      · rename_i hr
        rw [← Option.some.inj hn]
        exact hr
      · exact Option.noConfusion hn

/-- C10, the claim as stated fails: a Number field with bounds [10,20] holds the text 1 after
Backspace on 15; Left then leaves the text 1, whose numeric value 1 is below the lower bound and
is not max(10, 1-1), and Right gives 2, also below the lower bound. -/
theorem number_left_below_min_counterexample :
    (helFormHandleKey (keyEvent .KeyBackspace) (numberForm (goStr "15") 10 20)).map
      (fun r => r.1.form.map (fun f => f.Value)) = some [goStr "1"] ∧
    (helFormHandleKey (keyEvent .KeyLeft) (numberForm (goStr "1") 10 20)).map
      (fun r => (r.1.form.map (fun f => parseIntDefault f.Value 0), r.2)) = some ([1], true) ∧
    (helFormHandleKey (keyEvent .KeyRight) (numberForm (goStr "1") 10 20)).map
      (fun r => (r.1.form.map (fun f => parseIntDefault f.Value 0), r.2)) = some ([2], true) ∧
    ¬ ((10 : Int) ≤ 1 ∧ (1 : Int) ≤ 20) ∧ (1 : Int) ≠ max 10 (1 - 1) ∧
    ¬ ((10 : Int) ≤ 2 ∧ (2 : Int) ≤ 20) := by
  refine ⟨by decide, by decide, by decide, by decide, by decide, by decide⟩

/-- C10 (as amended): on a Number field under the cursor of an active form, with bounds that
are ints, Left and Right are consumed and replace the text by `Itoa` of n1, whose numeric value
is n1 again, where for the previous numeric value n (`parseIntDefault` with default 0) Left
gives n1 = n-1 if n > Min and n otherwise, and Right gives n1 = n+1 if n < Max and n otherwise.
When n lies in [Min,Max], n1 lies in [Min,Max], Left yields max(Min, n-1) and Right yields
min(Max, n+1). -/
theorem helFormHandleKey_number_left_right (ev : EventKey) (st : State) (cur : helField)
    (hact : st.formActive = true) (hcur : goIndex st.form st.formIdx = some cur)
    (hkind : cur.Kind = .FNumber) (hkey : ev.key = .KeyLeft ∨ ev.key = .KeyRight)
    (hmin : minInt ≤ cur.Min) (hmax : cur.Max ≤ maxInt) :
    ∃ st' n1, helFormHandleKey ev st = some (st', true) ∧
      st'.formActive = true ∧ st'.formIdx = st.formIdx ∧
      st'.form.length = st.form.length ∧
      (∀ j : Nat, j ≠ st.formIdx.toNat → st'.form[j]? = st.form[j]?) ∧
      goIndex st'.form st'.formIdx = some { cur with Value := Itoa n1 } ∧
      parseIntDefault (Itoa n1) 0 = n1 ∧
      (ev.key = .KeyLeft →
        n1 = if parseIntDefault cur.Value 0 > cur.Min then parseIntDefault cur.Value 0 - 1
             else parseIntDefault cur.Value 0) ∧
      (ev.key = .KeyRight →
        n1 = if parseIntDefault cur.Value 0 < cur.Max then parseIntDefault cur.Value 0 + 1
             else parseIntDefault cur.Value 0) ∧
      (cur.Min ≤ parseIntDefault cur.Value 0 → parseIntDefault cur.Value 0 ≤ cur.Max →
        cur.Min ≤ n1 ∧ n1 ≤ cur.Max ∧
        (ev.key = .KeyLeft → n1 = max cur.Min (parseIntDefault cur.Value 0 - 1)) ∧
        (ev.key = .KeyRight → n1 = min cur.Max (parseIntDefault cur.Value 0 + 1))) := by
  have hidx : 0 ≤ st.formIdx ∧ st.form[st.formIdx.toNat]? = some cur := by
    unfold goIndex at hcur
    split at hcur
    · rename_i h0
      exact ⟨h0, hcur⟩
    · exact Option.noConfusion hcur
  have hlt : st.formIdx.toNat < st.form.length := by
    by_contra hge
    have := List.getElem?_eq_none (Nat.le_of_not_lt hge)
    rw [this] at hidx
    exact Option.noConfusion hidx.2
  have hset : ∀ f : helField, goIndex (st.form.set st.formIdx.toNat f) st.formIdx = some f := by
    intro f
    simp [goIndex, hidx.1, List.getElem?_set, hlt]
  obtain ⟨hr0, hr1⟩ := parseIntDefault_range cur.Value 0 (by decide) (by decide)
  generalize hn : parseIntDefault cur.Value 0 = n at hr0 hr1 ⊢
  rcases hkey with hk | hk
  · refine ⟨setCur { cur with Value := Itoa (if n > cur.Min then n - 1 else n) } st,
      if n > cur.Min then n - 1 else n, ?_, ?_, ?_, ?_, ?_, ?_, ?_, ?_, ?_, ?_⟩
    · simp [helFormHandleKey, hact, hcur, hk, hkind, hn]
    · simp [setCur, hact]
    · simp [setCur]
    · simp [setCur]
    · intro j hj
      simp [setCur, List.getElem?_set, Ne.symm hj]
    · simp only [setCur, hset]
    · apply parseIntDefault_Itoa
      · split <;> omega
      · split <;> omega
    · intro _
      rfl
    · intro h
      rw [hk] at h
      exact Key.noConfusion h
    · intro h0 h1
      refine ⟨by split <;> omega, by split <;> omega, ?_, ?_⟩
      · intro _
        split
        · rw [max_eq_right (by omega)]
        · rw [max_eq_left (by omega)]
          omega
      · intro h
        rw [hk] at h
        exact Key.noConfusion h
  · refine ⟨setCur { cur with Value := Itoa (if n < cur.Max then n + 1 else n) } st,
      if n < cur.Max then n + 1 else n, ?_, ?_, ?_, ?_, ?_, ?_, ?_, ?_, ?_, ?_⟩
    · simp [helFormHandleKey, hact, hcur, hk, hkind, hn]
    · simp [setCur, hact]
    · simp [setCur]
    · simp [setCur]
    · intro j hj
      simp [setCur, List.getElem?_set, Ne.symm hj]
    · simp only [setCur, hset]
    · apply parseIntDefault_Itoa
      · split <;> omega
      · split <;> omega
    · intro h
      rw [hk] at h
      exact Key.noConfusion h
    · intro _
      rfl
    · intro h0 h1
      refine ⟨by split <;> omega, by split <;> omega, ?_, ?_⟩
      · intro h
        rw [hk] at h
        exact Key.noConfusion h
      · intro _
        split
        · rw [min_eq_right (by omega)]
        · rw [min_eq_left (by omega)]
          omega

/-- C10 (as amended) on the Number field of the form, text 18 and bounds [0,120]: Left is
consumed and the numeric value of the new text is within the bounds. -/
theorem helFormHandleKey_number_left_right_witness :
    (numberForm (goStr "18") 0 120).formActive = true ∧
    parseIntDefault (goStr "18") 0 = 18 ∧
    ∃ st' n1, helFormHandleKey (keyEvent .KeyLeft) (numberForm (goStr "18") 0 120) =
        some (st', true) ∧
      (goIndex st'.form st'.formIdx).map (fun f => f.Value) = some (Itoa n1) ∧
      parseIntDefault (Itoa n1) 0 = n1 ∧ n1 = 17 ∧ (0 : Int) ≤ n1 ∧ n1 ≤ 120 := by
  refine ⟨by decide, by decide, ?_⟩
  obtain ⟨st', n1, h1, _, _, _, _, h2, h3, h4, _, h5⟩ :=
    helFormHandleKey_number_left_right (keyEvent .KeyLeft) (numberForm (goStr "18") 0 120)
      { zeroField with Label := goStr "Idade", Kind := .FNumber, Value := goStr "18",
                       Min := 0, Max := 120 }
      (by decide) (by decide) rfl (Or.inl rfl) (by decide) (by decide)
  have h17 : n1 = 17 := by
    rw [h4 rfl]
    decide
  have hb := h5 (by decide) (by decide)
  exact ⟨st', n1, h1, by rw [h2]; rfl, h3, h17, hb.1, hb.2.1⟩

/-! ### The form: List fields, cursor, commit -/

/-- A successful Go index: the index is a natural number within the list. -/
theorem goIndex_eq_some {α : Type} (xs : List α) (i : Int) (a : α) (h : goIndex xs i = some a) :
    0 ≤ i ∧ i.toNat < xs.length ∧ xs[i.toNat]? = some a := by
  unfold goIndex at h
  split at h
  · rename_i h0
    refine ⟨h0, ?_, h⟩
    by_contra hge
    rw [List.getElem?_eq_none (Nat.le_of_not_lt hge)] at h
    exact Option.noConfusion h
  · exact Option.noConfusion h

/-- Reading back the element written at a valid index. -/
theorem goIndex_set {α : Type} (xs : List α) (i : Int) (a : α) (h0 : 0 ≤ i)
    (h1 : i.toNat < xs.length) : goIndex (xs.set i.toNat a) i = some a := by
  simp [goIndex, h0, List.getElem?_set, h1]

/-- A value within the 64-bit range is not changed by the wrap-around. -/
theorem wrap64_id (z : Int) (h0 : minInt ≤ z) (h1 : z ≤ maxInt) : wrap64 z = z := by
  unfold minInt at h0
  unfold maxInt at h1
  unfold wrap64
  omega

/-- One Left or Right key on a List field with options and a selected index within them. -/
theorem list_step (ev : EventKey) (st : State) (cur : helField)
    (hact : st.formActive = true) (hcur : goIndex st.form st.formIdx = some cur)
    (hkind : cur.Kind = .FList) (hn : 1 ≤ cur.Options.length)
    (hbig : (cur.Options.length : Int) ≤ 2 ^ 59)
    (h0 : 0 ≤ cur.Index) (h1 : cur.Index < (cur.Options.length : Int))
    (hkey : ev.key = .KeyLeft ∨ ev.key = .KeyRight) :
    helFormHandleKey ev st =
      some (setCur { cur with
        Index := if ev.key = .KeyRight then (cur.Index + 1) % (cur.Options.length : Int)
                 else (cur.Index - 1) % (cur.Options.length : Int) } st, true) := by
  have hpos : cur.Options.length > 0 := by omega
  rcases hkey with hk | hk
  · have e1 : wrap64 (cur.Index - 1) = cur.Index - 1 :=
      wrap64_id _ (by unfold minInt; omega) (by unfold maxInt; omega)
    have e2 : wrap64 (cur.Index - 1 + (cur.Options.length : Int)) =
        cur.Index - 1 + (cur.Options.length : Int) :=
      wrap64_id _ (by unfold minInt; omega) (by unfold maxInt; omega)
    have e3 : Int.tmod (cur.Index - 1 + (cur.Options.length : Int)) (cur.Options.length : Int) =
        (cur.Index - 1) % (cur.Options.length : Int) := by
      rw [Int.tmod_eq_emod (by omega) (by omega), Int.add_emod_self]
    simp [helFormHandleKey, hact, hcur, hk, hkind, hpos, e1, e2, e3]
  · have e1 : wrap64 (cur.Index + 1) = cur.Index + 1 :=
      wrap64_id _ (by unfold minInt; omega) (by unfold maxInt; omega)
    have e3 : Int.tmod (cur.Index + 1) (cur.Options.length : Int) =
        (cur.Index + 1) % (cur.Options.length : Int) :=
      Int.tmod_eq_emod (by omega) (by omega)
    simp [helFormHandleKey, hact, hcur, hk, hkind, hpos, e1, e3]

/-- C11: on a List field under the cursor of an active form, with n >= 1 options and Index in
[0,n), Right is consumed and sets Index to (Index+1) mod n, Left is consumed and sets Index to
(Index-1) mod n, which is n-1 from 0, and nothing else changes; after every key of every
sequence of Left/Right keys the field still has its options and an Index in [0,n).  A List
field with no options is left unchanged, with the whole state.  On the form of `helFormOpen`
with the cursor on the list of four options, four Lefts from 0 visit 3, 2, 1, 0 and four Rights
visit 1, 2, 3, 0. -/
theorem helFormHandleKey_list_cycles :
    (∀ (ev : EventKey) (st : State) (cur : helField),
      st.formActive = true → goIndex st.form st.formIdx = some cur → cur.Kind = .FList →
      1 ≤ cur.Options.length → (cur.Options.length : Int) ≤ 2 ^ 59 →
      0 ≤ cur.Index → cur.Index < (cur.Options.length : Int) →
      (ev.key = .KeyLeft ∨ ev.key = .KeyRight) →
      ∃ st' i, helFormHandleKey ev st = some (st', true) ∧
        st' = setCur { cur with Index := i } st ∧
        goIndex st'.form st'.formIdx = some { cur with Index := i } ∧
        (ev.key = .KeyRight → i = (cur.Index + 1) % (cur.Options.length : Int)) ∧
        (ev.key = .KeyLeft → i = (cur.Index - 1) % (cur.Options.length : Int)) ∧
        (ev.key = .KeyLeft → cur.Index = 0 → i = (cur.Options.length : Int) - 1) ∧
        0 ≤ i ∧ i < (cur.Options.length : Int)) ∧
    (∀ (evs : List EventKey) (st : State) (cur : helField),
      st.formActive = true → goIndex st.form st.formIdx = some cur → cur.Kind = .FList →
      1 ≤ cur.Options.length → (cur.Options.length : Int) ≤ 2 ^ 59 →
      0 ≤ cur.Index → cur.Index < (cur.Options.length : Int) →
      (∀ ev ∈ evs, ev.key = .KeyLeft ∨ ev.key = .KeyRight) →
      (formStates evs st).length = evs.length ∧
      ∀ s ∈ formStates evs st, ∃ i, goIndex s.form s.formIdx = some { cur with Index := i } ∧
        0 ≤ i ∧ i < (cur.Options.length : Int)) ∧
    (∀ (ev : EventKey) (st : State) (cur : helField),
      st.formActive = true → goIndex st.form st.formIdx = some cur → cur.Kind = .FList →
      cur.Options = [] → (ev.key = .KeyLeft ∨ ev.key = .KeyRight) →
      helFormHandleKey ev st = some (st, true)) ∧
    (formStates [keyEvent .KeyLeft, keyEvent .KeyLeft, keyEvent .KeyLeft, keyEvent .KeyLeft]
        { helFormOpen initState with formIdx := 3 }).map
      (fun s => (goIndex s.form s.formIdx).map (fun f => f.Index)) =
      [some 3, some 2, some 1, some 0] ∧
    (formStates [keyEvent .KeyRight, keyEvent .KeyRight, keyEvent .KeyRight, keyEvent .KeyRight]
        { helFormOpen initState with formIdx := 3 }).map
      (fun s => (goIndex s.form s.formIdx).map (fun f => f.Index)) =
      [some 1, some 2, some 3, some 0] := by
  have step : ∀ (ev : EventKey) (st : State) (cur : helField),
      st.formActive = true → goIndex st.form st.formIdx = some cur → cur.Kind = .FList →
      1 ≤ cur.Options.length → (cur.Options.length : Int) ≤ 2 ^ 59 →
      0 ≤ cur.Index → cur.Index < (cur.Options.length : Int) →
      (ev.key = .KeyLeft ∨ ev.key = .KeyRight) →
      ∃ st' i, helFormHandleKey ev st = some (st', true) ∧
        st' = setCur { cur with Index := i } st ∧
        goIndex st'.form st'.formIdx = some { cur with Index := i } ∧
        (ev.key = .KeyRight → i = (cur.Index + 1) % (cur.Options.length : Int)) ∧
        (ev.key = .KeyLeft → i = (cur.Index - 1) % (cur.Options.length : Int)) ∧
        (ev.key = .KeyLeft → cur.Index = 0 → i = (cur.Options.length : Int) - 1) ∧
        0 ≤ i ∧ i < (cur.Options.length : Int) := by
    intro ev st cur hact hcur hkind hn hbig h0 h1 hkey
    obtain ⟨hi0, hilt, _⟩ := goIndex_eq_some _ _ _ hcur
    have hne : (cur.Options.length : Int) ≠ 0 := by omega
    have hp : (0 : Int) < (cur.Options.length : Int) := by omega
    refine ⟨_, _, list_step ev st cur hact hcur hkind hn hbig h0 h1 hkey, rfl, ?_, ?_, ?_, ?_, ?_, ?_⟩
    · simp only [setCur]
      exact goIndex_set _ _ _ hi0 hilt
    · intro hk
      simp [hk]
    · intro hk
      simp [hk]
    · intro hk hz
      simp only [hk, hz]
      have : (0 - 1 : Int) % (cur.Options.length : Int) = (cur.Options.length : Int) - 1 := by
        rw [← Int.add_emod_self]
        exact Int.emod_eq_of_lt (by omega) (by omega)
      simpa using this
    · split
      · exact Int.emod_nonneg _ hne
      · exact Int.emod_nonneg _ hne
    · split
      · exact Int.emod_lt_of_pos _ hp
      · exact Int.emod_lt_of_pos _ hp
  refine ⟨step, ?_, ?_, by decide, by decide⟩
  · intro evs
    induction evs with
    | nil =>
      intro st cur _ _ _ _ _ _ _ _
      simp [formStates]
    | cons e es ih =>
      intro st cur hact hcur hkind hn hbig h0 h1 hall
      obtain ⟨st', i, hres, hst', hgo, _, _, _, hi0, hi1⟩ :=
        step e st cur hact hcur hkind hn hbig h0 h1 (hall e (List.mem_cons_self e es))
      have hact' : st'.formActive = true := by rw [hst']; simpa [setCur] using hact
      have ih' := ih st' { cur with Index := i } hact' hgo hkind hn hbig hi0 hi1
        (fun ev hm => hall ev (List.mem_cons_of_mem e hm))
      simp only [formStates, hres, List.length_cons, List.mem_cons]
      refine ⟨by rw [ih'.1], ?_⟩
      intro s hs
      rcases hs with hs | hs
      · rw [hs]
        exact ⟨i, hgo, hi0, hi1⟩
      · obtain ⟨j, hj, hj0, hj1⟩ := ih'.2 s hs
        exact ⟨j, hj, hj0, hj1⟩
  · intro ev st cur hact hcur hkind hopt hkey
    rcases hkey with hk | hk <;> simp [helFormHandleKey, hact, hcur, hk, hkind, hopt]

/-- C11 on the list of the form of `helFormOpen`: Left from index 0 gives index 3. -/
theorem helFormHandleKey_list_cycles_witness :
    ({ helFormOpen initState with formIdx := 3 } : State).formActive = true ∧
    ∃ st' i, helFormHandleKey (keyEvent .KeyLeft) { helFormOpen initState with formIdx := 3 } =
        some (st', true) ∧ i = 3 ∧
      (goIndex st'.form st'.formIdx).map (fun f => f.Index) = some i := by
  refine ⟨by decide, ?_⟩
  obtain ⟨st', i, h1, _, h3, _, _, h6, _⟩ :=
    helFormHandleKey_list_cycles.1 (keyEvent .KeyLeft) { helFormOpen initState with formIdx := 3 }
      { zeroField with Label := goStr "Linguagem", Kind := .FList,
                       Options := [goStr "Go", goStr "JavaScript", goStr "Rust", goStr "C++"],
                       Index := 0 }
      (by decide) (by decide) rfl (by decide) (by decide) (by decide) (by decide) (Or.inl rfl)
  refine ⟨st', i, h1, ?_, ?_⟩
  · rw [h6 rfl rfl]
    decide
  · rw [h3]
    rfl

/-- Closing the form and reporting a message do not touch the form invariant. -/
theorem formInv_close_message (st : State) (msg : GoString) (h : formInv st) :
    formInv (infoBarMessage msg (helFormClose st)) := by
  simpa [formInv, infoBarMessage, helFormClose] using h

/-- Moving the cursor to a valid index keeps the form invariant. -/
theorem formInv_move (st : State) (j : Int) (h : formInv st) (h0 : 0 ≤ j)
    (h1 : j < (st.form.length : Int)) : formInv { st with formIdx := j } := by
  obtain ⟨_, _, hrest⟩ := h
  exact ⟨h0, h1, hrest⟩

/-- Writing the field under the cursor keeps the form invariant when the options are kept and
a selected index within them stays within them. -/
theorem formInv_setCur (st : State) (cur f : helField) (h : formInv st)
    (hcur : goIndex st.form st.formIdx = some cur) (hopt : f.Options = cur.Options)
    (hidx : 0 ≤ cur.Index → cur.Index < (cur.Options.length : Int) →
      (cur.Options.length : Int) ≤ 2 ^ 59 →
      0 ≤ f.Index ∧ f.Index < (cur.Options.length : Int)) :
    formInv (setCur f st) := by
  obtain ⟨h0, h1, f0, f1, f2, f3, rest, hform, hi0, hi1, hbig⟩ := h
  obtain ⟨_, hlt, hget⟩ := goIndex_eq_some _ _ _ hcur
  refine ⟨h0, by simpa [setCur] using h1, ?_⟩
  simp only [setCur]
  rw [hform] at hget ⊢
  generalize st.formIdx.toNat = k at hget
  obtain _ | _ | _ | _ | k := k
  · exact ⟨f, f1, f2, f3, rest, rfl, hi0, hi1, hbig⟩
  · exact ⟨f0, f, f2, f3, rest, rfl, hi0, hi1, hbig⟩
  · exact ⟨f0, f1, f, f3, rest, rfl, hi0, hi1, hbig⟩
  · have hc : f3 = cur := by simpa using hget
    subst hc
    obtain ⟨a, b⟩ := hidx hi0 hi1 hbig
    exact ⟨f0, f1, f2, f, rest, rfl, a, by rw [hopt]; exact b, by rw [hopt]; exact hbig⟩
  · exact ⟨f0, f1, f2, f3, rest.set k f, rfl, hi0, hi1, hbig⟩

/-- The editing part of the handler consumes the key and keeps the form invariant and the
active flag. -/
theorem helFormEdit_inv (ev : EventKey) (st : State) (cur : helField) (h : formInv st)
    (hcur : goIndex st.form st.formIdx = some cur) :
    (helFormEdit ev cur st).2 = true ∧ formInv (helFormEdit ev cur st).1 ∧
      (helFormEdit ev cur st).1.formActive = st.formActive := by
  have hset : ∀ f : helField, f.Options = cur.Options → f.Index = cur.Index →
      formInv (setCur f st) ∧ (setCur f st).formActive = st.formActive := by
    intro f ho hi
    exact ⟨formInv_setCur st cur f h hcur ho (fun a b _ => by rw [hi]; exact ⟨a, b⟩), rfl⟩
  unfold helFormEdit
  dsimp only
  repeat' split
  all_goals first | exact ⟨rfl, h, rfl⟩ | exact ⟨rfl, hset _ rfl rfl⟩

/-- The commit on a form with the four fields it reads, the option selected in the fourth being
`lang`: the form is closed and the summary is reported. -/
theorem helFormCommit_eq (st : State) (f0 f1 f2 f3 : helField) (rest : List helField)
    (lang : GoString) (hform : st.form = f0 :: f1 :: f2 :: f3 :: rest)
    (hl : goIndex f3.Options f3.Index = some lang) :
    helFormCommit st =
      some (infoBarMessage
        (goStr "OK: Nome=" ++ TrimSpace f0.Value ++ goStr "  Idade="
          ++ Itoa (parseIntDefault f1.Value 18) ++ goStr "  Termos=" ++ fmtBool f2.Bool
          ++ goStr "  Linguagem=" ++ lang) (helFormClose st), true) := by
  simp [helFormCommit, helFormClose, hform, hl]

/-- Under the form invariant the commit does not panic: it closes the form and reports one
message. -/
theorem helFormCommit_ok (st : State) (h : formInv st) :
    ∃ msg, helFormCommit st = some (infoBarMessage msg (helFormClose st), true) := by
  obtain ⟨_, _, f0, f1, f2, f3, rest, hform, hi0, hi1, _⟩ := h
  have hne : goIndex f3.Options f3.Index ≠ none := goIndex_ne_none _ _ hi0 hi1
  cases hl : goIndex f3.Options f3.Index with
  | none => exact absurd hl hne
  | some lang => exact ⟨_, helFormCommit_eq st f0 f1 f2 f3 rest lang hform hl⟩

/-- One key on an active form with the invariant: the key is consumed and the invariant holds
afterwards. -/
theorem form_step_inv (ev : EventKey) (st : State) (h : formInv st)
    (hact : st.formActive = true) :
    ∃ st', helFormHandleKey ev st = some (st', true) ∧ formInv st' := by
  have hne : goIndex st.form st.formIdx ≠ none := goIndex_ne_none _ _ h.1 h.2.1
  cases hcur : goIndex st.form st.formIdx with
  | none => exact absurd hcur hne
  | some cur =>
    have hedit := helFormEdit_inv ev st cur h hcur
    have hE : ∃ st', some (helFormEdit ev cur st) = some (st', true) ∧ formInv st' :=
      ⟨(helFormEdit ev cur st).1, by rw [← hedit.1], hedit.2.1⟩
    have hkeep : ∀ f : helField, f.Options = cur.Options → f.Index = cur.Index →
        formInv (setCur f st) := by
      intro f ho hi
      exact formInv_setCur st cur f h hcur ho (fun a b _ => by rw [hi]; exact ⟨a, b⟩)
    cases hk : ev.key with
    | KeyEsc =>
      exact ⟨infoBarMessage (goStr "form: cancelado") (helFormClose st),
        by simp [helFormHandleKey, hact, hcur, hk], formInv_close_message st _ h⟩
    | KeyUp =>
      by_cases h0 : st.formIdx > 0
      · exact ⟨{ st with formIdx := st.formIdx - 1 },
          by simp [helFormHandleKey, hact, hcur, hk, h0],
          formInv_move st _ h (by omega) (by have := h.2.1; omega)⟩
      · exact ⟨st, by simp [helFormHandleKey, hact, hcur, hk, h0], h⟩
    | KeyDown =>
      by_cases h0 : st.formIdx < (st.form.length : Int) - 1
      · exact ⟨{ st with formIdx := st.formIdx + 1 },
          by simp [helFormHandleKey, hact, hcur, hk, h0],
          formInv_move st _ h (by have := h.1; omega) (by omega)⟩
      · exact ⟨st, by simp [helFormHandleKey, hact, hcur, hk, h0], h⟩
    | KeyEnter =>
      by_cases h0 : st.formIdx < (st.form.length : Int) - 1
      · exact ⟨{ st with formIdx := st.formIdx + 1 },
          by simp [helFormHandleKey, hact, hcur, hk, h0],
          formInv_move st _ h (by have := h.1; omega) (by omega)⟩
      · obtain ⟨msg, hm⟩ := helFormCommit_ok st h
        exact ⟨infoBarMessage msg (helFormClose st),
          by simp [helFormHandleKey, hact, hcur, hk, h0, hm], formInv_close_message st msg h⟩
    | KeyTab =>
      by_cases h0 : st.formIdx < (st.form.length : Int) - 1
      · exact ⟨{ st with formIdx := st.formIdx + 1 },
          by simp [helFormHandleKey, hact, hcur, hk, h0],
          formInv_move st _ h (by have := h.1; omega) (by omega)⟩
      · obtain ⟨msg, hm⟩ := helFormCommit_ok st h
        exact ⟨infoBarMessage msg (helFormClose st),
          by simp [helFormHandleKey, hact, hcur, hk, h0, hm], formInv_close_message st msg h⟩
    | KeyLeft =>
      cases hkind : cur.Kind with
      | FList =>
        by_cases hn : cur.Options.length > 0
        · refine ⟨setCur { cur with
              Index := Int.tmod (wrap64 (wrap64 (cur.Index - 1) + cur.Options.length))
                         cur.Options.length } st,
            by simp [helFormHandleKey, hact, hcur, hk, hkind, hn], ?_⟩
          refine formInv_setCur st cur _ h hcur (by rfl) ?_
          intro a b c
          have e1 : wrap64 (cur.Index - 1) = cur.Index - 1 :=
            wrap64_id _ (by unfold minInt; omega) (by unfold maxInt; omega)
          have e2 : wrap64 (cur.Index - 1 + (cur.Options.length : Int)) =
              cur.Index - 1 + (cur.Options.length : Int) :=
            wrap64_id _ (by unfold minInt; omega) (by unfold maxInt; omega)
          simp only [e1, e2]
          rw [Int.tmod_eq_emod (by omega) (by omega)]
          exact ⟨Int.emod_nonneg _ (by omega), Int.emod_lt_of_pos _ (by omega)⟩
        · exact ⟨st, by simp [helFormHandleKey, hact, hcur, hk, hkind, hn], h⟩
      | FNumber =>
        exact ⟨setCur { cur with
            Value := Itoa (if parseIntDefault cur.Value 0 > cur.Min then
              parseIntDefault cur.Value 0 - 1 else parseIntDefault cur.Value 0) } st,
          by simp [helFormHandleKey, hact, hcur, hk, hkind], hkeep _ rfl rfl⟩
      | FText => simpa [helFormHandleKey, hact, hcur, hk, hkind] using hE
      | FCheckbox => simpa [helFormHandleKey, hact, hcur, hk, hkind] using hE
    | KeyRight =>
      cases hkind : cur.Kind with
      | FList =>
        by_cases hn : cur.Options.length > 0
        · refine ⟨setCur { cur with
              Index := Int.tmod (wrap64 (cur.Index + 1)) cur.Options.length } st,
            by simp [helFormHandleKey, hact, hcur, hk, hkind, hn], ?_⟩
          refine formInv_setCur st cur _ h hcur (by rfl) ?_
          intro a b c
          have e1 : wrap64 (cur.Index + 1) = cur.Index + 1 :=
            wrap64_id _ (by unfold minInt; omega) (by unfold maxInt; omega)
          simp only [e1]
          rw [Int.tmod_eq_emod (by omega) (by omega)]
          exact ⟨Int.emod_nonneg _ (by omega), Int.emod_lt_of_pos _ (by omega)⟩
        · exact ⟨st, by simp [helFormHandleKey, hact, hcur, hk, hkind, hn], h⟩
      | FNumber =>
        exact ⟨setCur { cur with
            Value := Itoa (if parseIntDefault cur.Value 0 < cur.Max then
              parseIntDefault cur.Value 0 + 1 else parseIntDefault cur.Value 0) } st,
          by simp [helFormHandleKey, hact, hcur, hk, hkind], hkeep _ rfl rfl⟩
      | FText => simpa [helFormHandleKey, hact, hcur, hk, hkind] using hE
      | FCheckbox => simpa [helFormHandleKey, hact, hcur, hk, hkind] using hE
    | KeyRune => simpa [helFormHandleKey, hact, hcur, hk] using hE
    | KeyBackspace => simpa [helFormHandleKey, hact, hcur, hk] using hE
    | KeyBackspace2 => simpa [helFormHandleKey, hact, hcur, hk] using hE
    | other c => simpa [helFormHandleKey, hact, hcur, hk] using hE

/-- An inactive form does not consume the key and leaves the whole state unchanged. -/
theorem form_inactive (ev : EventKey) (st : State) (hact : st.formActive = false) :
    helFormHandleKey ev st = some (st, false) := by
  simp [helFormHandleKey, hact]

/-- From a state with the form invariant no key sequence panics and every state on the way
has the invariant. -/
theorem formStates_inv (evs : List EventKey) (st : State) (h : formInv st) :
    (formStates evs st).length = evs.length ∧ ∀ s ∈ formStates evs st, formInv s := by
  induction evs generalizing st with
  | nil => simp [formStates]
  | cons e es ih =>
    cases hact : st.formActive with
    | false =>
      have := ih st h
      simp only [formStates, form_inactive e st hact, List.length_cons, List.mem_cons]
      refine ⟨by rw [this.1], ?_⟩
      rintro s (hs | hs)
      · rw [hs]; exact h
      · exact this.2 s hs
    | true =>
      obtain ⟨st', hres, hinv'⟩ := form_step_inv e st h hact
      have := ih st' hinv'
      simp only [formStates, hres, List.length_cons, List.mem_cons]
      refine ⟨by rw [this.1], ?_⟩
      rintro s (hs | hs)
      · rw [hs]; exact hinv'
      · exact this.2 s hs

/-- The function `helFormOpen` establishes the form invariant. -/
theorem formInv_open (st : State) : formInv (helFormOpen st) := by
  refine ⟨by simp [helFormOpen], by simp [helFormOpen], _, _, _, _, [], rfl, ?_, ?_, ?_⟩
  · simp
  · simp
  · simp

/-- C12: after `helFormOpen` the cursor is 0 and the field list is not empty (it has four
fields); from there no sequence of key events makes `helFormHandleKey` panic, and after every
key of every sequence the cursor is a valid index, 0 <= formIdx < len(form).  On an active form
with a valid cursor, Up at index 0 and Down at the last index are consumed and change nothing;
otherwise Up moves the cursor down by exactly one and Down moves it up by exactly one, and
nothing else changes. -/
theorem helForm_cursor_valid :
    (∀ st : State, (helFormOpen st).formIdx = 0 ∧ (helFormOpen st).form ≠ [] ∧
      (helFormOpen st).form.length = 4 ∧ (helFormOpen st).formActive = true) ∧
    (∀ (st : State) (evs : List EventKey),
      (formStates evs (helFormOpen st)).length = evs.length ∧
      ∀ s ∈ formStates evs (helFormOpen st),
        s.form ≠ [] ∧ 0 ≤ s.formIdx ∧ s.formIdx < (s.form.length : Int)) ∧
    (∀ (ev : EventKey) (st : State), st.formActive = true → 0 ≤ st.formIdx →
      st.formIdx < (st.form.length : Int) →
      (ev.key = .KeyUp → st.formIdx = 0 → helFormHandleKey ev st = some (st, true)) ∧
      (ev.key = .KeyUp → 0 < st.formIdx →
        helFormHandleKey ev st = some ({ st with formIdx := st.formIdx - 1 }, true)) ∧
      (ev.key = .KeyDown → st.formIdx = (st.form.length : Int) - 1 →
        helFormHandleKey ev st = some (st, true)) ∧
      (ev.key = .KeyDown → st.formIdx < (st.form.length : Int) - 1 →
        helFormHandleKey ev st = some ({ st with formIdx := st.formIdx + 1 }, true))) := by
  refine ⟨fun st => by simp [helFormOpen], ?_, ?_⟩
  · intro st evs
    obtain ⟨hlen, hall⟩ := formStates_inv evs (helFormOpen st) (formInv_open st)
    refine ⟨hlen, fun s hs => ?_⟩
    obtain ⟨h0, h1, f0, f1, f2, f3, rest, hform, _⟩ := hall s hs
    exact ⟨by rw [hform]; simp, h0, h1⟩
  · intro ev st hact h0 h1
    have hne : goIndex st.form st.formIdx ≠ none := goIndex_ne_none _ _ h0 h1
    cases hcur : goIndex st.form st.formIdx with
    | none => exact absurd hcur hne
    | some cur =>
      refine ⟨?_, ?_, ?_, ?_⟩
      · intro hk hz
        have hnot : ¬ st.formIdx > 0 := by omega
        simp [helFormHandleKey, hact, hcur, hk, hnot]
      · intro hk hz
        simp [helFormHandleKey, hact, hcur, hk, hz]
      · intro hk hz
        have : ¬ st.formIdx < (st.form.length : Int) - 1 := by omega
        simp [helFormHandleKey, hact, hcur, hk, this]
      · intro hk hz
        simp [helFormHandleKey, hact, hcur, hk, hz]

/-- C12 on the freshly opened form: Up at index 0 changes nothing, Down moves to index 1. -/
theorem helForm_cursor_valid_witness :
    (helFormOpen initState).formActive = true ∧
    helFormHandleKey (keyEvent .KeyUp) (helFormOpen initState) =
      some (helFormOpen initState, true) ∧
    helFormHandleKey (keyEvent .KeyDown) (helFormOpen initState) =
      some ({ helFormOpen initState with formIdx := (helFormOpen initState).formIdx + 1 }, true) :=
  ⟨by decide,
    (helForm_cursor_valid.2.2 (keyEvent .KeyUp) (helFormOpen initState) (by decide) (by decide)
      (by decide)).1 rfl (by decide),
    (helForm_cursor_valid.2.2 (keyEvent .KeyDown) (helFormOpen initState) (by decide) (by decide)
      (by decide)).2.2.2 rfl (by decide)⟩

/-- C13: on an active form with a valid cursor that is not on the last field, Enter and Tab are
consumed and advance the cursor by one, changing nothing else.  On the last field of a form
with the four fields of `helFormOpen`, they are consumed, close the form and send exactly one
message, the summary of the four values, changing nothing else: the trimmed text of the first
field, the number of the second (18 when its text is no number), the text true or false for the
box of the third, and the selected option of the fourth.  From a freshly opened form, four Tabs
leave the form active with the cursor on 1, 2, 3 after the first three, and the fourth closes
the form and reports an empty name, age 18, terms false and the option Go.  With the box ticked
on the way the report says terms true, and with every field edited (the name Ana typed, the age
stepped to 19, the box ticked, the list stepped to JavaScript) it carries the four new
values. -/
theorem helFormHandleKey_enter_tab :
    (∀ (ev : EventKey) (st : State), st.formActive = true → 0 ≤ st.formIdx →
      st.formIdx < (st.form.length : Int) - 1 → (ev.key = .KeyEnter ∨ ev.key = .KeyTab) →
      helFormHandleKey ev st = some ({ st with formIdx := st.formIdx + 1 }, true)) ∧
    (∀ (ev : EventKey) (st : State) (f0 f1 f2 f3 : helField) (lang : GoString),
      st.formActive = true → st.form = [f0, f1, f2, f3] → st.formIdx = 3 →
      goIndex f3.Options f3.Index = some lang → (ev.key = .KeyEnter ∨ ev.key = .KeyTab) →
      ∃ st', helFormHandleKey ev st = some (st', true) ∧
        st' = infoBarMessage
          (goStr "OK: Nome=" ++ TrimSpace f0.Value ++ goStr "  Idade="
            ++ Itoa (parseIntDefault f1.Value 18) ++ goStr "  Termos="
            ++ (if f2.Bool = true then goStr "true" else goStr "false")
            ++ goStr "  Linguagem=" ++ lang) (helFormClose st) ∧
        st'.formActive = false ∧ st'.form = st.form ∧ st'.formIdx = st.formIdx ∧
        st'.infoBar = st.infoBar ++
          [goStr "OK: Nome=" ++ TrimSpace f0.Value ++ goStr "  Idade="
            ++ Itoa (parseIntDefault f1.Value 18) ++ goStr "  Termos="
            ++ (if f2.Bool = true then goStr "true" else goStr "false")
            ++ goStr "  Linguagem=" ++ lang]) ∧
    (∀ st : State,
      (formStates [keyEvent .KeyTab, keyEvent .KeyTab, keyEvent .KeyTab, keyEvent .KeyTab]
          (helFormOpen st)).map (fun s => (s.formActive, s.formIdx, s.infoBar)) =
        [(true, 1, st.infoBar), (true, 2, st.infoBar), (true, 3, st.infoBar),
         (false, 3, st.infoBar ++ [goStr "OK: Nome=  Idade=18  Termos=false  Linguagem=Go"])]) ∧
    (helFormHandleKeys
        [keyEvent .KeyTab, keyEvent .KeyTab, runeEvent 32, keyEvent .KeyTab, keyEvent .KeyTab]
        (helFormOpen initState)).map (fun s => (s.formActive, s.formIdx)) = some (false, 3) ∧
    (helFormHandleKeys
        [keyEvent .KeyTab, keyEvent .KeyTab, runeEvent 32, keyEvent .KeyTab, keyEvent .KeyTab]
        (helFormOpen initState)).map (fun s => s.infoBar) =
      some [goStr "OK: Nome=  Idade=18  Termos=true  Linguagem=Go"] ∧
    (helFormHandleKeys
        [keyEvent .KeyTab, keyEvent .KeyTab, runeEvent 120, runeEvent 88, keyEvent .KeyTab,
         keyEvent .KeyEnter]
        (helFormOpen initState)).map (fun s => s.infoBar) =
      some [goStr "OK: Nome=  Idade=18  Termos=false  Linguagem=Go"] ∧
    (helFormHandleKeys
        [runeEvent 65, runeEvent 110, runeEvent 97, keyEvent .KeyTab, keyEvent .KeyRight,
         keyEvent .KeyTab, runeEvent 120, keyEvent .KeyTab, keyEvent .KeyRight,
         keyEvent .KeyEnter]
        (helFormOpen initState)).map (fun s => (s.formActive, s.formIdx)) = some (false, 3) ∧
    (helFormHandleKeys
        [runeEvent 65, runeEvent 110, runeEvent 97, keyEvent .KeyTab, keyEvent .KeyRight,
         keyEvent .KeyTab, runeEvent 120, keyEvent .KeyTab, keyEvent .KeyRight,
         keyEvent .KeyEnter]
        (helFormOpen initState)).map (fun s => s.infoBar) =
      some [goStr "OK: Nome=Ana  Idade=19  Termos=true  Linguagem=JavaScript"] := by
  refine ⟨?_, ?_, ?_, by decide, by decide, by decide, by decide, by decide⟩
  · intro ev st hact h0 h1 hkey
    have hne : goIndex st.form st.formIdx ≠ none := goIndex_ne_none _ _ h0 (by omega)
    cases hcur : goIndex st.form st.formIdx with
    | none => exact absurd hcur hne
    | some cur => rcases hkey with hk | hk <;> simp [helFormHandleKey, hact, hcur, hk, h1]
  · intro ev st f0 f1 f2 f3 lang hact hform hidx hl hkey
    have hcur : goIndex st.form st.formIdx = some f3 := by
      rw [hform, hidx]
      rfl
    have hlast : ¬ st.formIdx < (st.form.length : Int) - 1 := by
      rw [hform, hidx]
      simp
    have hc := helFormCommit_eq st f0 f1 f2 f3 [] lang hform hl
    refine ⟨_, ?_, rfl, ?_, ?_, ?_, ?_⟩
    · rcases hkey with hk | hk <;> simp only [helFormHandleKey, hact, hcur, hk, hlast, hc] <;>
        simp [fmtBool]
    · simp [infoBarMessage, helFormClose]
    · simp [infoBarMessage, helFormClose]
    · simp [infoBarMessage, helFormClose]
    · simp [infoBarMessage, helFormClose]
  · intro st
    have e : goStr "OK: Nome=" ++ TrimSpace (goStr "") ++ goStr "  Idade="
        ++ Itoa (parseIntDefault (goStr "18") 18) ++ goStr "  Termos=" ++ fmtBool false
        ++ goStr "  Linguagem=" ++ goStr "Go" =
        goStr "OK: Nome=  Idade=18  Termos=false  Linguagem=Go" := by decide
    simp only [formStates, helFormHandleKey, helFormOpen, keyEvent, goIndex, helFormCommit,
      helFormClose, infoBarMessage]
    simp [zeroField, ← e]

/-- C13 on the freshly opened form: Tab on the first field moves the cursor to the second. -/
theorem helFormHandleKey_enter_tab_witness :
    (helFormOpen initState).formActive = true ∧
    helFormHandleKey (keyEvent .KeyTab) (helFormOpen initState) =
      some ({ helFormOpen initState with formIdx := (helFormOpen initState).formIdx + 1 }, true) :=
  ⟨by decide,
    helFormHandleKey_enter_tab.1 (keyEvent .KeyTab) (helFormOpen initState) (by decide)
      (by decide) (by decide) (Or.inr rfl)⟩

/-- C14, the code at the failing inputs: a Backspace key event that carries its control
character as rune (127 for the key code KeyBackspace2, 8 for KeyBackspace) with no Ctrl
modifier is taken by the editing-by-rune branch, which returns before the backspace branch: on
the Text field ab the character is appended and nothing is removed, and on the Number field 18
nothing is removed.  Only with rune 0 is the last byte removed, which for the text of the
two-byte character U+00E9 leaves its first byte. -/
theorem backspace_rune_not_removed :
    (helFormHandleKey { key := .KeyBackspace2, rune := 127, modCtrl := false, modAlt := false }
        (oneFieldForm { zeroField with Kind := .FText, Value := goStr "ab" })).map
      (fun r => (r.1.form.map (fun f => f.Value), r.2)) = some ([goStr "ab" ++ [127]], true) ∧
    (helFormHandleKey { key := .KeyBackspace, rune := 8, modCtrl := false, modAlt := false }
        (oneFieldForm { zeroField with Kind := .FText, Value := goStr "ab" })).map
      (fun r => (r.1.form.map (fun f => f.Value), r.2)) = some ([goStr "ab" ++ [8]], true) ∧
    (helFormHandleKey { key := .KeyBackspace2, rune := 127, modCtrl := false, modAlt := false }
        (numberForm (goStr "18") 0 120)).map
      (fun r => (r.1.form.map (fun f => f.Value), r.2)) = some ([goStr "18"], true) ∧
    (helFormHandleKey (keyEvent .KeyBackspace2)
        (oneFieldForm { zeroField with Kind := .FText, Value := goStr "ab" })).map
      (fun r => (r.1.form.map (fun f => f.Value), r.2)) = some ([goStr "a"], true) ∧
    goStr "é" = [195, 169] ∧
    (helFormHandleKey (keyEvent .KeyBackspace2)
        (oneFieldForm { zeroField with Kind := .FText, Value := goStr "é" })).map
      (fun r => (r.1.form.map (fun f => f.Value), r.2)) = some ([[195]], true) := by
  refine ⟨by decide, by decide, by decide, by decide, by decide, by decide⟩

/-- C15: for every key event, `helFormHandleKey` on an inactive form returns false and the
state unchanged; on an active form whose variables satisfy the form invariant it returns true;
and in every state reached from `helFormOpen` by any sequence of key events it returns, with
the value of formActive on entry. -/
theorem helFormHandleKey_swallows_while_active :
    (∀ (ev : EventKey) (st : State), st.formActive = false →
      helFormHandleKey ev st = some (st, false)) ∧
    (∀ (ev : EventKey) (st : State), st.formActive = true → formInv st →
      ∃ st', helFormHandleKey ev st = some (st', true)) ∧
    (∀ (st0 : State) (evs : List EventKey) (ev : EventKey) (s : State),
      s = helFormOpen st0 ∨ s ∈ formStates evs (helFormOpen st0) →
      ∃ st', helFormHandleKey ev s = some (st', s.formActive)) := by
  have act : ∀ (ev : EventKey) (st : State), formInv st →
      ∃ st', helFormHandleKey ev st = some (st', st.formActive) := by
    intro ev st hinv
    cases hact : st.formActive with
    | false => exact ⟨st, form_inactive ev st hact⟩
    | true =>
      obtain ⟨st', h, _⟩ := form_step_inv ev st hinv hact
      exact ⟨st', h⟩
  refine ⟨form_inactive, ?_, ?_⟩
  · intro ev st hact hinv
    obtain ⟨st', h, _⟩ := form_step_inv ev st hinv hact
    exact ⟨st', h⟩
  · intro st0 evs ev s hs
    rcases hs with hs | hs
    · rw [hs]
      exact act ev _ (formInv_open st0)
    · exact act ev s ((formStates_inv evs (helFormOpen st0) (formInv_open st0)).2 s hs)

/-- C15 on the freshly opened form (a rune is swallowed) and on the initial state (the key
is not consumed). -/
theorem helFormHandleKey_swallows_while_active_witness :
    initState.formActive = false ∧
    helFormHandleKey (runeEvent 122) initState = some (initState, false) ∧
    (helFormOpen initState).formActive = true ∧
    ∃ st', helFormHandleKey (runeEvent 122) (helFormOpen initState) = some (st', true) :=
  ⟨by decide, helFormHandleKey_swallows_while_active.1 (runeEvent 122) initState (by decide),
    by decide,
    helFormHandleKey_swallows_while_active.2.1 (runeEvent 122) (helFormOpen initState)
      (by decide) (formInv_open initState)⟩

/-- A text that has a digit value consists of digits. -/
theorem digitsValue_some_digits (l : GoString) (a m : Nat) (h : digitsValue l a = some m) :
    ∀ b ∈ l, 48 ≤ b ∧ b ≤ 57 := by
  induction l generalizing a with
  | nil => simp
  | cons c cs ih =>
    simp only [digitsValue] at h
    split at h
    · rename_i hc
      intro b hb
      rcases List.mem_cons.1 hb with hb | hb
      · rw [hb]; exact hc
      · exact ih _ h b hb
    · exact Option.noConfusion h

/-- A text that writes a decimal integer has no white space to trim. -/
theorem TrimSpace_of_decimalInt (s : GoString) (n : Int) (h : decimalInt s = some n) :
    TrimSpace s = s := by
  by_cases hsign : s.head? = some 45 ∨ s.head? = some 43
  · cases s with
    | nil => simp at hsign
    | cons c t =>
      have hc : c = 45 ∨ c = 43 := by simpa using hsign
      by_cases hbody : t = []
      · simp [decimalInt, hc, hbody] at h
      · cases hm : digitsValue t 0 with
        | none => simp [decimalInt, hc, hbody, hm] at h
        | some m =>
          have hdig := digitsValue_some_digits _ _ _ hm
          have hrne : t.reverse ≠ [] := by simpa using hbody
          obtain ⟨d, u, hdu⟩ := List.exists_cons_of_ne_nil hrne
          have hd : 48 ≤ d ∧ d ≤ 57 := by
            apply hdig d
            rw [← List.mem_reverse, hdu]
            exact List.mem_cons_self d u
          have hrev : (c :: t).reverse = d :: (u ++ [c]) := by
            rw [List.reverse_cons, hdu]
            rfl
          exact TrimSpace_plain (c :: t) c d t _ rfl hrev (by omega) ⟨by omega, hd.2⟩
  · by_cases hbody : s = []
    · simp [decimalInt, hbody] at h
    · cases hm : digitsValue s 0 with
      | none => simp [decimalInt, hsign, hbody, hm] at h
      | some m =>
        have hdig := digitsValue_some_digits _ _ _ hm
        obtain ⟨c, t, hct⟩ := List.exists_cons_of_ne_nil hbody
        have hrne : s.reverse ≠ [] := by simpa using hbody
        obtain ⟨d, u, hdu⟩ := List.exists_cons_of_ne_nil hrne
        have hc : 48 ≤ c ∧ c ≤ 57 := hdig c (by rw [hct]; exact List.mem_cons_self c t)
        have hd : 48 ≤ d ∧ d ≤ 57 := by
          apply hdig d
          rw [← List.mem_reverse, hdu]
          exact List.mem_cons_self d u
        exact TrimSpace_plain s c d t u hct hdu ⟨by omega, hc.2⟩ ⟨by omega, hd.2⟩

/-- C16: `parseIntDefault s d` is total; with the surrounding white space of s trimmed, it is d
when the text is empty or does not write a decimal integer (an optional sign and one or more
digits), and it is n when the text writes the int n; for a text that itself writes the int n,
and in particular for `Itoa n`, it is n, for every default d.  A decimal integer outside the
int range also gives d, and the result is an int whenever d is. -/
theorem parseIntDefault_spec :
    (∀ (s : GoString) (d : Int), TrimSpace s = [] → parseIntDefault s d = d) ∧
    (∀ (s : GoString) (d : Int), decimalInt (TrimSpace s) = none → parseIntDefault s d = d) ∧
    (∀ (s : GoString) (d n : Int), decimalInt (TrimSpace s) = some n → minInt ≤ n → n ≤ maxInt →
      parseIntDefault s d = n) ∧
    (∀ (s : GoString) (d n : Int), decimalInt s = some n → minInt ≤ n → n ≤ maxInt →
      parseIntDefault s d = n) ∧
    (∀ n d : Int, minInt ≤ n → n ≤ maxInt → parseIntDefault (Itoa n) d = n) ∧
    (∀ (s : GoString) (d n : Int), decimalInt (TrimSpace s) = some n →
      ¬ (minInt ≤ n ∧ n ≤ maxInt) → parseIntDefault s d = d) ∧
    (∀ (s : GoString) (d : Int), minInt ≤ d → d ≤ maxInt →
      minInt ≤ parseIntDefault s d ∧ parseIntDefault s d ≤ maxInt) := by
  refine ⟨?_, ?_, ?_, ?_, parseIntDefault_Itoa, ?_, parseIntDefault_range⟩
  · intro s d h
    simp [parseIntDefault, Atoi, h, decimalInt]
  · intro s d h
    simp [parseIntDefault, Atoi, h]
  · intro s d n h h0 h1
    simp [parseIntDefault, Atoi, h, h0, h1]
  · intro s d n h h0 h1
    simp [parseIntDefault, Atoi, TrimSpace_of_decimalInt s n h, h, h0, h1]
  · intro s d n h hout
    simp only [parseIntDefault, Atoi, h, hout, if_false]

/-- C16 at concrete texts: the empty text and a word give the default, 42 with white space
around gives 42, and the text written by `Itoa` for -7 gives -7. -/
theorem parseIntDefault_spec_witness :
    parseIntDefault (goStr "") 18 = 18 ∧ parseIntDefault (goStr "abc") 18 = 18 ∧
    parseIntDefault (goStr " 42\n") 18 = 42 ∧ parseIntDefault (Itoa (-7)) 18 = -7 :=
  ⟨parseIntDefault_spec.1 (goStr "") 18 (by decide),
    parseIntDefault_spec.2.1 (goStr "abc") 18 (by decide),
    parseIntDefault_spec.2.2.1 (goStr " 42\n") 18 42 (by decide) (by decide) (by decide),
    parseIntDefault_spec.2.2.2.2.1 (-7) 18 (by decide) (by decide)⟩

/-! ### The paste normalisation -/

/-- The result of `Split` has at least one line. -/
theorem Split_ne_nil (s : GoString) : Split s ≠ [] := by
  cases s with
  | nil => simp [Split]
  | cons c cs =>
    simp only [Split]
    split
    · simp
    · split <;> simp

/-- Splitting a text that starts with a byte other than the newline. -/
theorem Split_cons_of_ne (c : Nat) (cs l : GoString) (ls : List GoString) (hc : c ≠ 10)
    (h : Split cs = l :: ls) : Split (c :: cs) = (c :: l) :: ls := by
  simp [Split, hc, h]

/-- A line without newline in front of a newline is the first line of the split. -/
theorem Split_line_newline (l r : GoString) (hl : 10 ∉ l) :
    Split (l ++ 10 :: r) = l :: Split r := by
  induction l with
  | nil => simp [Split]
  | cons c cs ih =>
    have hc : c ≠ 10 := fun h => hl (by rw [h]; exact List.mem_cons_self 10 cs)
    have hcs : 10 ∉ cs := fun h => hl (List.mem_cons_of_mem c h)
    exact Split_cons_of_ne c _ cs _ hc (ih hcs)

/-- A text without newline is one line. -/
theorem Split_line (l : GoString) (hl : 10 ∉ l) : Split l = [l] := by
  induction l with
  | nil => simp [Split]
  | cons c cs ih =>
    have hc : c ≠ 10 := fun h => hl (by rw [h]; exact List.mem_cons_self 10 cs)
    have hcs : 10 ∉ cs := fun h => hl (List.mem_cons_of_mem c h)
    exact Split_cons_of_ne c _ cs _ hc (ih hcs)

/-- Splitting the join of lines without newline gives the lines back. -/
theorem Split_Join (ls : List GoString) (hne : ls ≠ []) (h : ∀ l ∈ ls, 10 ∉ l) :
    Split (Join ls) = ls := by
  induction ls with
  | nil => exact absurd rfl hne
  | cons l rest ih =>
    cases rest with
    | nil => exact Split_line l (h l (List.mem_cons_self l []))
    | cons l2 rest2 =>
      simp only [Join]
      rw [Split_line_newline l _ (h l (List.mem_cons_self l _)),
        ih (by simp) (fun x hx => h x (List.mem_cons_of_mem l hx))]

/-- The lines of a split contain only bytes of the text, and no newline. -/
theorem mem_Split (s : GoString) : ∀ l ∈ Split s, 10 ∉ l ∧ ∀ b ∈ l, b ∈ s := by
  induction s with
  | nil =>
    intro l hl
    simp only [Split, List.mem_singleton] at hl
    rw [hl]
    simp
  | cons c cs ih =>
    intro l hl
    simp only [Split] at hl
    split at hl
    · rcases List.mem_cons.1 hl with h | h
      · rw [h]
        simp
      · exact ⟨(ih l h).1, fun b hb => List.mem_cons_of_mem c ((ih l h).2 b hb)⟩
    · rename_i hc
      split at hl
      · rename_i l1 ls1 hsp
        rcases List.mem_cons.1 hl with h | h
        · have h1 := ih l1 (by rw [hsp]; exact List.mem_cons_self l1 ls1)
          rw [h]
          refine ⟨?_, ?_⟩
          · intro hm
            rcases List.mem_cons.1 hm with e | e
            · exact hc e.symm
            · exact h1.1 e
          · intro b hb
            rcases List.mem_cons.1 hb with e | e
            · rw [e]
              exact List.mem_cons_self c cs
            · exact List.mem_cons_of_mem c (h1.2 b e)
        · have h1 := ih l (by rw [hsp]; exact List.mem_cons_of_mem l1 h)
          exact ⟨h1.1, fun b hb => List.mem_cons_of_mem c (h1.2 b hb)⟩
      · rename_i hsp
        exact absurd hsp (Split_ne_nil cs)

/-- The number of lines is the number of newlines plus one. -/
theorem Split_length (s : GoString) : (Split s).length = s.count 10 + 1 := by
  induction s with
  | nil => simp [Split]
  | cons c cs ih =>
    simp only [Split]
    split
    · rename_i hc
      simp [ih, hc]
    · rename_i hc
      split
      · rename_i l1 ls1 hsp
        rw [hsp] at ih
        have hne : ¬ (c == 10) = true := by simpa using hc
        simp only [List.length_cons] at ih ⊢
        rw [ih, List.count_cons]
        simp [hc]
      · rename_i hsp
        exact absurd hsp (Split_ne_nil cs)

/-- The bytes of a join are newlines and bytes of the lines. -/
theorem mem_Join (ls : List GoString) (b : Nat) (h : b ∈ Join ls) :
    b = 10 ∨ ∃ l ∈ ls, b ∈ l := by
  induction ls with
  | nil => simp [Join] at h
  | cons l rest ih =>
    cases rest with
    | nil => exact Or.inr ⟨l, List.mem_cons_self l [], by simpa [Join] using h⟩
    | cons l2 rest2 =>
      simp only [Join, List.mem_append, List.mem_cons] at h
      rcases h with h | h | h
      · exact Or.inr ⟨l, List.mem_cons_self l _, h⟩
      · exact Or.inl h
      · rcases ih h with e | ⟨x, hx, hb⟩
        · exact Or.inl e
        · exact Or.inr ⟨x, List.mem_cons_of_mem l hx, hb⟩

/-- The bytes of a line after `stripTab` are bytes of the line. -/
theorem mem_stripTab (l : GoString) (b : Nat) (h : b ∈ stripTab l) : b ∈ l := by
  unfold stripTab at h
  split at h
  · exact List.mem_cons_of_mem 9 h
  · exact h

/-- C17: the paste normalisation of `DoEvent` maps a text t to the join with newline of the
lines of t without its carriage returns, the first line as it is and every later line with
exactly one leading tab removed if it has one; the lines of the result are exactly these lines,
so the result has as many lines as t, and it contains no carriage return.  The rewritten paste
event is what the normal routing receives, the state being unchanged.  The text a, newline,
tab, b, newline, tab, c becomes a, newline, b, newline, c. -/
theorem normalizePaste_spec :
    (∀ t : GoString, removeCR t = t.filter (fun b => b ≠ 13)) ∧
    (∀ l : GoString, stripTab l = if l.head? = some 9 then l.tail else l) ∧
    (∀ t : GoString, ∃ l0 ls, Split (removeCR t) = l0 :: ls ∧
      normalizePaste t = Join (l0 :: ls.map stripTab) ∧
      Split (normalizePaste t) = l0 :: ls.map stripTab) ∧
    (∀ t : GoString, 13 ∉ normalizePaste t) ∧
    (∀ t : GoString, (Split (normalizePaste t)).length = (Split t).length) ∧
    (∀ (run : Actions) (hasPrompt : Bool) (tF tM : Int) (t : GoString) (st : State),
      DoEvent run hasPrompt tF tM (.paste t) st =
        some (st, .routed (if hasPrompt then .infoBar else .tabs)
          (.paste (normalizePaste t)))) ∧
    normalizePaste (goStr "a\n\tb\n\tc") = goStr "a\nb\nc" := by
  have lines : ∀ t : GoString, ∃ l0 ls, Split (removeCR t) = l0 :: ls ∧
      normalizePaste t = Join (l0 :: ls.map stripTab) ∧
      Split (normalizePaste t) = l0 :: ls.map stripTab := by
    intro t
    obtain ⟨l0, ls, hsp⟩ := List.exists_cons_of_ne_nil (Split_ne_nil (removeCR t))
    have hn : normalizePaste t = Join (l0 :: ls.map stripTab) := by
      simp [normalizePaste, hsp]
    refine ⟨l0, ls, hsp, hn, ?_⟩
    rw [hn]
    apply Split_Join _ (by simp)
    intro l hl
    rcases List.mem_cons.1 hl with h | h
    · rw [h]
      exact (mem_Split _ l0 (by rw [hsp]; exact List.mem_cons_self l0 ls)).1
    · obtain ⟨x, hx, hxl⟩ := List.mem_map.1 h
      rw [← hxl]
      intro hm
      exact (mem_Split _ x (by rw [hsp]; exact List.mem_cons_of_mem l0 hx)).1
        (mem_stripTab x 10 hm)
  refine ⟨fun _ => rfl, ?_, lines, ?_, ?_, ?_, by decide⟩
  · intro l
    cases l with
    | nil => simp [stripTab]
    | cons c t =>
      by_cases hc : c = 9
      · subst hc
        simp [stripTab]
      · have : stripTab (c :: t) = c :: t := by
          unfold stripTab
          split
          · rename_i heq
            exact absurd (List.cons.inj heq).1 hc
          · rfl
        simp [this, hc]
  · intro t hmem
    obtain ⟨l0, ls, hsp, hn, _⟩ := lines t
    rw [hn] at hmem
    have hsrc : ∀ l ∈ Split (removeCR t), 13 ∉ l := by
      intro l hl h13
      have := (mem_Split _ l hl).2 13 h13
      simp [removeCR] at this
    rcases mem_Join _ 13 hmem with h | ⟨l, hl, hb⟩
    · exact absurd h (by decide)
    · rcases List.mem_cons.1 hl with h | h
      · rw [h] at hb
        exact hsrc l0 (by rw [hsp]; exact List.mem_cons_self l0 ls) hb
      · obtain ⟨x, hx, hxl⟩ := List.mem_map.1 h
        rw [← hxl] at hb
        exact hsrc x (by rw [hsp]; exact List.mem_cons_of_mem l0 hx) (mem_stripTab x 13 hb)
  · intro t
    obtain ⟨l0, ls, hsp, _, hres⟩ := lines t
    have h1 : (Split (removeCR t)).length = (Split t).length := by
      rw [Split_length, Split_length, removeCR, List.count_filter (by decide)]
    rw [hres, ← h1, hsp]
    simp
  · intro run hasPrompt tF tM t st
    cases hasPrompt <;> simp [DoEvent, normalRouting]

/-! ### The dispatcher -/

/-- C18: with the form and the menu inactive, `DoEvent` on an Escape key event (no Alt, not one
of the two pre-composed runes) records the clock t0 read in the menu section in helLastEsc,
opens nothing and routes the event normally.  If the next key event carries the rune m or M
with no Alt and the clock t1 read in its menu section has t1 - t0 < 200 ms, the menu is opened
on a fresh root node, `DoEvent` returns before the normal routing and helLastEsc is reset to
zero; if t1 - t0 >= 200 ms, so in particular if t1 - t0 >= 250 ms, nothing is opened, the state
is unchanged and the event goes to the normal routing. -/
theorem DoEvent_escape_then_m (run : Actions) (hasPrompt : Bool) (tF0 tM0 tF1 tM1 : Int)
    (esc m : EventKey) (st : State)
    (hform : st.formActive = false) (hmenu : st.helMenuActive = false)
    (hesc : esc.key = .KeyEsc) (hescAlt : esc.modAlt = false)
    (hesc1 : esc.rune ≠ 402) (hesc2 : esc.rune ≠ 181)
    (hm : m.rune = 109 ∨ m.rune = 77) (hmAlt : m.modAlt = false) (hmKey : m.key ≠ .KeyEsc) :
    DoEvent run hasPrompt tF0 tM0 (.key esc) st =
      some ({ st with helLastEscForm := tF0, helLastEsc := tM0 },
        .routed (if hasPrompt then .infoBar else .tabs) (.key esc)) ∧
    (tM1 - tM0 < ms200 →
      ∃ s2, DoEvent run hasPrompt tF1 tM1 (.key m)
          { st with helLastEscForm := tF0, helLastEsc := tM0 } = some (s2, .returned) ∧
        s2.helMenuActive = true ∧ s2.helMenuStack = [st.next + 3] ∧
        s2.heap (st.next + 3) = rootMenu st.next (st.next + 1) (st.next + 2) ∧
        s2.helLastEsc = 0 ∧ s2.formActive = false) ∧
    (ms200 ≤ tM1 - tM0 →
      DoEvent run hasPrompt tF1 tM1 (.key m)
          { st with helLastEscForm := tF0, helLastEsc := tM0 } =
        some ({ st with helLastEscForm := tF0, helLastEsc := tM0 },
          .routed (if hasPrompt then .infoBar else .tabs) (.key m))) ∧
    ((250000000 : Int) ≤ tM1 - tM0 → ms200 ≤ tM1 - tM0) := by
  have hm1 : m.rune ≠ 402 := by omega
  have hm2 : m.rune ≠ 181 := by omega
  have hm3 : ¬ (m.rune = 102 ∨ m.rune = 70) := by omega
  refine ⟨?_, ?_, ?_, ?_⟩
  · cases hasPrompt <;>
      simp [DoEvent, doEventForm, doEventFormTail, formDispatch, doEventMenu, doEventMenuTail,
        normalRouting, hform, hmenu, hesc, hescAlt, hesc1, hesc2]
  · intro hlt
    refine ⟨{ helMenuOpen { st with helLastEscForm := tF0, helLastEsc := tM0 } with
      helLastEsc := 0 }, ?_, ?_, ?_, ?_, ?_, ?_⟩
    · simp [DoEvent, doEventForm, doEventFormTail, formDispatch, doEventMenu, doEventMenuTail,
        hform, hmenu, hmAlt, hmKey, hm1, hm3, hm, hlt]
    · simp [helMenuOpen]
    · simp [helMenuOpen, newRootMenu]
    · simp [helMenuOpen, newRootMenu]
    · simp
    · simp [helMenuOpen, newRootMenu, hform]
  · intro hge
    have hnot : ¬ tM1 - tM0 < ms200 := by omega
    cases hasPrompt <;>
      simp [DoEvent, doEventForm, doEventFormTail, formDispatch, doEventMenu, doEventMenuTail,
        normalRouting, hform, hmenu, hmAlt, hmKey, hm1, hm2, hm3, hnot]
  · intro h
    unfold ms200
    omega

/-- C18 at the initial state: Escape at 1 s, then the rune m 150 ms later opens the menu. -/
theorem DoEvent_escape_then_m_witness :
    initState.formActive = false ∧ initState.helMenuActive = false ∧
    (1150000000 : Int) - 1000000000 < ms200 ∧
    ∃ s2, DoEvent (rootActions (fun _ _ => none)) false 1150000000 1150000000
        (.key (runeEvent 109))
        { initState with helLastEscForm := 1000000000, helLastEsc := 1000000000 } =
          some (s2, .returned) ∧
      s2.helMenuActive = true ∧ s2.helLastEsc = 0 := by
  refine ⟨by decide, by decide, by decide, ?_⟩
  obtain ⟨s2, h1, h2, _, _, h5, _⟩ :=
    (DoEvent_escape_then_m (rootActions (fun _ _ => none)) false 1000000000 1000000000
      1150000000 1150000000 (keyEvent .KeyEsc) (runeEvent 109) initState (by decide) (by decide)
      rfl rfl (by decide) (by decide) (Or.inl rfl) rfl (by decide)).2.1 (by decide)
  exact ⟨s2, h1, h2, h5⟩

/-- An Escape key on an active menu pops one level. -/
theorem handleKey_esc_pops (run : Actions) (esc : EventKey) (st : State)
    (hact : st.helMenuActive = true) (hesc : esc.key = .KeyEsc) :
    helMenuHandleKey run esc st = some (helPop st, true) := by
  cases hcur : helCur st with
  | none =>
    have : st.helMenuStack = [] := by simpa [helCur] using hcur
    simp [helMenuHandleKey, hact, hcur, helPop, this]
  | some cur => simp [helMenuHandleKey, hact, hcur, hesc]

/-- Whatever an active menu returns for a key, it reports the key as consumed. -/
theorem handleKey_active_consumed (run : Actions) (ev : EventKey) (st : State)
    (r : State × Bool) (hact : st.helMenuActive = true)
    (h : helMenuHandleKey run ev st = some r) : r.2 = true := by
  rcases helMenuHandleKey_cases run ev st with
    ⟨ha, _⟩ | ⟨_, h1 | h1 | ⟨c, v, h1⟩ | ⟨it, h1⟩ | ⟨h1, _⟩⟩
  · rw [hact] at ha
    exact Bool.noConfusion ha
  · rw [h1] at h
    rw [← Option.some.inj h]
  · rw [h1] at h
    rw [← Option.some.inj h]
  · rw [h1] at h
    rw [← Option.some.inj h]
  · rw [h1] at h
    rw [← Option.some.inj h]
    exact helSelect_consumed run it st
  · rw [h1] at h
    exact Option.noConfusion h

/-- C19, the claim as stated fails: with the form active, or with the menu active, `DoEvent` on
an Escape key event at clock 5 returns before the menu section reads the clock: helLastEscForm
is 5 and helLastEsc keeps its old value 0. -/
theorem escape_consumed_by_modal_counterexample :
    (DoEvent (rootActions (fun _ _ => none)) false 5 5 (.key (keyEvent .KeyEsc))
        (helFormOpen initState)).map
      (fun r => (r.1.helLastEscForm, r.1.helLastEsc, r.1.formActive, r.2)) =
      some (5, 0, false, .returned) ∧
    (DoEvent (rootActions (fun _ _ => none)) false 5 5 (.key (keyEvent .KeyEsc))
        (helMenuOpen initState)).map
      (fun r => (r.1.helLastEscForm, r.1.helLastEsc, r.1.helMenuActive, r.2)) =
      some (5, 0, false, .returned) ∧
    (5 : Int) ≠ 0 := by
  refine ⟨by decide, by decide, by decide⟩

/-- The form section on an Escape key that is not Alt with f or F: the clock is recorded. -/
theorem doEventForm_esc (esc : EventKey) (tF : Int) (st : State) (hesc : esc.key = .KeyEsc)
    (hnoF : ¬ (esc.modAlt = true ∧ (esc.rune = 102 ∨ esc.rune = 70))) :
    doEventForm esc tF st = doEventFormTail esc { st with helLastEscForm := tF } := by
  simp only [doEventForm, hesc, hnoF, if_true, if_false]

/-- The end of the form section when the form is inactive. -/
theorem doEventFormTail_inactive (ev : EventKey) (st : State) (hf : st.formActive = false)
    (h402 : ev.rune ≠ 402) :
    doEventFormTail ev st =
      if ev.modAlt = true ∧ (ev.rune = 102 ∨ ev.rune = 70) then some (helFormOpen st, true)
      else some (st, false) := by
  simp [doEventFormTail, formDispatch, hf, h402]

/-- The menu section when the menu is active: the key goes to `helMenuHandleKey`. -/
theorem doEventMenu_active (run : Actions) (ev : EventKey) (tM : Int) (st : State)
    (hm : st.helMenuActive = true) :
    doEventMenu run ev tM st =
      match helMenuHandleKey run ev st with
      | none => none
      | some r => some (r.1, true) := by
  unfold doEventMenu
  rw [if_pos hm]
  cases h : helMenuHandleKey run ev st with
  | none => rfl
  | some r =>
    obtain ⟨s1, b⟩ := r
    have hb : b = true := handleKey_active_consumed run ev st (s1, b) hm h
    subst hb
    rfl

/-- The menu section when the menu is inactive: the three ways of opening the menu. -/
theorem doEventMenu_inactive (run : Actions) (ev : EventKey) (tM : Int) (st : State)
    (hm : st.helMenuActive = false) :
    doEventMenu run ev tM st =
      if ev.modAlt = true ∧ (ev.rune = 109 ∨ ev.rune = 77) then some (helMenuOpen st, true)
      else if ev.key = .KeyEsc then doEventMenuTail ev { st with helLastEsc := tM }
      else if (ev.rune = 109 ∨ ev.rune = 77) ∧ tM - st.helLastEsc < ms200 then
        some ({ helMenuOpen st with helLastEsc := 0 }, true)
      else doEventMenuTail ev st := by
  simp [doEventMenu, hm]

/-- C19 (as amended): when `DoEvent` processes an Escape key event that is not Alt with f or F,
helLastEscForm is the clock read in the form section in every state that the cycle returns.
helLastEsc is set, to the clock read in the menu section, when neither the form nor the menu is
active (the event being neither the rune U+0192 nor Alt with m or M), and the event is then
routed normally or, for the rune U+00B5, opens the menu.  When the form is active it takes the
Escape (cancel), and when only the menu is active it takes the Escape (pop one level): in both
cases `DoEvent` returns before the menu chord, and helLastEsc is unchanged. -/
theorem DoEvent_escape_timestamps (run : Actions) (hasPrompt : Bool) (tF tM : Int)
    (esc : EventKey) (st : State) (hesc : esc.key = .KeyEsc)
    (hnoF : ¬ (esc.modAlt = true ∧ (esc.rune = 102 ∨ esc.rune = 70))) :
    (∀ s r, DoEvent run hasPrompt tF tM (.key esc) st = some (s, r) → s.helLastEscForm = tF) ∧
    (st.formActive = false → st.helMenuActive = false → esc.rune ≠ 402 →
      ¬ (esc.modAlt = true ∧ (esc.rune = 109 ∨ esc.rune = 77)) →
      ∃ s r, DoEvent run hasPrompt tF tM (.key esc) st = some (s, r) ∧
        s.helLastEsc = tM ∧ s.helLastEscForm = tF ∧
        (esc.rune ≠ 181 →
          s = { st with helLastEscForm := tF, helLastEsc := tM } ∧
          r = .routed (if hasPrompt then .infoBar else .tabs) (.key esc))) ∧
    (st.formActive = true → esc.rune ≠ 402 → goIndex st.form st.formIdx ≠ none →
      DoEvent run hasPrompt tF tM (.key esc) st =
        some (infoBarMessage (goStr "form: cancelado")
          (helFormClose { st with helLastEscForm := tF }), .returned) ∧
      (infoBarMessage (goStr "form: cancelado")
        (helFormClose { st with helLastEscForm := tF })).helLastEsc = st.helLastEsc) ∧
    (st.formActive = false → st.helMenuActive = true → esc.rune ≠ 402 →
      DoEvent run hasPrompt tF tM (.key esc) st =
        some (helPop { st with helLastEscForm := tF }, .returned) ∧
      (helPop { st with helLastEscForm := tF }).helLastEsc = st.helLastEsc) := by
  have hpop : ∀ s : State, (helPop s).helLastEsc = s.helLastEsc ∧
      (helPop s).helLastEscForm = s.helLastEscForm := by
    intro s
    unfold helPop
    split <;> simp [helMenuCloseAll]
  have hF := doEventForm_esc esc tF st hesc hnoF
  have cForm : st.formActive = true → esc.rune ≠ 402 → goIndex st.form st.formIdx ≠ none →
      DoEvent run hasPrompt tF tM (.key esc) st =
        some (infoBarMessage (goStr "form: cancelado")
          (helFormClose { st with helLastEscForm := tF }), .returned) := by
    intro hf h402 hidx
    cases hcur : goIndex st.form st.formIdx with
    | none => exact absurd hcur hidx
    | some cur =>
      simp [DoEvent, hF, doEventFormTail, formDispatch, helFormHandleKey, hesc, h402, hf, hcur]
  have cMenu : st.formActive = false → st.helMenuActive = true → esc.rune ≠ 402 →
      DoEvent run hasPrompt tF tM (.key esc) st =
        some (helPop { st with helLastEscForm := tF }, .returned) := by
    intro hf hm h402
    have hT := doEventFormTail_inactive esc { st with helLastEscForm := tF } hf h402
    rw [if_neg hnoF] at hT
    have hM := doEventMenu_active run esc tM { st with helLastEscForm := tF } hm
    rw [handleKey_esc_pops run esc { st with helLastEscForm := tF } hm hesc] at hM
    simp only [DoEvent, hF, hT, hM]
  have cNone : st.formActive = false → st.helMenuActive = false → esc.rune ≠ 402 →
      DoEvent run hasPrompt tF tM (.key esc) st =
        (if esc.modAlt = true ∧ (esc.rune = 109 ∨ esc.rune = 77) then
          some (helMenuOpen { st with helLastEscForm := tF }, .returned)
         else if esc.rune = 181 then
          some (helMenuOpen { st with helLastEscForm := tF, helLastEsc := tM }, .returned)
         else some ({ st with helLastEscForm := tF, helLastEsc := tM },
          .routed (if hasPrompt then .infoBar else .tabs) (.key esc))) := by
    intro hf hm h402
    have hT := doEventFormTail_inactive esc { st with helLastEscForm := tF } hf h402
    rw [if_neg hnoF] at hT
    have hM := doEventMenu_inactive run esc tM { st with helLastEscForm := tF } hm
    simp only [DoEvent, hF, hT, hM, hesc, if_true, doEventMenuTail]
    by_cases hnoM : esc.modAlt = true ∧ (esc.rune = 109 ∨ esc.rune = 77)
    · simp only [if_pos hnoM]
    · simp only [if_neg hnoM]
      by_cases h181 : esc.rune = 181
      · simp only [if_pos h181]
      · simp only [if_neg h181]
        cases hasPrompt <;> simp [normalRouting]
  refine ⟨?_, ?_, ?_, ?_⟩
  · intro s r h
    by_cases h402 : esc.rune = 402
    · have : DoEvent run hasPrompt tF tM (.key esc) st =
          some (helFormOpen { st with helLastEscForm := tF }, .returned) := by
        simp [DoEvent, hF, doEventFormTail, h402]
      rw [this] at h
      rw [← (Prod.mk.inj (Option.some.inj h)).1]
      simp [helFormOpen]
    · cases hf : st.formActive with
      | true =>
        cases hcur : goIndex st.form st.formIdx with
        | none =>
          have : DoEvent run hasPrompt tF tM (.key esc) st = none := by
            simp [DoEvent, hF, doEventFormTail, formDispatch, helFormHandleKey, h402, hf, hcur]
          rw [this] at h
          exact Option.noConfusion h
        | some cur =>
          rw [cForm hf h402 (by rw [hcur]; exact Option.noConfusion)] at h
          rw [← (Prod.mk.inj (Option.some.inj h)).1]
          simp [infoBarMessage, helFormClose]
      | false =>
        cases hm : st.helMenuActive with
        | true =>
          rw [cMenu hf hm h402] at h
          rw [← (Prod.mk.inj (Option.some.inj h)).1, (hpop _).2]
        | false =>
          rw [cNone hf hm h402] at h
          split at h
          · rw [← (Prod.mk.inj (Option.some.inj h)).1]
            simp [helMenuOpen, newRootMenu]
          · split at h
            · rw [← (Prod.mk.inj (Option.some.inj h)).1]
              simp [helMenuOpen, newRootMenu]
            · rw [← (Prod.mk.inj (Option.some.inj h)).1]
  · intro hf hm h402 hnoM
    rw [cNone hf hm h402, if_neg hnoM]
    by_cases h181 : esc.rune = 181
    · exact ⟨_, _, by rw [if_pos h181], by simp [helMenuOpen, newRootMenu],
        by simp [helMenuOpen, newRootMenu], fun hne => absurd h181 hne⟩
    · exact ⟨_, _, by rw [if_neg h181], rfl, rfl, fun _ => ⟨rfl, rfl⟩⟩
  · intro hf h402 hidx
    exact ⟨cForm hf h402 hidx, by simp [infoBarMessage, helFormClose]⟩
  · intro hf hm h402
    exact ⟨cMenu hf hm h402, (hpop _).1⟩

/-- C19 (as amended) at the initial state: both clocks are recorded and the Escape is routed
to the editor. -/
theorem DoEvent_escape_timestamps_witness :
    initState.formActive = false ∧ initState.helMenuActive = false ∧
    ∃ s r, DoEvent (rootActions (fun _ _ => none)) false 5 7 (.key (keyEvent .KeyEsc))
        initState = some (s, r) ∧ s.helLastEsc = 7 ∧ s.helLastEscForm = 5 := by
  refine ⟨by decide, by decide, ?_⟩
  obtain ⟨s, r, h1, h2, h3, _⟩ :=
    (DoEvent_escape_timestamps (rootActions (fun _ _ => none)) false 5 7 (keyEvent .KeyEsc)
      initState rfl (by decide)).2.1 (by decide) (by decide) (by decide) (by decide)
  exact ⟨s, r, h1, h2, h3⟩

/-- The form section lets a key pass when the form is inactive and the rune is none of f, F
and U+0192; an Escape key records the clock on the way. -/
theorem doEventForm_pass (ev : EventKey) (tF : Int) (st : State) (hf : st.formActive = false)
    (h402 : ev.rune ≠ 402) (hnf : ¬ (ev.rune = 102 ∨ ev.rune = 70)) :
    doEventForm ev tF st =
      some (if ev.key = .KeyEsc then { st with helLastEscForm := tF } else st, false) := by
  have h1 : ¬ (ev.modAlt = true ∧ (ev.rune = 102 ∨ ev.rune = 70)) := fun h => hnf h.2
  have h2 : ¬ ((ev.rune = 102 ∨ ev.rune = 70) ∧ tF - st.helLastEscForm < ms200) :=
    fun h => hnf h.1
  unfold doEventForm
  rw [if_neg h1]
  by_cases hk : ev.key = .KeyEsc
  · rw [if_pos hk, if_pos hk,
      doEventFormTail_inactive ev { st with helLastEscForm := tF } hf h402, if_neg h1]
  · rw [if_neg hk, if_neg hk, if_neg h2, doEventFormTail_inactive ev st hf h402, if_neg h1]

/-- C20, the claim as stated fails: with the root menu open and the form inactive, the key
event Alt+M is given to `helMenuHandleKey`, which finds no quick key m and pops the only level:
the menu ends closed with an empty stack, not reopened on a fresh root node. -/
theorem alt_m_on_open_menu_counterexample :
    (helMenuOpen initState).helMenuActive = true ∧ (helMenuOpen initState).formActive = false ∧
    (DoEvent (rootActions (fun _ _ => none)) false 0 0
        (.key { key := .KeyRune, rune := 109, modCtrl := false, modAlt := true })
        (helMenuOpen initState)).map (fun r => (r.1.helMenuActive, r.1.helMenuStack, r.2)) =
      some (false, [], .returned) ∧
    (helMenuHandleKey (rootActions (fun _ _ => none))
        { key := .KeyRune, rune := 109, modCtrl := false, modAlt := true }
        (helMenuOpen initState)).map (fun r => (r.1.helMenuActive, r.1.helMenuStack, r.2)) =
      some (false, [], true) := by
  refine ⟨by decide, by decide, by decide, by decide⟩

/-- C20 (as amended): the Modal Stack Controller comes before the menu-open chord.  With the
form inactive, for every key event that matches the menu-open chord (Alt with m or M, or m or M
within 200 ms of the recorded Escape, or the rune U+00B5): while the menu is active `DoEvent`
passes the event to `helMenuHandleKey` and returns with the state that it yields, without
reaching the chord; only while the menu is inactive does the chord open the menu, on a single
fresh root node, and return. -/
theorem DoEvent_menu_before_chord (run : Actions) (hasPrompt : Bool) (tF tM : Int)
    (ev : EventKey) (st : State) (hform : st.formActive = false)
    (hchord : (ev.modAlt = true ∧ (ev.rune = 109 ∨ ev.rune = 77)) ∨
      (ev.key ≠ .KeyEsc ∧ (ev.rune = 109 ∨ ev.rune = 77) ∧ tM - st.helLastEsc < ms200) ∨
      ev.rune = 181) :
    (st.helMenuActive = true →
      DoEvent run hasPrompt tF tM (.key ev) st =
        match helMenuHandleKey run ev
            (if ev.key = .KeyEsc then { st with helLastEscForm := tF } else st) with
        | none => none
        | some r => some (r.1, .returned)) ∧
    (st.helMenuActive = false →
      ∃ s, DoEvent run hasPrompt tF tM (.key ev) st = some (s, .returned) ∧
        s.helMenuActive = true ∧ s.helMenuStack = [st.next + 3] ∧
        s.heap (st.next + 3) = rootMenu st.next (st.next + 1) (st.next + 2)) := by
  have hr : ev.rune = 109 ∨ ev.rune = 77 ∨ ev.rune = 181 := by
    rcases hchord with h | h | h
    · rcases h.2 with h | h
      · exact Or.inl h
      · exact Or.inr (Or.inl h)
    · rcases h.2.1 with h | h
      · exact Or.inl h
      · exact Or.inr (Or.inl h)
    · exact Or.inr (Or.inr h)
  have h402 : ev.rune ≠ 402 := by omega
  have hnf : ¬ (ev.rune = 102 ∨ ev.rune = 70) := by omega
  have hF := doEventForm_pass ev tF st hform h402 hnf
  constructor
  · intro hm
    have hm1 : (if ev.key = .KeyEsc then { st with helLastEscForm := tF } else st).helMenuActive
        = true := by
      split <;> exact hm
    have hM := doEventMenu_active run ev tM _ hm1
    simp only [DoEvent, hF, hM]
    cases helMenuHandleKey run ev
      (if ev.key = .KeyEsc then { st with helLastEscForm := tF } else st) <;> rfl
  · intro hm
    by_cases hk : ev.key = .KeyEsc
    · have hM := doEventMenu_inactive run ev tM { st with helLastEscForm := tF } hm
      simp only [if_pos hk] at hF
      simp only [if_pos hk, doEventMenuTail] at hM
      by_cases hA : ev.modAlt = true ∧ (ev.rune = 109 ∨ ev.rune = 77)
      · rw [if_pos hA] at hM
        exact ⟨_, by simp only [DoEvent, hF, hM]; rfl, by simp [helMenuOpen],
          by simp [helMenuOpen, newRootMenu], by simp [helMenuOpen, newRootMenu]⟩
      · have h181 : ev.rune = 181 := by
          rcases hchord with h | h | h
          · exact absurd h hA
          · exact absurd hk h.1
          · exact h
        rw [if_neg hA, if_pos h181] at hM
        exact ⟨_, by simp only [DoEvent, hF, hM]; rfl, by simp [helMenuOpen],
          by simp [helMenuOpen, newRootMenu], by simp [helMenuOpen, newRootMenu]⟩
    · have hM := doEventMenu_inactive run ev tM st hm
      simp only [if_neg hk] at hF
      simp only [if_neg hk, doEventMenuTail] at hM
      by_cases hA : ev.modAlt = true ∧ (ev.rune = 109 ∨ ev.rune = 77)
      · rw [if_pos hA] at hM
        exact ⟨_, by simp only [DoEvent, hF, hM]; rfl, by simp [helMenuOpen],
          by simp [helMenuOpen, newRootMenu], by simp [helMenuOpen, newRootMenu]⟩
      · rw [if_neg hA] at hM
        by_cases hE : (ev.rune = 109 ∨ ev.rune = 77) ∧ tM - st.helLastEsc < ms200
        · rw [if_pos hE] at hM
          exact ⟨_, by simp only [DoEvent, hF, hM]; rfl, by simp [helMenuOpen],
            by simp [helMenuOpen, newRootMenu], by simp [helMenuOpen, newRootMenu]⟩
        · have h181 : ev.rune = 181 := by
            rcases hchord with h | h | h
            · exact absurd h hA
            · exact absurd h.2 hE
            · exact h
          rw [if_neg hE, if_pos h181] at hM
          exact ⟨_, by simp only [DoEvent, hF, hM]; rfl, by simp [helMenuOpen],
            by simp [helMenuOpen, newRootMenu], by simp [helMenuOpen, newRootMenu]⟩

/-- C20 (as amended) at the initial state (Alt+M opens the menu) and on the open root menu
(Alt+M goes to the menu handler). -/
theorem DoEvent_menu_before_chord_witness :
    initState.formActive = false ∧ initState.helMenuActive = false ∧
    (∃ s, DoEvent (rootActions (fun _ _ => none)) false 0 0
        (.key { key := .KeyRune, rune := 109, modCtrl := false, modAlt := true }) initState =
          some (s, .returned) ∧ s.helMenuActive = true ∧ s.helMenuStack = [3]) ∧
    DoEvent (rootActions (fun _ _ => none)) false 0 0
        (.key { key := .KeyRune, rune := 109, modCtrl := false, modAlt := true })
        (helMenuOpen initState) =
      some (helMenuCloseAll (helMenuOpen initState), .returned) := by
  refine ⟨by decide, by decide, ?_, ?_⟩
  · obtain ⟨s, h1, h2, h3, _⟩ :=
      (DoEvent_menu_before_chord (rootActions (fun _ _ => none)) false 0 0
        { key := .KeyRune, rune := 109, modCtrl := false, modAlt := true } initState
        (by decide) (Or.inl (by decide))).2 (by decide)
    exact ⟨s, h1, h2, h3⟩
  · rw [(DoEvent_menu_before_chord (rootActions (fun _ _ => none)) false 0 0
        { key := .KeyRune, rune := 109, modCtrl := false, modAlt := true } (helMenuOpen initState)
        (by decide) (Or.inl (by decide))).1 (by decide)]
    rfl

/-! ### The two overlays in the dispatcher -/

/-- Writing the field under the cursor leaves the menu variables. -/
theorem sameMenu_setCur (f : helField) (st : State) : sameMenu (setCur f st) st := by
  simp [sameMenu, setCur]

/-- The editing part of the form handler consumes the key and leaves the menu variables and
the active flag of the form. -/
theorem helFormEdit_frame (ev : EventKey) (cur : helField) (st : State) :
    (helFormEdit ev cur st).2 = true ∧ sameMenu (helFormEdit ev cur st).1 st ∧
      (helFormEdit ev cur st).1.formActive = st.formActive := by
  have hst : sameMenu st st := by simp [sameMenu]
  unfold helFormEdit
  dsimp only
  repeat' split
  all_goals exact ⟨rfl, hst, rfl⟩

/-- Whatever `helFormHandleKey` returns, it reports the value of formActive on entry and
leaves the menu variables. -/
theorem helFormHandleKey_frame (ev : EventKey) (st : State) (r : State × Bool)
    (h : helFormHandleKey ev st = some r) : r.2 = st.formActive ∧ sameMenu r.1 st := by
  have hst : sameMenu st st := by simp [sameMenu]
  cases hact : st.formActive with
  | false =>
    rw [form_inactive ev st hact] at h
    rw [← Option.some.inj h]
    exact ⟨rfl, hst⟩
  | true =>
    have hcommit : ∀ r' : State × Bool, helFormCommit st = some r' →
        r'.2 = true ∧ sameMenu r'.1 st := by
      intro r' hc
      unfold helFormCommit at hc
      dsimp only at hc
      split at hc
      · split at hc
        · exact Option.noConfusion hc
        · rw [← Option.some.inj hc]
          exact ⟨rfl, by simp [sameMenu, infoBarMessage, helFormClose]⟩
      · exact Option.noConfusion hc
    have hedit : ∀ cur : helField, some (helFormEdit ev cur st) = some r →
        r.2 = true ∧ sameMenu r.1 st := by
      intro cur he
      rw [← Option.some.inj he]
      exact ⟨(helFormEdit_frame ev cur st).1, (helFormEdit_frame ev cur st).2.1⟩
    unfold helFormHandleKey at h
    rw [hact] at h
    simp only [Bool.not_true, Bool.false_eq_true, if_false] at h
    repeat' (split at h)
    all_goals first
      | exact Option.noConfusion h
      | exact hedit _ h
      | exact hcommit r h
      | (rw [← Option.some.inj h]
         simp [sameMenu, setCur, infoBarMessage, helFormClose])

/-- The form section on a key that is not a form-open chord: the rest of the section runs on
the state after the Escape test. -/
theorem doEventForm_noChord (ev : EventKey) (tF : Int) (st : State)
    (h : ¬ formChord ev tF st) :
    ev.rune ≠ 402 ∧ doEventForm ev tF st = doEventFormTail ev (afterFormEsc ev tF st) := by
  unfold formChord at h
  have h1 : ¬ (ev.modAlt = true ∧ (ev.rune = 102 ∨ ev.rune = 70)) := fun c => h (Or.inl c)
  have h3 : ev.rune ≠ 402 := fun c => h (Or.inr (Or.inr c))
  refine ⟨h3, ?_⟩
  unfold doEventForm afterFormEsc
  rw [if_neg h1]
  by_cases hk : ev.key = .KeyEsc
  · rw [if_pos hk, if_pos hk]
  · have h2 : ¬ ((ev.rune = 102 ∨ ev.rune = 70) ∧ tF - st.helLastEscForm < ms200) :=
      fun c => h (Or.inr (Or.inl ⟨hk, c⟩))
    rw [if_neg hk, if_neg hk, if_neg h2]

/-- The form section on a form-open chord: the form is opened and `DoEvent` returns. -/
theorem doEventForm_chord (ev : EventKey) (tF : Int) (st : State) (h : formChord ev tF st) :
    ∃ s, doEventForm ev tF st = some (s, true) ∧ s.formActive = true ∧ s.formIdx = 0 ∧
      s.form = (helFormOpen st).form ∧ s.helMenuActive = st.helMenuActive ∧
      s.helMenuStack = st.helMenuStack ∧ s.heap = st.heap := by
  unfold doEventForm
  by_cases h1 : ev.modAlt = true ∧ (ev.rune = 102 ∨ ev.rune = 70)
  · rw [if_pos h1]
    exact ⟨helFormOpen st, rfl, rfl, rfl, rfl, rfl, rfl, rfl⟩
  · rw [if_neg h1]
    by_cases hk : ev.key = .KeyEsc
    · have h3 : ev.rune = 402 := by
        rcases h with c | c | c
        · exact absurd c h1
        · exact absurd hk c.1
        · exact c
      rw [if_pos hk]
      unfold doEventFormTail
      rw [if_pos h3]
      exact ⟨_, rfl, rfl, rfl, rfl, rfl, rfl, rfl⟩
    · rw [if_neg hk]
      by_cases h2 : (ev.rune = 102 ∨ ev.rune = 70) ∧ tF - st.helLastEscForm < ms200
      · rw [if_pos h2]
        exact ⟨_, rfl, rfl, rfl, rfl, rfl, rfl, rfl⟩
      · have h3 : ev.rune = 402 := by
          rcases h with c | c | c
          · exact absurd c h1
          · exact absurd c.2 h2
          · exact c
        rw [if_neg h2]
        unfold doEventFormTail
        rw [if_pos h3]
        exact ⟨_, rfl, rfl, rfl, rfl, rfl, rfl, rfl⟩

/-- The end of the form section when the form is active: the key goes to `helFormHandleKey`
and `DoEvent` returns. -/
theorem doEventFormTail_active (ev : EventKey) (st : State) (hf : st.formActive = true)
    (h402 : ev.rune ≠ 402) :
    doEventFormTail ev st =
      match helFormHandleKey ev st with
      | none => none
      | some r => some (r.1, true) := by
  unfold doEventFormTail formDispatch
  rw [if_neg h402, if_pos hf]
  cases h : helFormHandleKey ev st with
  | none => rfl
  | some r =>
    obtain ⟨s1, b⟩ := r
    have hb : b = true := by
      have := (helFormHandleKey_frame ev st (s1, b) h).1
      rw [hf] at this
      exact this
    subst hb
    rfl

/-- A cycle whose form section returns. -/
theorem DoEvent_form_returns (run : Actions) (hasPrompt : Bool) (tF tM : Int) (ev : EventKey)
    (st s : State) (h : doEventForm ev tF st = some (s, true)) :
    DoEvent run hasPrompt tF tM (.key ev) st = some (s, .returned) := by
  simp only [DoEvent, h]

/-- A cycle whose form section lets the key pass: the menu section decides. -/
theorem DoEvent_form_passes (run : Actions) (hasPrompt : Bool) (tF tM : Int) (ev : EventKey)
    (st s1 : State) (h : doEventForm ev tF st = some (s1, false)) :
    DoEvent run hasPrompt tF tM (.key ev) st =
      match doEventMenu run ev tM s1 with
      | none => none
      | some (s2, true) => some (s2, .returned)
      | some (s2, false) => some (s2, normalRouting hasPrompt (.key ev)) := by
  simp only [DoEvent, h]

/-- The menu section on a menu-open chord while the menu is inactive: the menu is opened on a
fresh root node and `DoEvent` returns. -/
theorem doEventMenu_chord (run : Actions) (ev : EventKey) (tM : Int) (st : State)
    (hm : st.helMenuActive = false) (h : menuChord ev tM st) :
    ∃ s, doEventMenu run ev tM st = some (s, true) ∧ s.helMenuActive = true ∧
      s.helMenuStack = [st.next + 3] ∧
      s.heap (st.next + 3) = rootMenu st.next (st.next + 1) (st.next + 2) ∧
      s.formActive = st.formActive := by
  rw [doEventMenu_inactive run ev tM st hm]
  by_cases h1 : ev.modAlt = true ∧ (ev.rune = 109 ∨ ev.rune = 77)
  · rw [if_pos h1]
    exact ⟨helMenuOpen st, rfl, by simp [helMenuOpen], by simp [helMenuOpen, newRootMenu],
      by simp [helMenuOpen, newRootMenu], by simp [helMenuOpen, newRootMenu]⟩
  · rw [if_neg h1]
    by_cases hk : ev.key = .KeyEsc
    · have h3 : ev.rune = 181 := by
        rcases h with c | c | c
        · exact absurd c h1
        · exact absurd hk c.1
        · exact c
      rw [if_pos hk]
      unfold doEventMenuTail
      rw [if_pos h3]
      exact ⟨helMenuOpen { st with helLastEsc := tM }, rfl, by simp [helMenuOpen],
        by simp [helMenuOpen, newRootMenu], by simp [helMenuOpen, newRootMenu],
        by simp [helMenuOpen, newRootMenu]⟩
    · rw [if_neg hk]
      by_cases h2 : (ev.rune = 109 ∨ ev.rune = 77) ∧ tM - st.helLastEsc < ms200
      · rw [if_pos h2]
        exact ⟨{ helMenuOpen st with helLastEsc := 0 }, rfl, by simp [helMenuOpen],
          by simp [helMenuOpen, newRootMenu], by simp [helMenuOpen, newRootMenu],
          by simp [helMenuOpen, newRootMenu]⟩
      · have h3 : ev.rune = 181 := by
          rcases h with c | c | c
          · exact absurd c h1
          · exact absurd c.2 h2
          · exact c
        rw [if_neg h2]
        unfold doEventMenuTail
        rw [if_pos h3]
        exact ⟨helMenuOpen st, rfl, by simp [helMenuOpen], by simp [helMenuOpen, newRootMenu],
          by simp [helMenuOpen, newRootMenu], by simp [helMenuOpen, newRootMenu]⟩

/-- The menu section on a key that is no menu-open chord while the menu is inactive: the key
passes, an Escape recording the clock. -/
theorem doEventMenu_noChord (run : Actions) (ev : EventKey) (tM : Int) (st : State)
    (hm : st.helMenuActive = false) (h : ¬ menuChord ev tM st) :
    doEventMenu run ev tM st =
      some (if ev.key = .KeyEsc then { st with helLastEsc := tM } else st, false) := by
  unfold menuChord at h
  have h1 : ¬ (ev.modAlt = true ∧ (ev.rune = 109 ∨ ev.rune = 77)) := fun c => h (Or.inl c)
  have h3 : ev.rune ≠ 181 := fun c => h (Or.inr (Or.inr c))
  rw [doEventMenu_inactive run ev tM st hm, if_neg h1]
  by_cases hk : ev.key = .KeyEsc
  · rw [if_pos hk, if_pos hk]
    unfold doEventMenuTail
    rw [if_neg h3]
  · have h2 : ¬ ((ev.rune = 109 ∨ ev.rune = 77) ∧ tM - st.helLastEsc < ms200) :=
      fun c => h (Or.inr (Or.inl ⟨hk, c⟩))
    rw [if_neg hk, if_neg hk, if_neg h2]
    unfold doEventMenuTail
    rw [if_neg h3]

/-- The state after the Escape test keeps the two active flags and the menu. -/
theorem afterFormEsc_same (ev : EventKey) (tF : Int) (st : State) :
    (afterFormEsc ev tF st).formActive = st.formActive ∧
    (afterFormEsc ev tF st).helMenuActive = st.helMenuActive ∧
    (afterFormEsc ev tF st).helMenuStack = st.helMenuStack ∧
    (afterFormEsc ev tF st).heap = st.heap ∧ (afterFormEsc ev tF st).next = st.next ∧
    (afterFormEsc ev tF st).helLastEsc = st.helLastEsc ∧
    (afterFormEsc ev tF st).form = st.form ∧ (afterFormEsc ev tF st).formIdx = st.formIdx := by
  unfold afterFormEsc
  split <;> simp

/-- C21, the claim as stated fails for the rune U+00B5: with the form active the key event is
consumed by the form, which appends the two bytes of the rune to the Text field under the
cursor, and the menu stays closed; with the root menu open it is consumed by the menu, which
finds no such quick key and pops its only level, so that the menu ends closed. -/
theorem micro_sign_consumed_by_modal_counterexample :
    (DoEvent (rootActions (fun _ _ => none)) false 0 0 (.key (runeEvent 181))
        (helFormOpen initState)).map
      (fun r => (r.1.helMenuActive, r.1.helMenuStack, r.1.formActive, r.2)) =
      some (false, [], true, .returned) ∧
    (DoEvent (rootActions (fun _ _ => none)) false 0 0 (.key (runeEvent 181))
        (helFormOpen initState)).map (fun r => r.1.form.map (fun f => f.Value)) =
      some [[194, 181], goStr "18", [], []] ∧
    (DoEvent (rootActions (fun _ _ => none)) false 0 0 (.key (runeEvent 181))
        (helMenuOpen initState)).map
      (fun r => (r.1.helMenuActive, r.1.helMenuStack, r.2)) = some (false, [], .returned) := by
  refine ⟨by decide, by decide, by decide⟩

/-- C21 (as amended): for every value of the two recorded clocks and every combination of
form-active and menu-active, a key event with the rune U+0192 makes `DoEvent` open the form
(cursor 0, the fields of `helFormOpen`, the menu untouched) and return.  A key event with the
rune U+00B5 makes `DoEvent` open the menu, on a fresh root node, and return only when neither
the form nor the menu is active; when the form is active the event is handled by
`helFormHandleKey` and the menu variables are unchanged; when only the menu is active the
event is handled by `helMenuHandleKey`; in both cases `DoEvent` returns before the test of the
rune. -/
theorem DoEvent_precomposed_runes (run : Actions) (hasPrompt : Bool) (tF tM : Int)
    (ev : EventKey) (st : State) :
    (ev.rune = 402 →
      ∃ s, DoEvent run hasPrompt tF tM (.key ev) st = some (s, .returned) ∧
        s.formActive = true ∧ s.formIdx = 0 ∧ s.form = (helFormOpen st).form ∧
        s.helMenuActive = st.helMenuActive ∧ s.helMenuStack = st.helMenuStack) ∧
    (ev.rune = 181 → st.formActive = false → st.helMenuActive = false →
      ∃ s, DoEvent run hasPrompt tF tM (.key ev) st = some (s, .returned) ∧
        s.helMenuActive = true ∧ s.helMenuStack = [st.next + 3] ∧
        s.heap (st.next + 3) = rootMenu st.next (st.next + 1) (st.next + 2) ∧
        s.formActive = false) ∧
    (ev.rune = 181 → st.formActive = true →
      DoEvent run hasPrompt tF tM (.key ev) st =
        (match helFormHandleKey ev (afterFormEsc ev tF st) with
         | none => none
         | some r => some (r.1, .returned)) ∧
      ∀ s r, DoEvent run hasPrompt tF tM (.key ev) st = some (s, r) →
        s.helMenuActive = st.helMenuActive ∧ s.helMenuStack = st.helMenuStack) ∧
    (ev.rune = 181 → st.formActive = false → st.helMenuActive = true →
      DoEvent run hasPrompt tF tM (.key ev) st =
        match helMenuHandleKey run ev (afterFormEsc ev tF st) with
        | none => none
        | some r => some (r.1, .returned)) := by
  have hsame := afterFormEsc_same ev tF st
  have noF : ev.rune = 181 → ¬ formChord ev tF st := by
    intro h c
    unfold formChord at c
    omega
  refine ⟨?_, ?_, ?_, ?_⟩
  · intro h
    obtain ⟨s, hs, a, b, c, d, e, _⟩ := doEventForm_chord ev tF st (Or.inr (Or.inr h))
    exact ⟨s, DoEvent_form_returns run hasPrompt tF tM ev st s hs, a, b, c, d, e⟩
  · intro h hf hm
    obtain ⟨h402, hF⟩ := doEventForm_noChord ev tF st (noF h)
    rw [doEventFormTail_inactive ev _ (hsame.1.trans hf) h402] at hF
    have hnA : ¬ (ev.modAlt = true ∧ (ev.rune = 102 ∨ ev.rune = 70)) := by omega
    rw [if_neg hnA] at hF
    obtain ⟨s, hs, a, b, c, d⟩ := doEventMenu_chord run ev tM (afterFormEsc ev tF st)
      (hsame.2.1.trans hm) (Or.inr (Or.inr h))
    refine ⟨s, ?_, a, ?_, ?_, ?_⟩
    · rw [DoEvent_form_passes run hasPrompt tF tM ev st _ hF, hs]
    · rw [b, hsame.2.2.2.2.1]
    · rw [hsame.2.2.2.2.1] at c
      exact c
    · rw [d, hsame.1, hf]
  · intro h hf
    obtain ⟨h402, hF⟩ := doEventForm_noChord ev tF st (noF h)
    rw [doEventFormTail_active ev _ (hsame.1.trans hf) h402] at hF
    have hD : DoEvent run hasPrompt tF tM (.key ev) st =
        (match helFormHandleKey ev (afterFormEsc ev tF st) with
         | none => none
         | some r => some (r.1, .returned)) := by
      cases hh : helFormHandleKey ev (afterFormEsc ev tF st) with
      | none =>
        rw [hh] at hF
        simp only [DoEvent, hF]
      | some r =>
        rw [hh] at hF
        exact DoEvent_form_returns run hasPrompt tF tM ev st r.1 hF
    refine ⟨hD, ?_⟩
    intro s r hres
    rw [hD] at hres
    cases hh : helFormHandleKey ev (afterFormEsc ev tF st) with
    | none =>
      rw [hh] at hres
      exact Option.noConfusion hres
    | some r' =>
      rw [hh] at hres
      have hs : r'.1 = s := (Prod.mk.inj (Option.some.inj hres)).1
      have hfr := (helFormHandleKey_frame ev _ r' hh).2
      rw [← hs]
      exact ⟨hfr.1.trans hsame.2.1, hfr.2.1.trans hsame.2.2.1⟩
  · intro h hf hm
    obtain ⟨h402, hF⟩ := doEventForm_noChord ev tF st (noF h)
    rw [doEventFormTail_inactive ev _ (hsame.1.trans hf) h402] at hF
    have hnA : ¬ (ev.modAlt = true ∧ (ev.rune = 102 ∨ ev.rune = 70)) := by omega
    rw [if_neg hnA] at hF
    rw [DoEvent_form_passes run hasPrompt tF tM ev st _ hF,
      doEventMenu_active run ev tM _ (hsame.2.1.trans hm)]
    cases helMenuHandleKey run ev (afterFormEsc ev tF st) <;> rfl

/-- C21 (as amended) at the initial state: the rune U+0192 opens the form and the rune U+00B5
opens the menu. -/
theorem DoEvent_precomposed_runes_witness :
    (∃ s, DoEvent (rootActions (fun _ _ => none)) false 0 0 (.key (runeEvent 402)) initState =
        some (s, .returned) ∧ s.formActive = true) ∧
    initState.formActive = false ∧ initState.helMenuActive = false ∧
    (∃ s, DoEvent (rootActions (fun _ _ => none)) false 0 0 (.key (runeEvent 181)) initState =
        some (s, .returned) ∧ s.helMenuActive = true) := by
  refine ⟨?_, by decide, by decide, ?_⟩
  · obtain ⟨s, h1, h2, _⟩ :=
      (DoEvent_precomposed_runes (rootActions (fun _ _ => none)) false 0 0 (runeEvent 402)
        initState).1 rfl
    exact ⟨s, h1, h2⟩
  · obtain ⟨s, h1, h2, _⟩ :=
      (DoEvent_precomposed_runes (rootActions (fun _ _ => none)) false 0 0 (runeEvent 181)
        initState).2.1 rfl (by decide) (by decide)
    exact ⟨s, h1, h2⟩

/-! ### Failure of a menu action -/

/-- C22, the claim as stated fails in its last part: an Action that succeeds with the message
helmenu: erro: x produces exactly the status message of an Action that fails with the reason x,
so the prefix does not tell the two apart. -/
theorem success_message_with_prefix_counterexample :
    (helSelect (fun _ st => ((goStr "helmenu: erro: x", none), st))
        { key := 113, title := goStr "Fechar", action := some 0, sub := none }
        (helMenuOpen initState)).1.infoBar = [goStr "helmenu: erro: x"] ∧
    (helSelect (fun _ st => ((goStr "", some (goStr "x")), st))
        { key := 113, title := goStr "Fechar", action := some 0, sub := none }
        (helMenuOpen initState)).1.infoBar = [goStr "helmenu: erro: x"] ∧
    (goStr "helmenu: erro: ").isPrefixOf (goStr "helmenu: erro: x") = true := by
  refine ⟨by decide, by decide, by decide⟩

/-- C22 (as amended): when the Action of the selected item returns a failure reason e,
`helSelect` does not propagate it: it returns true, closes the menu and sends exactly one status
message, the prefix helmenu: erro: followed by the text of e; when the Action succeeds with a
message m that is not empty it sends exactly m, and when m is empty it sends nothing.  So a
failure message always carries the prefix; a success message carries it only if the Action
itself returned it, which no Action of the root menu does. -/
theorem helSelect_action_messages (run : Actions) (it : helMenuItem) (st : State) (a : Nat)
    (hsub : it.sub = none) (hact : it.action = some a) :
    (helSelect run it st).2 = true ∧
    (helSelect run it st).1.helMenuActive = false ∧ (helSelect run it st).1.helMenuStack = [] ∧
    (∀ e, (run a st).1.2 = some e →
      (helSelect run it st).1 =
        infoBarMessage (goStr "helmenu: erro: " ++ e) (helMenuCloseAll (run a st).2) ∧
      (helSelect run it st).1.infoBar = (run a st).2.infoBar ++ [goStr "helmenu: erro: " ++ e] ∧
      (goStr "helmenu: erro: ").isPrefixOf (goStr "helmenu: erro: " ++ e) = true) ∧
    ((run a st).1.2 = none → (run a st).1.1 ≠ [] →
      (helSelect run it st).1 = infoBarMessage (run a st).1.1 (helMenuCloseAll (run a st).2) ∧
      (helSelect run it st).1.infoBar = (run a st).2.infoBar ++ [(run a st).1.1]) ∧
    ((run a st).1.2 = none → (run a st).1.1 = [] →
      (helSelect run it st).1 = helMenuCloseAll (run a st).2 ∧
      (helSelect run it st).1.infoBar = (run a st).2.infoBar) ∧
    (∀ (helRunCmd : GoString → List GoString → Option GoString) (b : Nat) (s : State),
      (rootActions helRunCmd b s).1.2 = none →
      (goStr "helmenu: erro: ").isPrefixOf (rootActions helRunCmd b s).1.1 = false) := by
  obtain ⟨c1, c2, c3⟩ := helSelect_action_closes run it st a hsub hact
  refine ⟨c1, c3, c2, ?_, ?_, ?_, ?_⟩
  · intro e he
    have h1 : (helSelect run it st).1 =
        infoBarMessage (goStr "helmenu: erro: " ++ e) (helMenuCloseAll (run a st).2) := by
      simp [helSelect, hsub, hact, he]
    refine ⟨h1, by rw [h1]; simp [infoBarMessage, helMenuCloseAll], ?_⟩
    rw [List.isPrefixOf_iff_prefix]
    exact List.prefix_append _ _
  · intro he hm
    have h1 : (helSelect run it st).1 =
        infoBarMessage (run a st).1.1 (helMenuCloseAll (run a st).2) := by
      simp [helSelect, hsub, hact, he, hm]
    exact ⟨h1, by rw [h1]; simp [infoBarMessage, helMenuCloseAll]⟩
  · intro he hm
    have h1 : (helSelect run it st).1 = helMenuCloseAll (run a st).2 := by
      simp [helSelect, hsub, hact, he, hm]
    exact ⟨h1, by rw [h1]; simp [helMenuCloseAll]⟩
  · intro helRunCmd b s
    rcases b with _ | _ | _ | _ | _ | _ | _ | _ | _ | _ | b
    · cases h : helRunCmd (goStr "hsplit") [] with
      | none =>
        intro _
        simp only [rootActions, h]
        decide
      | some e =>
        intro hn
        simp [rootActions, h] at hn
    · cases h : helRunCmd (goStr "vsplit") [] with
      | none =>
        intro _
        simp only [rootActions, h]
        decide
      | some e =>
        intro hn
        simp [rootActions, h] at hn
    · cases h : helRunCmd (goStr "tab") [] with
      | none =>
        intro _
        simp only [rootActions, h]
        decide
      | some e =>
        intro hn
        simp [rootActions, h] at hn
    · cases h : helRunCmd (goStr "tab") [goStr "README.md"] with
      | none =>
        intro _
        simp only [rootActions, h]
        decide
      | some e =>
        intro hn
        simp [rootActions, h] at hn
    · intro _; rfl
    · intro _; rfl
    · intro _; rfl
    · intro _; rfl
    · intro _; rfl
    · intro _; rfl
    · intro _; rfl

/-- C22 (as amended) at the root menu: the item Fechar succeeds with its message, which is
the one status message sent. -/
theorem helSelect_action_messages_witness :
    (helSelect (rootActions (fun _ _ => none))
        { key := 113, title := goStr "Fechar", action := some 9, sub := none }
        (helMenuOpen initState)).2 = true ∧
    (helSelect (rootActions (fun _ _ => none))
        { key := 113, title := goStr "Fechar", action := some 9, sub := none }
        (helMenuOpen initState)).1.infoBar = [goStr "helmenu: fechado"] := by
  obtain ⟨h1, _, _, _, h5, _⟩ :=
    helSelect_action_messages (rootActions (fun _ _ => none))
      { key := 113, title := goStr "Fechar", action := some 9, sub := none }
      (helMenuOpen initState) 9 rfl rfl
  refine ⟨h1, ?_⟩
  rw [(h5 (by decide) (by decide)).2]
  decide

/-! ### The command bridge -/

/-- With a field under construction, `fieldsAux` yields at least one field. -/
theorem fieldsAux_ne_nil (n : Nat) (s cur : GoString) (hcur : cur ≠ []) :
    fieldsAux n s cur ≠ [] := by
  induction n generalizing s cur with
  | zero => simp [fieldsAux, hcur]
  | succ k ih =>
    cases s with
    | nil => simp [fieldsAux, hcur]
    | cons b rest =>
      simp only [fieldsAux]
      split
      · simp [hcur]
      · exact ih rest (cur ++ [b]) (by simp)

/-- After `trimLeftAux` with enough fuel no listed sequence starts the text. -/
theorem trimLeftAux_no_prefix (seqs : List GoString) (hseqs : ∀ p ∈ seqs, p ≠ [])
    (fuel : Nat) (s : GoString) (hlen : s.length ≤ fuel) :
    trimLeftAux seqs fuel s = [] ∨
      seqs.find? (fun p => p.isPrefixOf (trimLeftAux seqs fuel s)) = none := by
  induction fuel generalizing s with
  | zero =>
    left
    have : s = [] := List.eq_nil_of_length_eq_zero (by omega)
    simp [trimLeftAux, this]
  | succ k ih =>
    simp only [trimLeftAux]
    cases hf : seqs.find? (fun p => p.isPrefixOf s) with
    | none =>
      right
      exact hf
    | some p =>
      have hp : p ≠ [] := hseqs p (List.mem_of_find?_eq_some hf)
      have hpl : 1 ≤ p.length := by
        cases p with
        | nil => exact absurd rfl hp
        | cons _ _ => simp
      exact ih (s.drop p.length) (by rw [List.length_drop]; omega)

/-- The result of `trimLeftAux` is the end of the text. -/
theorem trimLeftAux_suffix (seqs : List GoString) (fuel : Nat) (s : GoString) :
    ∃ pre, s = pre ++ trimLeftAux seqs fuel s := by
  induction fuel generalizing s with
  | zero => exact ⟨[], rfl⟩
  | succ k ih =>
    simp only [trimLeftAux]
    cases hf : seqs.find? (fun p => p.isPrefixOf s) with
    | none => exact ⟨[], rfl⟩
    | some p =>
      obtain ⟨pre, hpre⟩ := ih (s.drop p.length)
      refine ⟨s.take p.length ++ pre, ?_⟩
      rw [List.append_assoc, ← hpre, List.take_append_drop]

/-- A trimmed text is empty or does not start with white space. -/
theorem TrimSpace_no_prefix (s : GoString) :
    TrimSpace s = [] ∨ spaceSeqs.find? (fun p => p.isPrefixOf (TrimSpace s)) = none := by
  have hl := trimLeftAux_no_prefix spaceSeqs (by decide) s.length s (Nat.le_refl _)
  obtain ⟨pre, hpre⟩ := trimLeftAux_suffix (spaceSeqs.map List.reverse)
    (trimLeftAux spaceSeqs s.length s).length (trimLeftAux spaceSeqs s.length s).reverse
  have hT : TrimSpace s = (trimLeftAux (spaceSeqs.map List.reverse)
      (trimLeftAux spaceSeqs s.length s).length
      (trimLeftAux spaceSeqs s.length s).reverse).reverse := rfl
  have hsplit : trimLeftAux spaceSeqs s.length s = TrimSpace s ++ pre.reverse := by
    rw [hT, ← List.reverse_append, ← hpre, List.reverse_reverse]
  rcases hl with hl | hl
  · left
    rw [hl] at hsplit
    exact (List.append_eq_nil.1 hsplit.symm).1
  · by_cases ht : TrimSpace s = []
    · exact Or.inl ht
    · right
      rw [List.find?_eq_none] at hl ⊢
      intro p hp hpre'
      apply hl p hp
      rw [List.isPrefixOf_iff_prefix] at hpre' ⊢
      rw [hsplit]
      exact hpre'.trans (List.prefix_append _ _)

/-- A trimmed text that is not empty has a first field. -/
theorem Fields_TrimSpace_ne_nil (s : GoString) (h : TrimSpace s ≠ []) :
    Fields (TrimSpace s) ≠ [] := by
  rcases TrimSpace_no_prefix s with h0 | h0
  · exact absurd h0 h
  · obtain ⟨b, rest, hbr⟩ := List.exists_cons_of_ne_nil h
    rw [hbr] at h0 ⊢
    have hstep : Fields (b :: rest) = fieldsAux (rest.length + 1) rest ([] ++ [b]) := by
      simp only [Fields, List.length_cons]
      rw [fieldsAux]
      simp only [h0]
    rw [hstep]
    exact fieldsAux_ne_nil _ rest ([] ++ [b]) (by simp)

/-- C23: `HelRunCmd` returns an error, runs no command action and leaves the editor as it is
whenever the registry is nil, the name is not a key of the registry, or the registered command
has no action function; this needs no further call.  `HelRunCmdLine` returns nil without
running anything when the line is empty or all white space, and otherwise the trimmed line has a
first field and the call is `HelRunCmd` on that field as name and the remaining fields as
arguments. -/
theorem HelRunCmd_registry_errors :
    (∀ (fuel : Nat) (name : GoString) (args : List GoString) (ed : Editor),
      ∃ r, HelRunCmd (fuel + 1) none name args ed = some r ∧
        r.err = some .commandsNil ∧ r.ran = [] ∧ r.editor = ed) ∧
    (∀ (fuel : Nat) (reg : GoString → Option Command) (name : GoString) (args : List GoString)
      (ed : Editor), (reg name).isNone = true →
      ∃ r, HelRunCmd (fuel + 1) (some reg) name args ed = some r ∧
        r.err = some (.notFound name) ∧ r.ran = [] ∧ r.editor = ed) ∧
    (∀ (fuel : Nat) (reg : GoString → Option Command) (name : GoString) (args : List GoString)
      (ed : Editor) (cmd : Command), reg name = some cmd → cmd.action.isNone = true →
      ∃ r, HelRunCmd (fuel + 1) (some reg) name args ed = some r ∧
        r.err = some (.noFunction name) ∧ r.ran = [] ∧ r.editor = ed) ∧
    (∀ (fuel : Nat) (commands : Registry) (line : GoString) (ed : Editor),
      TrimSpace line = [] →
      ∃ r, HelRunCmdLine fuel commands line ed = some r ∧
        r.err = none ∧ r.ran = [] ∧ r.editor = ed) ∧
    (∀ (fuel : Nat) (commands : Registry) (line : GoString) (ed : Editor),
      TrimSpace line ≠ [] →
      ∃ name args, Fields (TrimSpace line) = name :: args ∧
        HelRunCmdLine fuel commands line ed = HelRunCmd fuel commands name args ed) := by
  refine ⟨?_, ?_, ?_, ?_, ?_⟩
  · intro fuel name args ed
    exact ⟨_, rfl, rfl, rfl, rfl⟩
  · intro fuel reg name args ed h
    have hn : reg name = none := by
      cases hr : reg name with
      | none => rfl
      | some c => rw [hr] at h; exact Bool.noConfusion h
    exact ⟨{ err := some (.notFound name), editor := ed, ran := [] },
      by simp [HelRunCmd, hn], rfl, rfl, rfl⟩
  · intro fuel reg name args ed cmd hc h
    have hn : cmd.action = none := by
      cases hr : cmd.action with
      | none => rfl
      | some c => rw [hr] at h; exact Bool.noConfusion h
    exact ⟨{ err := some (.noFunction name), editor := ed, ran := [] },
      by simp [HelRunCmd, hc, hn], rfl, rfl, rfl⟩
  · intro fuel commands line ed h
    exact ⟨{ err := none, editor := ed, ran := [] }, by simp [HelRunCmdLine, h], rfl, rfl, rfl⟩
  · intro fuel commands line ed h
    obtain ⟨name, args, hf⟩ := List.exists_cons_of_ne_nil (Fields_TrimSpace_ne_nil line h)
    exact ⟨name, args, hf, by simp [HelRunCmdLine, h, hf]⟩

/-- Witness for C23: an unknown name in the sample registry, and a command line with an
argument. -/
theorem HelRunCmd_registry_errors_witness :
    (sampleCommands (goStr "zzz")).isNone = true ∧
    (∃ r, HelRunCmd 1 (some sampleCommands) (goStr "zzz") [] sampleEditor = some r ∧
      r.err = some (.notFound (goStr "zzz")) ∧ r.ran = [] ∧ r.editor = sampleEditor) ∧
    TrimSpace (goStr " tab a ") ≠ [] ∧
    (∃ name args, Fields (TrimSpace (goStr " tab a ")) = name :: args ∧
      HelRunCmdLine 2 sampleRegistry (goStr " tab a ") sampleEditor =
        HelRunCmd 2 sampleRegistry name args sampleEditor) :=
  ⟨by decide,
   HelRunCmd_registry_errors.2.1 0 sampleCommands (goStr "zzz") [] sampleEditor (by decide),
   by decide,
   HelRunCmd_registry_errors.2.2.2.2 2 sampleRegistry (goStr " tab a ") sampleEditor
     (by decide)⟩

/-- The call for `open` needs no further call: depth 1 gives its result, an error leaves
everything as it was, and a missing pane is an error. -/
theorem HelRunCmd_open (fuel : Nat) (commands : Registry) (a : List GoString) (ed : Editor) :
    ∃ r, HelRunCmd (fuel + 1) commands (goStr "open") a ed = some r ∧
      HelRunCmd 1 commands (goStr "open") a ed = some r ∧
      (r.err ≠ none → r.ran = [] ∧ r.editor = ed) ∧
      (r.err = none → ∃ bp, r.ran = [(goStr "open", bp, a)]) ∧
      (∀ e, helActiveBufPane ed = .error e → r.err ≠ none) := by
  cases commands with
  | none =>
    exact ⟨{ err := some .commandsNil, editor := ed, ran := [] }, rfl, rfl,
      fun _ => ⟨rfl, rfl⟩, fun h => by simp at h, fun _ _ => by simp⟩
  | some reg =>
    cases hr : reg (goStr "open") with
    | none =>
      exact ⟨{ err := some (.notFound (goStr "open")), editor := ed, ran := [] },
        by simp only [HelRunCmd, hr], by simp only [HelRunCmd, hr],
        fun _ => ⟨rfl, rfl⟩, fun h => by simp at h, fun _ _ => by simp⟩
    | some cmd =>
      cases ha : cmd.action with
      | none =>
        exact ⟨{ err := some (.noFunction (goStr "open")), editor := ed, ran := [] },
          by simp only [HelRunCmd, hr, ha], by simp only [HelRunCmd, hr, ha],
          fun _ => ⟨rfl, rfl⟩, fun h => by simp at h, fun _ _ => by simp⟩
      | some act =>
        cases hp : helActiveBufPane ed with
        | ok bp =>
          exact ⟨{ err := none, editor := act bp a ed, ran := [(goStr "open", bp, a)] },
            by simp only [HelRunCmd, hr, ha, hp], by simp only [HelRunCmd, hr, ha, hp],
            fun h => absurd rfl h, fun _ => ⟨bp, rfl⟩, fun e he => by simp at he⟩
        | error e =>
          exact ⟨{ err := some (.noPaneFor (goStr "open") e), editor := ed, ran := [] },
            by simp [HelRunCmd, hr, ha, hp], by simp [HelRunCmd, hr, ha, hp],
            fun _ => ⟨rfl, rfl⟩, fun h => by simp at h, fun _ _ => by simp⟩

/-- Depth 2 is enough for every call of `HelRunCmd`, more depth gives the same result, and an
error means that the requested command was not run. -/
theorem HelRunCmd_depth2 (fuel : Nat) (commands : Registry) (name : GoString)
    (args : List GoString) (ed : Editor) :
    ∃ r, HelRunCmd (fuel + 2) commands name args ed = some r ∧
      HelRunCmd 2 commands name args ed = some r ∧
      r.ran.length ≤ 2 ∧
      (r.err ≠ none → ∀ x ∈ r.ran, x.1 ≠ name) ∧
      (∀ e, helActiveBufPane ed = .error e → r.err ≠ none ∧ r.ran = [] ∧ r.editor = ed) := by
  by_cases hopen : name = goStr "open"
  · subst hopen
    obtain ⟨r, h1, h2, h3, h4, h5⟩ := HelRunCmd_open (fuel + 1) commands args ed
    obtain ⟨r', h1', h2', _⟩ := HelRunCmd_open 1 commands args ed
    rw [h2] at h2'
    refine ⟨r, h1, by rw [h1', h2'], ?_, ?_, ?_⟩
    · by_cases he : r.err = none
      · obtain ⟨bp, hb⟩ := h4 he
        simp [hb]
      · simp [(h3 he).1]
    · intro he x hx
      rw [(h3 he).1] at hx
      exact absurd hx (List.not_mem_nil _)
    · intro e hp
      exact ⟨h5 e hp, h3 (h5 e hp)⟩
  · cases commands with
    | none =>
      exact ⟨{ err := some .commandsNil, editor := ed, ran := [] }, rfl, rfl, by simp,
        fun _ x hx => absurd hx (List.not_mem_nil _), fun _ _ => ⟨by simp, rfl, rfl⟩⟩
    | some reg =>
      cases hr : reg name with
      | none =>
        exact ⟨{ err := some (.notFound name), editor := ed, ran := [] },
          by simp only [HelRunCmd, hr], by simp only [HelRunCmd, hr], by simp,
          fun _ x hx => absurd hx (List.not_mem_nil _), fun _ _ => ⟨by simp, rfl, rfl⟩⟩
      | some cmd =>
        cases ha : cmd.action with
        | none =>
          exact ⟨{ err := some (.noFunction name), editor := ed, ran := [] },
            by simp only [HelRunCmd, hr, ha], by simp only [HelRunCmd, hr, ha], by simp,
            fun _ x hx => absurd hx (List.not_mem_nil _), fun _ _ => ⟨by simp, rfl, rfl⟩⟩
        | some act =>
          cases hp : helActiveBufPane ed with
          | ok bp =>
            exact ⟨{ err := none, editor := act bp args ed, ran := [(name, bp, args)] },
              by simp only [HelRunCmd, hr, ha, hp], by simp only [HelRunCmd, hr, ha, hp],
              by simp, fun h => absurd rfl h, fun e he => by simp at he⟩
          | error e =>
            obtain ⟨r2, h1, h2, h3, h4, h5⟩ :=
              HelRunCmd_open fuel (some reg) [goStr ""] ed
            have herr : r2.err ≠ none := h5 e hp
            obtain ⟨err2, he2⟩ := Option.ne_none_iff_exists'.1 herr
            have hA : ∀ k, HelRunCmd k (some reg) (goStr "open") [goStr ""] ed = some r2 →
                HelRunCmd (k + 1) (some reg) name args ed =
                  some { err := some (.openFailed err2 e), editor := r2.editor,
                         ran := r2.ran } := by
              intro k hk
              rw [HelRunCmd]
              simp only [hr, ha, hp, hopen, ne_eq, not_false_eq_true, if_true, hk, he2]
            refine ⟨_, hA _ h1, hA _ h2, ?_, ?_, ?_⟩
            · simp [(h3 herr).1]
            · intro _ x hx
              rw [show r2.ran = [] from (h3 herr).1] at hx
              exact absurd hx (List.not_mem_nil _)
            · intro e' _
              exact ⟨by simp, (h3 herr).1, (h3 herr).2⟩

/-- C24: `HelRunCmd` terminates for every registry, command name, arguments and editor: a
call depth of 2 gives a result and more depth gives the same one.  The fallback call for
`open` is answered at depth 1 whatever the pane lookup gives, so it never calls again.  At
most two command actions run in one call.  Whenever the call returns an error the requested
command was not run, and whenever no pane is found at the start the call returns an error,
runs no action and leaves the editor as it was. -/
theorem HelRunCmd_terminates (commands : Registry) (name : GoString) (args : List GoString)
    (ed : Editor) :
    (∃ r, HelRunCmd 2 commands name args ed = some r ∧
      (∀ fuel, HelRunCmd (fuel + 2) commands name args ed = some r) ∧
      r.ran.length ≤ 2 ∧
      (r.err ≠ none → ∀ x ∈ r.ran, x.1 ≠ name) ∧
      (∀ e, helActiveBufPane ed = .error e → r.err ≠ none ∧ r.ran = [] ∧ r.editor = ed)) ∧
    (∀ (a : List GoString) (ed2 : Editor), ∃ r2,
      HelRunCmd 1 commands (goStr "open") a ed2 = some r2 ∧
      ∀ fuel, HelRunCmd (fuel + 1) commands (goStr "open") a ed2 = some r2) := by
  constructor
  · obtain ⟨r, _, h2, h3, h4, h5⟩ := HelRunCmd_depth2 0 commands name args ed
    refine ⟨r, h2, ?_, h3, h4, h5⟩
    intro fuel
    obtain ⟨r', h1', h2', _⟩ := HelRunCmd_depth2 fuel commands name args ed
    rw [h2] at h2'
    rw [h1', h2']
  · intro a ed2
    obtain ⟨r, _, h2, _⟩ := HelRunCmd_open 0 commands a ed2
    refine ⟨r, h2, ?_⟩
    intro fuel
    obtain ⟨r', h1', h2', _⟩ := HelRunCmd_open fuel commands a ed2
    rw [h2] at h2'
    rw [h1', h2']

/-- Witness for C24: the command `tab` with no main tab. -/
theorem HelRunCmd_terminates_witness :
    helActiveBufPane { mainTab := none } = .error .mainTabNil ∧
    ∃ r, HelRunCmd 2 sampleRegistry (goStr "tab") [] { mainTab := none } = some r ∧
      r.err ≠ none ∧ r.ran = [] :=
  ⟨rfl,
   (HelRunCmd_terminates sampleRegistry (goStr "tab") [] { mainTab := none }).1.elim
     (fun r h => ⟨r, h.1, (h.2.2.2.2 _ rfl).1, (h.2.2.2.2 _ rfl).2.1⟩)⟩

/-- An example of `strings.Fields` and of a command line. -/
theorem Fields_example :
    Fields (goStr " tab  a.txt\t") = [goStr "tab", goStr "a.txt"] ∧
    TrimSpace (goStr " \t ") = [] ∧
    (HelRunCmdLine 2 sampleRegistry (goStr " tab  a.txt ") sampleEditor).map (fun r => (r.err, r.ran)) =
      some (none, [(goStr "tab", 0, [goStr "a.txt"])]) := by
  refine ⟨by decide, by decide, by decide⟩

/-- An example of the fallback: with no pane the call for `open` fails as well, although the
command `open` is registered. -/
theorem HelRunCmd_fallback_example :
    (HelRunCmd 2 sampleRegistry (goStr "tab") [] { mainTab := some [] }).map
        (fun r => (r.err, r.ran)) =
      some (some (.openFailed (.noPaneFor (goStr "open") .noBufPane) .noBufPane), []) ∧
    (HelRunCmd 2 sampleRegistry (goStr "tab") [] { mainTab := some [] }).map
        (fun r => r.editor) = some { mainTab := some [] } := by
  refine ⟨by decide, by decide⟩

/-! ### The two modals together -/

/-- With the form inactive, a key handled by the menu does not leave both modals active. -/
theorem helMenuHandleKey_exclusive (run : Actions) (ev : EventKey) (st : State)
    (r : State × Bool) (hf : st.formActive = false) (h : helMenuHandleKey run ev st = some r) :
    ¬ (r.1.formActive = true ∧ r.1.helMenuActive = true) := by
  rcases helMenuHandleKey_cases run ev st with ⟨_, h1⟩ | ⟨_, h1 | h1 | ⟨cur, v, h1⟩ | ⟨it, h1⟩ | ⟨h1, _⟩⟩
  · rw [h1] at h
    rw [← Option.some.inj h]
    simp [hf]
  · rw [h1] at h
    rw [← Option.some.inj h]
    simp [helMenuCloseAll, hf]
  · rw [h1] at h
    rw [← Option.some.inj h]
    simp only [helPop]
    split <;> simp [helMenuCloseAll, hf]
  · rw [h1] at h
    rw [← Option.some.inj h]
    simp [setIdx, hf]
  · rw [h1] at h
    rw [← Option.some.inj h]
    cases hsub : it.sub with
    | some sub => simp [helSelect, hsub, helPush, setIdx, hf]
    | none =>
      cases hact : it.action with
      | none => simp [helSelect, hsub, hact, helMenuCloseAll, hf]
      | some a =>
        intro hboth
        rw [(helSelect_action_closes run it st a hsub hact).2.2] at hboth
        exact Bool.noConfusion hboth.2
  · rw [h1] at h
    exact Option.noConfusion h

/-- One cycle of `DoEvent` keeps the two modals from being active together, unless it brings a
form-open chord while the menu is active. -/
theorem DoEvent_exclusive_step (run : Actions) (hasPrompt : Bool) (tF tM : Int)
    (event : Event) (st s : State) (r : Routing)
    (hex : ¬ (st.formActive = true ∧ st.helMenuActive = true))
    (hch : ∀ ev, event = .key ev → st.helMenuActive = true → ¬ formChord ev tF st)
    (h : DoEvent run hasPrompt tF tM event st = some (s, r)) :
    ¬ (s.formActive = true ∧ s.helMenuActive = true) := by
  cases event with
  | paste text =>
    simp only [DoEvent] at h
    rw [← (Prod.mk.inj (Option.some.inj h)).1]
    exact hex
  | resize =>
    simp only [DoEvent] at h
    rw [← (Prod.mk.inj (Option.some.inj h)).1]
    exact hex
  | other =>
    simp only [DoEvent] at h
    rw [← (Prod.mk.inj (Option.some.inj h)).1]
    exact hex
  | key ev =>
    by_cases hc : formChord ev tF st
    · obtain ⟨s1, hs, _, _, _, hma, _⟩ := doEventForm_chord ev tF st hc
      rw [DoEvent_form_returns run hasPrompt tF tM ev st s1 hs] at h
      rw [← (Prod.mk.inj (Option.some.inj h)).1]
      intro hboth
      rw [hma] at hboth
      exact hch ev rfl hboth.2 hc
    · obtain ⟨h402, hd⟩ := doEventForm_noChord ev tF st hc
      have hsame := afterFormEsc_same ev tF st
      cases hfa : st.formActive with
      | true =>
        have hm : st.helMenuActive = false := by
          cases hmm : st.helMenuActive with
          | false => rfl
          | true => exact absurd ⟨hfa, hmm⟩ hex
        rw [doEventFormTail_active ev (afterFormEsc ev tF st) (by rw [hsame.1, hfa]) h402] at hd
        cases hk : helFormHandleKey ev (afterFormEsc ev tF st) with
        | none =>
          rw [hk] at hd
          simp [DoEvent, hd] at h
        | some r1 =>
          rw [hk] at hd
          obtain ⟨_, hframe⟩ := helFormHandleKey_frame ev _ r1 hk
          rw [DoEvent_form_returns run hasPrompt tF tM ev st r1.1 hd] at h
          rw [← (Prod.mk.inj (Option.some.inj h)).1]
          intro hboth
          rw [hframe.1, hsame.2.1, hm] at hboth
          exact Bool.noConfusion hboth.2
      | false =>
        have hfa1 : (afterFormEsc ev tF st).formActive = false := by rw [hsame.1, hfa]
        have hna : ¬ (ev.modAlt = true ∧ (ev.rune = 102 ∨ ev.rune = 70)) :=
          fun ha => hc (Or.inl ha)
        rw [doEventFormTail_inactive ev (afterFormEsc ev tF st) hfa1 h402, if_neg hna] at hd
        rw [DoEvent_form_passes run hasPrompt tF tM ev st _ hd] at h
        cases hm : st.helMenuActive with
        | true =>
          rw [doEventMenu_active run ev tM (afterFormEsc ev tF st)
            (by rw [hsame.2.1, hm])] at h
          cases hk : helMenuHandleKey run ev (afterFormEsc ev tF st) with
          | none =>
            rw [hk] at h
            exact Option.noConfusion h
          | some r1 =>
            rw [hk] at h
            have hs : r1.1 = s := (Prod.mk.inj (Option.some.inj h)).1
            rw [← hs]
            exact helMenuHandleKey_exclusive run ev _ r1 hfa1 hk
        | false =>
          have hm1 : (afterFormEsc ev tF st).helMenuActive = false := by rw [hsame.2.1, hm]
          by_cases hmc : menuChord ev tM (afterFormEsc ev tF st)
          · obtain ⟨s2, hs2, _, _, _, hf2⟩ := doEventMenu_chord run ev tM _ hm1 hmc
            rw [hs2] at h
            have hs : s2 = s := (Prod.mk.inj (Option.some.inj h)).1
            rw [← hs]
            intro hboth
            rw [hf2, hfa1] at hboth
            exact Bool.noConfusion hboth.1
          · rw [doEventMenu_noChord run ev tM _ hm1 hmc] at h
            have hs := (Prod.mk.inj (Option.some.inj h)).1
            rw [← hs]
            intro hboth
            split at hboth
            · exact Bool.noConfusion (hfa1.symm.trans hboth.1)
            · exact Bool.noConfusion (hfa1.symm.trans hboth.1)

/-- Counterexample for C25: from the initial state, where both modals are inactive, the cycle
for Alt+M opens the menu and the cycle for Alt+F then opens the form while the menu stays
active, so both are active. -/
theorem both_modals_active_counterexample :
    initState.formActive = false ∧ initState.helMenuActive = false ∧
    ∃ s1 s2, DoEvent (rootActions (fun _ _ => none)) false 0 0 (.key (altEvent 109)) initState =
        some (s1, .returned) ∧
      DoEvent (rootActions (fun _ _ => none)) false 0 0 (.key (altEvent 102)) s1 =
        some (s2, .returned) ∧
      s2.formActive = true ∧ s2.helMenuActive = true :=
  ⟨rfl, rfl, helMenuOpen initState, helFormOpen (helMenuOpen initState), by rfl, by rfl,
    by rfl, by rfl⟩

/-- C25 (amended): starting with both modals inactive, no sequence of `DoEvent` cycles reaches
a state with the form and the menu both active, as long as no cycle brings a form-open chord
(Alt+F, Escape then f within 200 ms, or the rune U+0192) while the menu is active; such a
chord on an active menu is consumed, opens the form and leaves the menu active, so both are
active after it. -/
theorem DoEvent_modals_exclusive (run : Actions) :
    (∀ (st0 st : State), st0.formActive = false → st0.helMenuActive = false →
      reachNoChord run st0 st → ¬ (st.formActive = true ∧ st.helMenuActive = true)) ∧
    (∀ (hasPrompt : Bool) (tF tM : Int) (ev : EventKey) (st : State),
      st.helMenuActive = true → formChord ev tF st →
      ∃ s, DoEvent run hasPrompt tF tM (.key ev) st = some (s, .returned) ∧
        s.formActive = true ∧ s.helMenuActive = true) := by
  constructor
  · intro st0 st hf hm hreach
    induction hreach with
    | start =>
      intro hboth
      rw [hf] at hboth
      exact Bool.noConfusion hboth.1
    | cycle st1 s hasPrompt tF tM event r _ hch hstep ih =>
      exact DoEvent_exclusive_step run hasPrompt tF tM event st1 s r ih hch hstep
  · intro hasPrompt tF tM ev st hm hc
    obtain ⟨s1, hs, hfa, _, _, hma, _⟩ := doEventForm_chord ev tF st hc
    exact ⟨s1, DoEvent_form_returns run hasPrompt tF tM ev st s1 hs, hfa, by rw [hma, hm]⟩

/-- Witness for C25: after Alt+M from the initial state only the menu is active, and Alt+F on
that state makes both active. -/
theorem DoEvent_modals_exclusive_witness :
    ¬ ((helMenuOpen initState).formActive = true ∧
        (helMenuOpen initState).helMenuActive = true) ∧
    ∃ s, DoEvent (rootActions (fun _ _ => none)) false 0 0 (.key (altEvent 102))
        (helMenuOpen initState) = some (s, .returned) ∧
      s.formActive = true ∧ s.helMenuActive = true :=
  ⟨(DoEvent_modals_exclusive (rootActions (fun _ _ => none))).1 initState
      (helMenuOpen initState) rfl rfl
      (.cycle initState (helMenuOpen initState) false 0 0 (.key (altEvent 109)) .returned
        .start (fun _ _ hm => Bool.noConfusion hm) (by rfl)),
   (DoEvent_modals_exclusive (rootActions (fun _ _ => none))).2 false 0 0 (altEvent 102)
      (helMenuOpen initState) rfl (Or.inl ⟨rfl, Or.inl rfl⟩)⟩

/-! ### Key isolation -/

/-- With a valid index for Enter, `helMenuHandleKey` returns. -/
theorem helMenuHandleKey_total (run : Actions) (ev : EventKey) (st : State)
    (hvalid : ev.key = .KeyEnter → curIdxValid st) :
    ∃ r, helMenuHandleKey run ev st = some r := by
  rcases helMenuHandleKey_cases run ev st with
    ⟨_, h⟩ | ⟨_, h | h | ⟨c, v, h⟩ | ⟨it, h⟩ | ⟨_, hk, c, hc, hidx⟩⟩
  · exact ⟨_, h⟩
  · exact ⟨_, h⟩
  · exact ⟨_, h⟩
  · exact ⟨_, h⟩
  · exact ⟨_, h⟩
  · exact absurd hidx (goIndex_ne_none _ _ (hvalid hk c hc).1 (hvalid hk c hc).2)

/-- Recording the Escape of the form section keeps the two invariants. -/
theorem afterFormEsc_inv (ev : EventKey) (tF : Int) (st : State) :
    (formInv st → formInv (afterFormEsc ev tF st)) ∧
    (curIdxValid st → curIdxValid (afterFormEsc ev tF st)) := by
  unfold afterFormEsc
  split
  · exact ⟨fun h => h, fun h => h⟩
  · exact ⟨fun h => h, fun h => h⟩

/-- A cycle that starts with a modal active ends in `return` whenever it ends. -/
theorem DoEvent_modal_returned (run : Actions) (hasPrompt : Bool) (tF tM : Int)
    (ev : EventKey) (st s : State) (r : Routing)
    (hmodal : st.formActive = true ∨ st.helMenuActive = true)
    (h : DoEvent run hasPrompt tF tM (.key ev) st = some (s, r)) : r = .returned := by
  by_cases hc : formChord ev tF st
  · obtain ⟨s1, hs, _⟩ := doEventForm_chord ev tF st hc
    rw [DoEvent_form_returns run hasPrompt tF tM ev st s1 hs] at h
    exact ((Prod.mk.inj (Option.some.inj h)).2).symm
  · obtain ⟨h402, hd⟩ := doEventForm_noChord ev tF st hc
    have hsame := afterFormEsc_same ev tF st
    cases hfa : st.formActive with
    | true =>
      rw [doEventFormTail_active ev (afterFormEsc ev tF st) (by rw [hsame.1, hfa]) h402] at hd
      cases hk : helFormHandleKey ev (afterFormEsc ev tF st) with
      | none =>
        rw [hk] at hd
        simp [DoEvent, hd] at h
      | some r1 =>
        rw [hk] at hd
        rw [DoEvent_form_returns run hasPrompt tF tM ev st r1.1 hd] at h
        exact ((Prod.mk.inj (Option.some.inj h)).2).symm
    | false =>
      have hm : st.helMenuActive = true := by
        rcases hmodal with hf | hm
        · rw [hfa] at hf
          exact Bool.noConfusion hf
        · exact hm
      have hfa1 : (afterFormEsc ev tF st).formActive = false := by rw [hsame.1, hfa]
      have hna : ¬ (ev.modAlt = true ∧ (ev.rune = 102 ∨ ev.rune = 70)) :=
        fun ha => hc (Or.inl ha)
      rw [doEventFormTail_inactive ev (afterFormEsc ev tF st) hfa1 h402, if_neg hna] at hd
      rw [DoEvent_form_passes run hasPrompt tF tM ev st _ hd] at h
      rw [doEventMenu_active run ev tM (afterFormEsc ev tF st) (by rw [hsame.2.1, hm])] at h
      cases hk : helMenuHandleKey run ev (afterFormEsc ev tF st) with
      | none =>
        rw [hk] at h
        exact Option.noConfusion h
      | some r1 =>
        rw [hk] at h
        exact ((Prod.mk.inj (Option.some.inj h)).2).symm

/-- A cycle that starts with a modal active ends, given the invariants of the data model. -/
theorem DoEvent_modal_total (run : Actions) (hasPrompt : Bool) (tF tM : Int)
    (ev : EventKey) (st : State)
    (hmodal : st.formActive = true ∨ st.helMenuActive = true)
    (hform : st.formActive = true → formInv st)
    (hmenu : st.helMenuActive = true → curIdxValid st) :
    ∃ s, DoEvent run hasPrompt tF tM (.key ev) st = some (s, .returned) := by
  by_cases hc : formChord ev tF st
  · obtain ⟨s1, hs, _⟩ := doEventForm_chord ev tF st hc
    exact ⟨s1, DoEvent_form_returns run hasPrompt tF tM ev st s1 hs⟩
  · obtain ⟨h402, hd⟩ := doEventForm_noChord ev tF st hc
    have hsame := afterFormEsc_same ev tF st
    cases hfa : st.formActive with
    | true =>
      rw [doEventFormTail_active ev (afterFormEsc ev tF st) (by rw [hsame.1, hfa]) h402] at hd
      obtain ⟨s1, hk, _⟩ := form_step_inv ev (afterFormEsc ev tF st)
        ((afterFormEsc_inv ev tF st).1 (hform hfa)) (by rw [hsame.1, hfa])
      rw [hk] at hd
      exact ⟨s1, DoEvent_form_returns run hasPrompt tF tM ev st s1 hd⟩
    | false =>
      have hm : st.helMenuActive = true := by
        rcases hmodal with hf | hm
        · rw [hfa] at hf
          exact Bool.noConfusion hf
        · exact hm
      have hfa1 : (afterFormEsc ev tF st).formActive = false := by rw [hsame.1, hfa]
      have hna : ¬ (ev.modAlt = true ∧ (ev.rune = 102 ∨ ev.rune = 70)) :=
        fun ha => hc (Or.inl ha)
      rw [doEventFormTail_inactive ev (afterFormEsc ev tF st) hfa1 h402, if_neg hna] at hd
      obtain ⟨r1, hk⟩ := helMenuHandleKey_total run ev (afterFormEsc ev tF st)
        (fun _ => (afterFormEsc_inv ev tF st).2 (hmenu hm))
      refine ⟨r1.1, ?_⟩
      rw [DoEvent_form_passes run hasPrompt tF tM ev st _ hd,
        doEventMenu_active run ev tM (afterFormEsc ev tF st) (by rw [hsame.2.1, hm]), hk]

/-- With both modals inactive, a key that matches no open chord goes to the normal routing. -/
theorem DoEvent_plain_routed (run : Actions) (hasPrompt : Bool) (tF tM : Int)
    (ev : EventKey) (st : State) (hf : st.formActive = false) (hm : st.helMenuActive = false)
    (hfc : ¬ formChord ev tF st) (hmc : ¬ menuChord ev tM st) :
    DoEvent run hasPrompt tF tM (.key ev) st =
      some (if ev.key = .KeyEsc then { st with helLastEscForm := tF, helLastEsc := tM } else st,
        .routed (if hasPrompt then .infoBar else .tabs) (.key ev)) := by
  obtain ⟨h402, hd⟩ := doEventForm_noChord ev tF st hfc
  have hsame := afterFormEsc_same ev tF st
  have hfa1 : (afterFormEsc ev tF st).formActive = false := by rw [hsame.1, hf]
  have hm1 : (afterFormEsc ev tF st).helMenuActive = false := by rw [hsame.2.1, hm]
  have hna : ¬ (ev.modAlt = true ∧ (ev.rune = 102 ∨ ev.rune = 70)) :=
    fun ha => hfc (Or.inl ha)
  have hmc1 : ¬ menuChord ev tM (afterFormEsc ev tF st) := by
    unfold menuChord at hmc ⊢
    rw [hsame.2.2.2.2.2.1]
    exact hmc
  rw [doEventFormTail_inactive ev (afterFormEsc ev tF st) hfa1 h402, if_neg hna] at hd
  rw [DoEvent_form_passes run hasPrompt tF tM ev st _ hd,
    doEventMenu_noChord run ev tM _ hm1 hmc1]
  by_cases hk : ev.key = .KeyEsc
  · cases hasPrompt <;> simp [afterFormEsc, hk, normalRouting]
  · cases hasPrompt <;> simp [afterFormEsc, hk, normalRouting]

/-- C26: a key event of a `DoEvent` cycle that starts with the form active or the menu active
never reaches the normal routing: every way the cycle ends is the early `return`, and with the
invariants of the data model (the form invariant while the form is active, a valid index of the
current node while the menu is active) the cycle does end so.  The same key event in a state
with both modals inactive, matching neither open chord, goes to exactly one collaborator, the
InfoBar when a prompt is active and the Tabs otherwise, the state being unchanged but for the
two Escape clocks that an Escape key records. -/
theorem DoEvent_key_isolation (run : Actions) (hasPrompt : Bool) (tF tM : Int)
    (ev : EventKey) (st : State) :
    ((st.formActive = true ∨ st.helMenuActive = true) →
      (∀ s r, DoEvent run hasPrompt tF tM (.key ev) st = some (s, r) → r = .returned) ∧
      ((st.formActive = true → formInv st) → (st.helMenuActive = true → curIdxValid st) →
        ∃ s, DoEvent run hasPrompt tF tM (.key ev) st = some (s, .returned))) ∧
    (st.formActive = false → st.helMenuActive = false →
      ¬ formChord ev tF st → ¬ menuChord ev tM st →
      DoEvent run hasPrompt tF tM (.key ev) st =
        some (if ev.key = .KeyEsc then { st with helLastEscForm := tF, helLastEsc := tM }
              else st,
          .routed (if hasPrompt then .infoBar else .tabs) (.key ev))) :=
  ⟨fun hmodal =>
    ⟨fun s r h => DoEvent_modal_returned run hasPrompt tF tM ev st s r hmodal h,
     fun hform hmenu => DoEvent_modal_total run hasPrompt tF tM ev st hmodal hform hmenu⟩,
   fun hf hm hfc hmc => DoEvent_plain_routed run hasPrompt tF tM ev st hf hm hfc hmc⟩

/-- Witness for C26: the key x on the freshly opened root menu ends in `return`; the same key
in the initial state, with a prompt active, goes to the InfoBar. -/
theorem DoEvent_key_isolation_witness :
    ((helMenuOpen initState).formActive = true ∨ (helMenuOpen initState).helMenuActive = true) ∧
    (∃ s, DoEvent (rootActions (fun _ _ => none)) true 0 0 (.key (runeEvent 120))
        (helMenuOpen initState) = some (s, .returned)) ∧
    ¬ formChord (runeEvent 120) 0 initState ∧ ¬ menuChord (runeEvent 120) 0 initState ∧
    DoEvent (rootActions (fun _ _ => none)) true 0 0 (.key (runeEvent 120)) initState =
      some (if (runeEvent 120).key = .KeyEsc then
              { initState with helLastEscForm := 0, helLastEsc := 0 }
            else initState,
        .routed (if true = true then .infoBar else .tabs) (.key (runeEvent 120))) :=
  ⟨Or.inr rfl,
   ((DoEvent_key_isolation (rootActions (fun _ _ => none)) true 0 0 (runeEvent 120)
      (helMenuOpen initState)).1 (Or.inr rfl)).2
      (fun h => Bool.noConfusion h)
      (fun _ cur hcur => by
        have h3 : cur = 3 := by
          have : helCur (helMenuOpen initState) = some 3 := by decide
          rw [this] at hcur
          exact (Option.some.inj hcur).symm
        subst h3
        decide),
   by unfold formChord; decide,
   by unfold menuChord; decide,
   (DoEvent_key_isolation (rootActions (fun _ _ => none)) true 0 0 (runeEvent 120)
      initState).2 rfl rfl (by unfold formChord; decide) (by unfold menuChord; decide)⟩

end Micro
